import Mathlib

/-!
Verification of the BypassAIGC word-formatter backend
(`package/backend/app/word_formatter`): a shallow embedding in Lean 4 of the
data model and the operations of the validator, fixer, spec round-trip,
plain-text parser, compiler error handling, job manager and OOXML package
serializer, with theorems settling the specification claims.

Conventions of the embedding:
* XML elements (lxml `etree._Element`) are modelled by the mutual inductive
  `Xml`/`XmlList`; tags are kept as their `w:`-prefixed qualified names
  (the code resolves every tag through the single namespace map
  `NSMAP = w -> wordprocessingml/2006/main`, so qualified names are in
  bijection with the `(uri, local)` pairs the source compares).
* A `.docx` is modelled at the level of its parsed package: the member map
  and, for `word/document.xml`, the parsed tree (`DocxPackage.from_bytes`
  followed by `read_xml` recovers exactly these from the bytes).
* Python `float` quantities (millimetres, points) are modelled by `Rat`;
  Python `round` is round-half-to-even, modelled by `pyRound`.
* Fallible Python code (`int(val)` parsing inside `validate_docx`) is
  modelled in `Except PyErr`.
* Python strings are Lean `String`s / `List Char`; only the whitespace and
  digit characters that can actually reach the parsers are modelled (see
  `isPySpace`, `isPyDigit`).
-/

set_option autoImplicit false

namespace WordFormatter

/-! ## Python basics: whitespace, digits, `str(int)`, `int(str)`, `round` -/

/-- Characters Python's `str.split()` / regex `\s` treat as whitespace,
restricted to those that can occur inside one line produced by
`str.splitlines()` (newline-like characters cannot): space, tab, NBSP and
the ideographic space U+3000.  (Further exotic Unicode spaces are not
modelled; no claim depends on them.) -/
def isPySpace (c : Char) : Bool :=
  c.toNat = 32 ∨ c.toNat = 9 ∨ c.toNat = 160 ∨ c.toNat = 0x3000

/-- ASCII decimal digit. -/
def isAsciiDigit (c : Char) : Bool :=
  48 ≤ c.toNat ∧ c.toNat ≤ 57

/-- Characters Python's regex `\d` matches, restricted to ASCII digits and
the full-width digits U+FF10-U+FF19 (the decimal digits relevant to the
sources; other Unicode `Nd` characters are not modelled). -/
def isPyDigit (c : Char) : Bool :=
  isAsciiDigit c ∨ (0xFF10 ≤ c.toNat ∧ c.toNat ≤ 0xFF19)

/-- Python `str.strip()` on a character list (modelled whitespace). -/
def pyStrip (l : List Char) : List Char :=
  ((l.dropWhile isPySpace).reverse.dropWhile isPySpace).reverse

/-- Python `str.strip()` on a string. -/
def pyStripS (s : String) : String :=
  String.mk (pyStrip s.data)

/-- Decimal digit characters of a natural number, most significant
first; structural recursion on a fuel bound so that the kernel can
evaluate it (`fuel` only needs to exceed the number of digits). -/
def natDigitsF : Nat → Nat → List Char
  | 0, _ => []
  | fuel + 1, n =>
    if n < 10 then [Char.ofNat (48 + n)]
    else natDigitsF fuel (n / 10) ++ [Char.ofNat (48 + n % 10)]

/-- Decimal digit characters of a natural number, most significant first. -/
def natDigits (n : Nat) : List Char :=
  natDigitsF (n + 1) n

/-- Python `str(n)` for a natural number. -/
def decimalStr (n : Nat) : String :=
  String.mk (natDigits n)

/-- Python `str(i)` for an `int`. -/
def intStr (i : Int) : String :=
  if i < 0 then "-" ++ decimalStr i.natAbs else decimalStr i.natAbs

/-- Value of a list of ASCII decimal digit characters. -/
def digitsVal (l : List Char) : Nat :=
  l.foldl (fun acc c => acc * 10 + (c.toNat - 48)) 0

/-- Python `int(s)` on a string: optional surrounding whitespace, an
optional sign, then at least one ASCII digit (underscore grouping and
non-ASCII digits are not modelled).  Returns `none` where Python raises
`ValueError`. -/
def pyInt (s : String) : Option Int :=
  let l := s.data.dropWhile isPySpace
  let core := (l.reverse.dropWhile isPySpace).reverse
  match core with
  | [] => none
  | c :: rest =>
    if c = '-' then
      if rest ≠ [] ∧ rest.all isAsciiDigit then some (-(digitsVal rest : Int)) else none
    else if c = '+' then
      if rest ≠ [] ∧ rest.all isAsciiDigit then some (digitsVal rest : Int) else none
    else
      if (c :: rest).all isAsciiDigit then some (digitsVal (c :: rest) : Int) else none

/-- Python `round` on a rational: round half to even, returning an
`Int`.  Written with `Int.fdiv` (floor division) and numerator/
denominator arithmetic so that the kernel can evaluate it: with
`fl = ⌊q⌋` and `rem = q.num - fl * q.den`, the fraction `q - fl`
compares to `1/2` as `2 * rem` compares to `q.den`. -/
def pyRound (q : Rat) : Int :=
  let fl := Int.fdiv q.num (q.den : Int)
  let rem2 := 2 * (q.num - fl * (q.den : Int))
  if rem2 < (q.den : Int) then fl
  else if rem2 > (q.den : Int) then fl + 1
  else if fl % 2 = 0 then fl else fl + 1

/-- `_mm_to_twips` of `fixer.py` / `validator.py`:
`int(round(mm / 25.4 * 1440))`; as an exact rational,
`mm / 25.4 * 1440 = mm * 7200 / 127`. -/
def mmToTwips (mm : Rat) : Int :=
  pyRound (Rat.divInt (mm.num * 7200) ((mm.den : Int) * 127))

/-! ## DocAST (`models/ast.py`)

Only the parts of the block model that the deterministic parsers produce
and the claims mention are carried in full; the payloads of the block
variants mirror `models/ast.py`. -/

/-- `Inline` of `models/ast.py`. -/
structure Inline where
  type : String
  text : String
  deriving DecidableEq, Repr

/-- The tagged block union of `models/ast.py`. -/
inductive Block where
  | heading (level : Nat) (text : String)
  | para (text : Option String) (inlines : Option (List Inline))
  | list (ordered : Bool) (items : List (List Inline))
  | table (rows : List (List String)) (caption : Option String)
  | figure (path : String) (caption : Option String)
  | pageBreak
  | sectionBreak (kind : String)
  | bibliography (items : List String)
  deriving DecidableEq, Repr

/-- Paragraph block carrying plain text (`ParagraphBlock(text=t)`). -/
def Block.paraText (t : String) : Block :=
  Block.para (some t) none

/-- `DocumentMeta` of `models/ast.py`. -/
structure DocumentMeta where
  title_cn : Option String := none
  title_en : Option String := none
  author : Option String := none
  major : Option String := none
  tutor : Option String := none
  extra : List (String × String) := []
  deriving DecidableEq, Repr

/-- `DocumentAST` of `models/ast.py`. -/
structure DocumentAST where
  meta : DocumentMeta
  blocks : List Block
  deriving DecidableEq, Repr

/-! ## Plain-text heuristic parser (`services/ast_generator.py`) -/

/-- Lookup in an (insertion-ordered) Python dict modelled as a list. -/
def dictGet (d : List (String × String)) (k : String) : Option String :=
  (d.find? (fun p => p.1 = k)).map (fun p => p.2)

/-- `_parse_front_matter`: a leading `---` line, `key: value` lines, and a
closing `---` line; otherwise the text is returned unchanged.  Lines are
`str.splitlines()`; newlines are modelled as `\n`. -/
def parseFrontMatter (text : String) : List (String × String) × String :=
  let lines := text.splitOn "\n"
  match lines with
  | [] => ([], text)
  | first :: rest =>
    if pyStripS first = "---" then
      frontLoop rest []
    else ([], text)
where
  /-- Scan for the closing `---`, collecting `key: value` pairs. -/
  frontLoop : List String → List (String × String) → List (String × String) × String
    | [], _ => ([], text)
    | l :: ls, acc =>
      if pyStripS l = "---" then (acc.reverse, String.intercalate "\n" ls)
      else
        match l.splitOn ":" with
        | [] => frontLoop ls acc
        | [_] => frontLoop ls acc
        | k :: vparts => frontLoop ls ((pyStripS k, pyStripS (String.intercalate ":" vparts)) :: acc)

/-- Separator characters `[\.．]` of `_HEADING_NUM_RE`. -/
def isHeadSep (c : Char) : Bool :=
  c = '.' ∨ c = '．'

/-- Maximal-munch `([\.．](\d+))*` with a structural fuel bound (each
step consumes at least one character, so any `fuel ≥ length` computes
the fixed point): returns the matched group characters and the remaining
characters. -/
def sepDigitGroupsF : Nat → List Char → List Char × List Char
  | 0, l => ([], l)
  | _ + 1, [] => ([], [])
  | fuel + 1, c :: rest =>
    if isHeadSep c ∧ rest.takeWhile isPyDigit ≠ [] then
      let g := sepDigitGroupsF fuel (rest.dropWhile isPyDigit)
      (c :: (rest.takeWhile isPyDigit ++ g.1), g.2)
    else ([], c :: rest)

/-- Maximal-munch `([\.．](\d+))*`: the matched group characters and the
remaining characters. -/
def sepDigitGroups (l : List Char) : List Char × List Char :=
  sepDigitGroupsF l.length l

/-- `_HEADING_NUM_RE = ^\s*(\d+)([\.．](\d+))*([\.．](\d+))*\s+(.+)$`
matched against a whole line (regex `.match` anchored at the start, and
the trailing `$` holds because a line contains no newline).  On success
returns the numeric prefix (digits and separators) and the remainder
(which starts with the `\s+`).  Maximal munch is complete for this
pattern, so no backtracking is modelled. -/
def headingNumParse (l : List Char) : Option (List Char × List Char) :=
  if (l.dropWhile isPySpace).takeWhile isPyDigit = [] then none
  else
    match (sepDigitGroups ((l.dropWhile isPySpace).dropWhile isPyDigit)).2 with
    | c1 :: _ :: _ =>
      if isPySpace c1 then
        some ((l.dropWhile isPySpace).takeWhile isPyDigit ++
            (sepDigitGroups ((l.dropWhile isPySpace).dropWhile isPyDigit)).1,
          (sepDigitGroups ((l.dropWhile isPySpace).dropWhile isPyDigit)).2)
      else none
    | _ => none

/-- `line.split()[0]`: the first whitespace-separated token. -/
def firstToken (l : List Char) : List Char :=
  (l.dropWhile isPySpace).takeWhile (fun c => ¬ isPySpace c)

/-- `line.split(None, 1)`: the remainder after the first token and the
following whitespace run (empty if nothing remains). -/
def splitRemainder (l : List Char) : List Char :=
  (((l.dropWhile isPySpace).dropWhile (fun c => ¬ isPySpace c)).dropWhile isPySpace)

/-- `prefix.count(".") + prefix.count("．")` of the heading branch. -/
def countSeps (l : List Char) : Nat :=
  l.countP (fun c => isHeadSep c)

/-- The heading level computed by `parse_plaintext_heuristic`:
`min(1 + sep_count, 3)` where `sep_count` counts separators in
`line.split()[0]`. -/
def headingLevel (line : String) : Nat :=
  min (1 + countSeps (firstToken line.data)) 3

/-- The heading title computed by `parse_plaintext_heuristic`:
`line.split(None, 1)[1].strip()` when the split has two parts, else
`line.strip()`. -/
def headingTitle (line : String) : String :=
  if splitRemainder line.data = [] then pyStripS line
  else String.mk (pyStrip (splitRemainder line.data))

/-- `flush_para` of `parse_plaintext_heuristic`: join the buffer with
newlines, strip, and append a paragraph block if non-empty. -/
def flushPara (blocks : List Block) (buf : List String) : List Block :=
  if buf = [] then blocks
  else
    let t := pyStripS (String.intercalate "\n" buf.reverse)
    if t = "" then blocks else blocks ++ [Block.paraText t]

/-- One iteration of the line loop of `parse_plaintext_heuristic`.
State: accumulated blocks and the paragraph buffer (most recent line
first; the Python code appends, we cons and reverse at flush time). -/
def stepLine (st : List Block × List String) (line : String) : List Block × List String :=
  let blocks := st.1
  let buf := st.2
  if pyStripS line = "" then (flushPara blocks buf, [])
  else if pyStripS line = "[[PAGEBREAK]]" ∨ pyStripS line = "---pagebreak---" then
    (flushPara blocks buf ++ [Block.pageBreak], [])
  else if pyStripS line = "[[SECTIONBREAK]]" ∨ pyStripS line = "---sectionbreak---" then
    (flushPara blocks buf ++ [Block.sectionBreak "next_page"], [])
  else
    match headingNumParse line.data with
    | some _ =>
      (flushPara blocks buf ++ [Block.heading (headingLevel line) (headingTitle line)], [])
    | none => (blocks, line :: buf)

/-- `DocumentMeta` built from a front-matter dict (both plain-text and
markdown parsers build it this way). -/
def metaOfDict (meta : List (String × String)) : DocumentMeta :=
  { title_cn := dictGet meta "title_cn"
    title_en := dictGet meta "title_en"
    author := dictGet meta "author"
    major := dictGet meta "major"
    tutor := dictGet meta "tutor"
    extra := meta.filter (fun p =>
      p.1 ∉ ["title_cn", "title_en", "author", "major", "tutor"]) }

/-- `parse_plaintext_heuristic` of `services/ast_generator.py`. -/
def parsePlaintextHeuristic (text : String) : DocumentAST :=
  let fm := parseFrontMatter text
  let lines := fm.2.splitOn "\n"
  let st := lines.foldl stepLine ([], [])
  { meta := metaOfDict fm.1, blocks := flushPara st.1 st.2 }

/-! ## XML trees (lxml `etree._Element`)

Mutual inductive so that structural recursion and mutual induction stay
elementary.  An element holds its qualified tag (`w:`-prefixed), its
attribute list (lxml keeps attributes as an ordered unique-keyed mapping;
`set` updates in place or appends) and its children. -/

mutual
/-- An XML node. -/
inductive Xml where
  | elem (tag : String) (attrs : List (String × String)) (children : XmlList)
  | txt (s : String)
  deriving DecidableEq, Repr
/-- A list of XML nodes (children of an element, or a forest). -/
inductive XmlList where
  | nil
  | cons (x : Xml) (xs : XmlList)
  deriving DecidableEq, Repr
end

namespace XmlList

/-- Append two children lists. -/
def append : XmlList → XmlList → XmlList
  | .nil, ys => ys
  | .cons x xs, ys => .cons x (append xs ys)

/-- Children list from a Lean list. -/
def ofList : List Xml → XmlList
  | [] => .nil
  | x :: xs => .cons x (ofList xs)

/-- Number of children. -/
def len : XmlList → Nat
  | .nil => 0
  | .cons _ xs => 1 + len xs

/-- Python `list.insert(i, x)` semantics (clamping at the end), as used by
lxml `element.insert`. -/
def insertAt : XmlList → Nat → Xml → XmlList
  | .nil, _, y => .cons y .nil
  | .cons x xs, 0, y => .cons y (.cons x xs)
  | .cons x xs, n + 1, y => .cons x (insertAt xs n y)

end XmlList

/-- The local part of a qualified tag (`etree.QName(el).localname`):
the part after the first `:` (the whole tag if there is none). -/
def localName (tag : String) : String :=
  match tag.splitOn ":" with
  | [] => tag
  | [t] => t
  | _ :: rest => String.intercalate ":" rest

namespace Xml

/-- The tag of a node (text nodes have no tag). -/
def tagOf : Xml → String
  | .elem t _ _ => t
  | .txt _ => ""

/-- Is this node an element with the given tag? -/
def isTag (tag : String) : Xml → Bool
  | .elem t _ _ => t = tag
  | .txt _ => false

/-- The attribute list of a node. -/
def attrsOf : Xml → List (String × String)
  | .elem _ a _ => a
  | .txt _ => []

/-- The children of a node. -/
def childrenOf : Xml → XmlList
  | .elem _ _ cs => cs
  | .txt _ => .nil

end Xml

/-- `element.get(k)`: first binding of the attribute key. -/
def getAttr (attrs : List (String × String)) (k : String) : Option String :=
  (attrs.find? (fun p => p.1 = k)).map (fun p => p.2)

/-- `element.set(k, v)`: update the existing binding in place, else append
at the end (lxml attribute-dict semantics). -/
def setAttr (attrs : List (String × String)) (k v : String) : List (String × String) :=
  match attrs with
  | [] => [(k, v)]
  | (k0, v0) :: rest => if k0 = k then (k0, v) :: rest else (k0, v0) :: setAttr rest k v

/-- A sequence of `element.set` calls, leftmost first. -/
def setAttrs (attrs : List (String × String)) (ws : List (String × String)) :
    List (String × String) :=
  ws.foldl (fun a p => setAttr a p.1 p.2) attrs

/-- `element.get(k)` on a node. -/
def Xml.getA (x : Xml) (k : String) : Option String :=
  getAttr x.attrsOf k

/-- First direct child element with the given tag (lxml `find("w:tag")`). -/
def findChild (tag : String) : XmlList → Option Xml
  | .nil => none
  | .cons c rest =>
    match c with
    | .elem t _ _ => if t = tag then some c else findChild tag rest
    | .txt _ => findChild tag rest

/-- lxml `el.find("w:tag")`. -/
def Xml.find (x : Xml) (tag : String) : Option Xml :=
  findChild tag x.childrenOf

/-- All direct child elements with the given tag (lxml `findall("w:tag")`). -/
def childElems (tag : String) : XmlList → List Xml
  | .nil => []
  | .cons c rest =>
    match c with
    | .elem t _ _ => if t = tag then c :: childElems tag rest else childElems tag rest
    | .txt _ => childElems tag rest

/-- Is there a direct child element with the given tag? -/
def hasChild (tag : String) (cs : XmlList) : Bool :=
  (findChild tag cs).isSome

mutual
/-- All descendant elements with the given tag, in document order
(lxml `findall(".//w:tag")` from a node: the node itself is excluded). -/
def descElems (tag : String) : Xml → List Xml
  | .txt _ => []
  | .elem _ _ cs => descElemsL tag cs
/-- Descendant elements with the given tag of a forest: members of the
forest that match come first (each followed by its own matching
descendants), left to right. -/
def descElemsL (tag : String) : XmlList → List Xml
  | .nil => []
  | .cons c rest =>
    (match c with
     | .elem t a cs => (if t = tag then [Xml.elem t a cs] else []) ++ descElemsL tag cs
     | .txt _ => []) ++ descElemsL tag rest
end

mutual
/-- Rewrite the `n`-th (0-based, document order) descendant element with
the given tag; the traversal does not descend into the rewritten node.
Returns the new node and `none` if the rewrite happened, or `some m` with
the number of matches still to skip. -/
def mapNthDescX (tag : String) (f : Xml → Xml) (n : Nat) : Xml → Xml × Option Nat
  | .txt s => (.txt s, some n)
  | .elem t a cs =>
    if t = tag then
      if n = 0 then (f (.elem t a cs), none)
      else
        let r := mapNthDescL tag f (n - 1) cs
        (.elem t a r.1, r.2)
    else
      let r := mapNthDescL tag f n cs
      (.elem t a r.1, r.2)
/-- Forest version of `mapNthDescX`. -/
def mapNthDescL (tag : String) (f : Xml → Xml) (n : Nat) : XmlList → XmlList × Option Nat
  | .nil => (.nil, some n)
  | .cons c rest =>
    let r := mapNthDescX tag f n c
    match r.2 with
    | none => (.cons r.1 rest, none)
    | some n1 =>
      let r2 := mapNthDescL tag f n1 rest
      (.cons r.1 r2.1, r2.2)
end

/-- The forbidden direct run-property tags of
`_apply_clear_direct_formatting` (also the keys of `_DIRECT_RPR_TAGS` of
the validator), compared by local name. -/
def forbiddenRPrTags : List String :=
  ["rFonts", "sz", "szCs", "b", "bCs", "i", "iCs", "u", "color"]

/-- Does this node get removed from an `w:rPr` element by
`_apply_clear_direct_formatting`? -/
def isForbiddenChild (c : Xml) : Bool :=
  match c with
  | .elem t _ _ => localName t ∈ forbiddenRPrTags
  | .txt _ => false

mutual
/-- `_apply_clear_direct_formatting`'s tree effect below a paragraph:
every descendant `w:rPr` element has its forbidden direct children
removed (lxml snapshots `.//w:rPr` and removes in place; removals inside
already-removed subtrees do not affect the tree, so a single top-down
pass that drops forbidden children and recurses into what is kept
produces the same tree). -/
def clearFmtX : Xml → Xml
  | .txt s => .txt s
  | .elem t a cs =>
    if t = "w:rPr" then .elem t a (clearFmtKeepL cs) else .elem t a (clearFmtL cs)
/-- `clearFmtX` on each member of a forest. -/
def clearFmtL : XmlList → XmlList
  | .nil => .nil
  | .cons c rest => .cons (clearFmtX c) (clearFmtL rest)
/-- Children of an `w:rPr`: drop the forbidden ones, recurse into the
others. -/
def clearFmtKeepL : XmlList → XmlList
  | .nil => .nil
  | .cons c rest =>
    if isForbiddenChild c then clearFmtKeepL rest
    else .cons (clearFmtX c) (clearFmtKeepL rest)
end

/-- Apply `f` to the first direct child element with the given tag
(identity if there is none). -/
def mapFirstChild (tag : String) (f : Xml → Xml) : XmlList → XmlList
  | .nil => .nil
  | .cons c rest =>
    match c with
    | .elem t a cs => if t = tag then .cons (f (.elem t a cs)) rest
                      else .cons c (mapFirstChild tag f rest)
    | .txt s => .cons (.txt s) (mapFirstChild tag f rest)

/-- Apply `f` to the last direct child element with the given tag
(identity if there is none). -/
def mapLastChild (tag : String) (f : Xml → Xml) : XmlList → XmlList
  | .nil => .nil
  | .cons c rest =>
    match c with
    | .elem t a cs =>
      if t = tag ∧ ¬ hasChild tag rest then .cons (f (.elem t a cs)) rest
      else .cons c (mapLastChild tag f rest)
    | .txt s => .cons (.txt s) (mapLastChild tag f rest)

/-- The concatenated direct text-node content of a children list. -/
def directTexts : XmlList → String
  | .nil => ""
  | .cons (.txt s) rest => s ++ directTexts rest
  | .cons (.elem _ _ _) rest => directTexts rest

mutual
/-- Concatenated text of all descendant `w:t` elements' direct text nodes,
document order (the `.//w:t/text()` xpath of `_get_text`). -/
def wtexts (x : Xml) : String :=
  match x with
  | .txt _ => ""
  | .elem t _ cs => if t = "w:t" then directTexts cs ++ wtextsL cs else wtextsL cs
/-- Forest version of `wtexts`. -/
def wtextsL : XmlList → String
  | .nil => ""
  | .cons c rest => wtexts c ++ wtextsL rest
end

/-! ## StyleSpec (`models/stylespec.py`)

Pydantic models become structures over `Rat`/`String`; each model's
`Field` bounds, `Literal` constraints and validators become a `Valid`
predicate (a value constructed by pydantic always satisfies it). -/

/-- `MarginMM`. -/
structure MarginMM where
  top : Rat
  bottom : Rat
  left : Rat
  right : Rat
  binding : Rat := 0
  deriving DecidableEq, Repr

/-- `Field` constraints of `MarginMM`. -/
def MarginMM.Valid (m : MarginMM) : Prop :=
  0 ≤ m.top ∧ 0 ≤ m.bottom ∧ 0 ≤ m.left ∧ 0 ≤ m.right ∧ 0 ≤ m.binding

/-- `PageSpec`. -/
structure PageSpec where
  size : String := "A4"
  margins_mm : MarginMM
  header_mm : Rat := 0
  footer_mm : Rat := 0
  deriving DecidableEq, Repr

/-- Constraints of `PageSpec` (`size` is `Literal["A4"]`). -/
def PageSpec.Valid (p : PageSpec) : Prop :=
  p.size = "A4" ∧ p.margins_mm.Valid ∧ 0 ≤ p.header_mm ∧ 0 ≤ p.footer_mm

/-- `FontMapping`. -/
structure FontMapping where
  eastAsia : String
  ascii : String
  hAnsi : String
  deriving DecidableEq, Repr

/-- The `Alignment` literal set. -/
def alignmentValues : List String :=
  ["left", "center", "right", "justify"]

/-- The `LineSpacingRule` literal set. -/
def lineSpacingRules : List String :=
  ["single", "1.5", "double", "exact"]

/-- `StyleParagraph`. -/
structure StyleParagraph where
  alignment : String := "justify"
  line_spacing_rule : String := "single"
  line_spacing : Option Rat := none
  space_before_pt : Rat := 0
  space_after_pt : Rat := 0
  space_before_lines : Option Rat := none
  space_after_lines : Option Rat := none
  first_line_indent_chars : Rat := 0
  hanging_indent_chars : Rat := 0
  keep_with_next : Bool := false
  keep_lines : Bool := false
  page_break_before : Bool := false
  widows_control : Bool := true
  deriving DecidableEq, Repr

/-- Constraints of `StyleParagraph`. -/
def StyleParagraph.Valid (s : StyleParagraph) : Prop :=
  s.alignment ∈ alignmentValues ∧ s.line_spacing_rule ∈ lineSpacingRules ∧
  0 ≤ s.space_before_pt ∧ 0 ≤ s.space_after_pt ∧
  (∀ q ∈ s.space_before_lines, 0 ≤ q) ∧ (∀ q ∈ s.space_after_lines, 0 ≤ q) ∧
  0 ≤ s.first_line_indent_chars ∧ 0 ≤ s.hanging_indent_chars

/-- `StyleRun`. -/
structure StyleRun where
  bold : Bool := false
  italic : Bool := false
  underline : Bool := false
  size_pt : Rat
  font : FontMapping
  deriving DecidableEq, Repr

/-- Constraints of `StyleRun` (`size_pt > 0`). -/
def StyleRun.Valid (r : StyleRun) : Prop :=
  0 < r.size_pt

/-- `StyleDef`. -/
structure StyleDef where
  style_id : String
  name : String
  based_on : Option String := none
  is_heading : Bool := false
  outline_level : Option Int := none
  run : StyleRun
  paragraph : StyleParagraph
  deriving DecidableEq, Repr

/-- Constraints of `StyleDef`. -/
def StyleDef.Valid (s : StyleDef) : Prop :=
  s.style_id ≠ "" ∧ s.name ≠ "" ∧
  (∀ n ∈ s.outline_level, 0 ≤ n ∧ n ≤ 8) ∧ s.run.Valid ∧ s.paragraph.Valid

/-- `NumberingLevel`. -/
structure NumberingLevel where
  level : Int
  style_id : String
  start : Int := 1
  fmt : String := "decimal"
  lvl_text : String
  suffix : String := "space"
  deriving DecidableEq, Repr

/-- Constraints of `NumberingLevel`. -/
def NumberingLevel.Valid (n : NumberingLevel) : Prop :=
  0 ≤ n.level ∧ n.level ≤ 8 ∧ 1 ≤ n.start ∧ n.fmt = "decimal" ∧
  n.suffix ∈ ["space", "tab", "nothing"]

/-- `NumberingSpec`. -/
structure NumberingSpec where
  abstract_num_id : Int := 1
  num_id : Int := 1
  levels : List NumberingLevel
  deriving DecidableEq, Repr

/-- Constraints of `NumberingSpec`. -/
def NumberingSpec.Valid (n : NumberingSpec) : Prop :=
  1 ≤ n.abstract_num_id ∧ 1 ≤ n.num_id ∧ ∀ l ∈ n.levels, l.Valid

/-- `ForbiddenDirectFormatting`. -/
structure ForbiddenDirectFormatting where
  font : Bool := true
  size : Bool := true
  bold : Bool := true
  italic : Bool := true
  underline : Bool := true
  color : Bool := true
  deriving DecidableEq, Repr

/-- `StructureSpec`. -/
structure StructureSpec where
  required_h1_titles : List String := []
  toc_max_level : Int := 3
  deriving DecidableEq, Repr

/-- Constraints of `StructureSpec` (`toc_max_level` in 1..8). -/
def StructureSpec.Valid (s : StructureSpec) : Prop :=
  1 ≤ s.toc_max_level ∧ s.toc_max_level ≤ 8

/-- The `PageNumFormat` literal set. -/
def pageNumFormats : List String :=
  ["romanUpper", "romanLower", "decimal"]

/-- `PageNumberingSpec`. -/
structure PageNumberingSpec where
  enabled : Bool := true
  front_format : String := "romanUpper"
  front_start : Int := 1
  main_format : String := "decimal"
  main_start : Int := 1
  show_in_footer : Bool := true
  footer_alignment : String := "center"
  deriving DecidableEq, Repr

/-- Constraints of `PageNumberingSpec`. -/
def PageNumberingSpec.Valid (p : PageNumberingSpec) : Prop :=
  p.front_format ∈ pageNumFormats ∧ 1 ≤ p.front_start ∧
  p.main_format ∈ pageNumFormats ∧ 1 ≤ p.main_start ∧
  p.footer_alignment ∈ alignmentValues

/-- `StyleSpec`. -/
structure StyleSpec where
  meta : List (String × String) := []
  page : PageSpec
  styles : List (String × StyleDef)
  numbering : Option NumberingSpec := none
  structure_ : StructureSpec := {}
  forbidden_direct_formatting : ForbiddenDirectFormatting := {}
  page_numbering : Option PageNumberingSpec := none
  auto_prefix_abstract_keywords : Bool := false
  auto_number_figures_tables : Bool := false
  deriving DecidableEq, Repr

/-- Constraints of `StyleSpec`, including the `_style_ids_must_match_keys`
validator; dict keys are unique. -/
def StyleSpec.Valid (s : StyleSpec) : Prop :=
  s.page.Valid ∧ (s.styles.map Prod.fst).Nodup ∧ (s.meta.map Prod.fst).Nodup ∧
  (∀ p ∈ s.styles, p.1 = p.2.style_id ∧ p.2.Valid) ∧
  (∀ n ∈ s.numbering, n.Valid) ∧ s.structure_.Valid ∧
  (∀ p ∈ s.page_numbering, p.Valid)

/-! ### The JSON image of a StyleSpec

`export_spec_to_json` is `model_dump_json(indent=2, exclude_none=True)`;
`validate_custom_spec` is `json.loads` + `model_validate`.  The JSON text
layer is modelled by the structured object that `json.loads` returns:
each pydantic model becomes a record whose fields with a default are
optional (`Option`, `none` = key absent), since `exclude_none` omits
exactly the `None`-valued (hence `Optional`-typed) fields and
`model_validate` fills defaults for the missing ones. -/

/-- JSON object for `MarginMM`. -/
structure MarginMMJson where
  top : Rat
  bottom : Rat
  left : Rat
  right : Rat
  binding : Option Rat := none
  deriving DecidableEq, Repr

/-- JSON object for `PageSpec`. -/
structure PageSpecJson where
  size : Option String := none
  margins_mm : MarginMMJson
  header_mm : Option Rat := none
  footer_mm : Option Rat := none
  deriving DecidableEq, Repr

/-- JSON object for `StyleParagraph`. -/
structure StyleParagraphJson where
  alignment : Option String := none
  line_spacing_rule : Option String := none
  line_spacing : Option Rat := none
  space_before_pt : Option Rat := none
  space_after_pt : Option Rat := none
  space_before_lines : Option Rat := none
  space_after_lines : Option Rat := none
  first_line_indent_chars : Option Rat := none
  hanging_indent_chars : Option Rat := none
  keep_with_next : Option Bool := none
  keep_lines : Option Bool := none
  page_break_before : Option Bool := none
  widows_control : Option Bool := none
  deriving DecidableEq, Repr

/-- JSON object for `StyleRun`. -/
structure StyleRunJson where
  bold : Option Bool := none
  italic : Option Bool := none
  underline : Option Bool := none
  size_pt : Rat
  font : FontMapping
  deriving DecidableEq, Repr

/-- JSON object for `StyleDef`. -/
structure StyleDefJson where
  style_id : String
  name : String
  based_on : Option String := none
  is_heading : Option Bool := none
  outline_level : Option Int := none
  run : StyleRunJson
  paragraph : StyleParagraphJson
  deriving DecidableEq, Repr

/-- JSON object for `NumberingLevel`. -/
structure NumberingLevelJson where
  level : Int
  style_id : String
  start : Option Int := none
  fmt : Option String := none
  lvl_text : String
  suffix : Option String := none
  deriving DecidableEq, Repr

/-- JSON object for `NumberingSpec`. -/
structure NumberingSpecJson where
  abstract_num_id : Option Int := none
  num_id : Option Int := none
  levels : List NumberingLevelJson
  deriving DecidableEq, Repr

/-- JSON object for `ForbiddenDirectFormatting`. -/
structure ForbiddenJson where
  font : Option Bool := none
  size : Option Bool := none
  bold : Option Bool := none
  italic : Option Bool := none
  underline : Option Bool := none
  color : Option Bool := none
  deriving DecidableEq, Repr

/-- JSON object for `StructureSpec`. -/
structure StructureSpecJson where
  required_h1_titles : Option (List String) := none
  toc_max_level : Option Int := none
  deriving DecidableEq, Repr

/-- JSON object for `PageNumberingSpec`. -/
structure PageNumberingJson where
  enabled : Option Bool := none
  front_format : Option String := none
  front_start : Option Int := none
  main_format : Option String := none
  main_start : Option Int := none
  show_in_footer : Option Bool := none
  footer_alignment : Option String := none
  deriving DecidableEq, Repr

/-- JSON object for `StyleSpec`. -/
structure StyleSpecJson where
  meta : Option (List (String × String)) := none
  page : PageSpecJson
  styles : List (String × StyleDefJson)
  numbering : Option NumberingSpecJson := none
  structure_ : Option StructureSpecJson := none
  forbidden_direct_formatting : Option ForbiddenJson := none
  page_numbering : Option PageNumberingJson := none
  auto_prefix_abstract_keywords : Option Bool := none
  auto_number_figures_tables : Option Bool := none
  deriving DecidableEq, Repr

/-! ### Export (`export_spec_to_json`)

`model_dump_json(indent=2, exclude_none=True)`: every field is emitted
with its value; fields whose value is `None` are omitted.  Fields that
cannot be `None` are always present (`some`). -/

/-- Export `MarginMM`. -/
def MarginMM.toJson (m : MarginMM) : MarginMMJson :=
  { top := m.top, bottom := m.bottom, left := m.left, right := m.right,
    binding := some m.binding }

/-- Export `PageSpec`. -/
def PageSpec.toJson (p : PageSpec) : PageSpecJson :=
  { size := some p.size, margins_mm := p.margins_mm.toJson,
    header_mm := some p.header_mm, footer_mm := some p.footer_mm }

/-- Export `StyleParagraph`. -/
def StyleParagraph.toJson (s : StyleParagraph) : StyleParagraphJson :=
  { alignment := some s.alignment, line_spacing_rule := some s.line_spacing_rule,
    line_spacing := s.line_spacing,
    space_before_pt := some s.space_before_pt, space_after_pt := some s.space_after_pt,
    space_before_lines := s.space_before_lines, space_after_lines := s.space_after_lines,
    first_line_indent_chars := some s.first_line_indent_chars,
    hanging_indent_chars := some s.hanging_indent_chars,
    keep_with_next := some s.keep_with_next, keep_lines := some s.keep_lines,
    page_break_before := some s.page_break_before, widows_control := some s.widows_control }

/-- Export `StyleRun`. -/
def StyleRun.toJson (r : StyleRun) : StyleRunJson :=
  { bold := some r.bold, italic := some r.italic, underline := some r.underline,
    size_pt := r.size_pt, font := r.font }

/-- Export `StyleDef`. -/
def StyleDef.toJson (s : StyleDef) : StyleDefJson :=
  { style_id := s.style_id, name := s.name, based_on := s.based_on,
    is_heading := some s.is_heading, outline_level := s.outline_level,
    run := s.run.toJson, paragraph := s.paragraph.toJson }

/-- Export `NumberingLevel`. -/
def NumberingLevel.toJson (n : NumberingLevel) : NumberingLevelJson :=
  { level := n.level, style_id := n.style_id, start := some n.start,
    fmt := some n.fmt, lvl_text := n.lvl_text, suffix := some n.suffix }

/-- Export `NumberingSpec`. -/
def NumberingSpec.toJson (n : NumberingSpec) : NumberingSpecJson :=
  { abstract_num_id := some n.abstract_num_id, num_id := some n.num_id,
    levels := n.levels.map NumberingLevel.toJson }

/-- Export `ForbiddenDirectFormatting`. -/
def ForbiddenDirectFormatting.toJson (f : ForbiddenDirectFormatting) : ForbiddenJson :=
  { font := some f.font, size := some f.size, bold := some f.bold,
    italic := some f.italic, underline := some f.underline, color := some f.color }

/-- Export `StructureSpec`. -/
def StructureSpec.toJson (s : StructureSpec) : StructureSpecJson :=
  { required_h1_titles := some s.required_h1_titles,
    toc_max_level := some s.toc_max_level }

/-- Export `PageNumberingSpec`. -/
def PageNumberingSpec.toJson (p : PageNumberingSpec) : PageNumberingJson :=
  { enabled := some p.enabled, front_format := some p.front_format,
    front_start := some p.front_start, main_format := some p.main_format,
    main_start := some p.main_start, show_in_footer := some p.show_in_footer,
    footer_alignment := some p.footer_alignment }

/-- `export_spec_to_json` of `services/spec_generator.py` (the JSON text
is modelled by its parsed object; `json.loads` of the emitted text gives
exactly this object). -/
def exportSpecToJson (s : StyleSpec) : StyleSpecJson :=
  { meta := some s.meta, page := s.page.toJson,
    styles := s.styles.map (fun p => (p.1, p.2.toJson)),
    numbering := s.numbering.map NumberingSpec.toJson,
    structure_ := some s.structure_.toJson,
    forbidden_direct_formatting := some s.forbidden_direct_formatting.toJson,
    page_numbering := s.page_numbering.map PageNumberingSpec.toJson,
    auto_prefix_abstract_keywords := some s.auto_prefix_abstract_keywords,
    auto_number_figures_tables := some s.auto_number_figures_tables }

/-! ### Validation (`validate_custom_spec` = `json.loads` + `model_validate`) -/

/-- Validate a number against a `ge=0` bound. -/
def checkGe0 (q : Rat) : Except String Rat :=
  if 0 ≤ q then .ok q else .error "ge=0"

/-- Validate `MarginMM`. -/
def MarginMMJson.validate (j : MarginMMJson) : Except String MarginMM := do
  let top ← checkGe0 j.top
  let bottom ← checkGe0 j.bottom
  let left ← checkGe0 j.left
  let right ← checkGe0 j.right
  let binding ← checkGe0 (j.binding.getD 0)
  return { top := top, bottom := bottom, left := left, right := right, binding := binding }

/-- Validate `PageSpec`. -/
def PageSpecJson.validate (j : PageSpecJson) : Except String PageSpec := do
  let size := j.size.getD "A4"
  if size ≠ "A4" then throw "size must be A4"
  let margins ← j.margins_mm.validate
  let header ← checkGe0 (j.header_mm.getD 0)
  let footer ← checkGe0 (j.footer_mm.getD 0)
  return { size := size, margins_mm := margins, header_mm := header, footer_mm := footer }

/-- Validate `StyleParagraph`. -/
def StyleParagraphJson.validate (j : StyleParagraphJson) : Except String StyleParagraph := do
  let alignment := j.alignment.getD "justify"
  if alignment ∉ alignmentValues then throw "alignment"
  let rule := j.line_spacing_rule.getD "single"
  if rule ∉ lineSpacingRules then throw "line_spacing_rule"
  let sbp ← checkGe0 (j.space_before_pt.getD 0)
  let sap ← checkGe0 (j.space_after_pt.getD 0)
  let sbl ← match j.space_before_lines with
            | none => pure none
            | some q => do let q ← checkGe0 q; pure (some q)
  let sal ← match j.space_after_lines with
            | none => pure none
            | some q => do let q ← checkGe0 q; pure (some q)
  let fli ← checkGe0 (j.first_line_indent_chars.getD 0)
  let hic ← checkGe0 (j.hanging_indent_chars.getD 0)
  return { alignment := alignment, line_spacing_rule := rule, line_spacing := j.line_spacing,
           space_before_pt := sbp, space_after_pt := sap,
           space_before_lines := sbl, space_after_lines := sal,
           first_line_indent_chars := fli, hanging_indent_chars := hic,
           keep_with_next := j.keep_with_next.getD false,
           keep_lines := j.keep_lines.getD false,
           page_break_before := j.page_break_before.getD false,
           widows_control := j.widows_control.getD true }

/-- Validate `StyleRun`. -/
def StyleRunJson.validate (j : StyleRunJson) : Except String StyleRun := do
  if ¬ (0 < j.size_pt) then throw "size_pt gt=0"
  return { bold := j.bold.getD false, italic := j.italic.getD false,
           underline := j.underline.getD false, size_pt := j.size_pt, font := j.font }

/-- Validate `StyleDef`. -/
def StyleDefJson.validate (j : StyleDefJson) : Except String StyleDef := do
  if j.style_id = "" then throw "style_id min_length 1"
  if j.name = "" then throw "name min_length 1"
  match j.outline_level with
  | some n => if ¬ (0 ≤ n ∧ n ≤ 8) then throw "outline_level" else pure ()
  | none => pure ()
  let run ← j.run.validate
  let paragraph ← j.paragraph.validate
  return { style_id := j.style_id, name := j.name, based_on := j.based_on,
           is_heading := j.is_heading.getD false, outline_level := j.outline_level,
           run := run, paragraph := paragraph }

/-- Validate `NumberingLevel`. -/
def NumberingLevelJson.validate (j : NumberingLevelJson) : Except String NumberingLevel := do
  if ¬ (0 ≤ j.level ∧ j.level ≤ 8) then throw "level"
  let start := j.start.getD 1
  if ¬ (1 ≤ start) then throw "start"
  let fmt := j.fmt.getD "decimal"
  if fmt ≠ "decimal" then throw "fmt"
  let suffix := j.suffix.getD "space"
  if suffix ∉ ["space", "tab", "nothing"] then throw "suffix"
  return { level := j.level, style_id := j.style_id, start := start, fmt := fmt,
           lvl_text := j.lvl_text, suffix := suffix }

/-- Validate `NumberingSpec`. -/
def NumberingSpecJson.validate (j : NumberingSpecJson) : Except String NumberingSpec := do
  let abstractNumId := j.abstract_num_id.getD 1
  if ¬ (1 ≤ abstractNumId) then throw "abstract_num_id"
  let numId := j.num_id.getD 1
  if ¬ (1 ≤ numId) then throw "num_id"
  let levels ← j.levels.mapM NumberingLevelJson.validate
  return { abstract_num_id := abstractNumId, num_id := numId, levels := levels }

/-- Validate `ForbiddenDirectFormatting`. -/
def ForbiddenJson.validate (j : ForbiddenJson) : ForbiddenDirectFormatting :=
  { font := j.font.getD true, size := j.size.getD true, bold := j.bold.getD true,
    italic := j.italic.getD true, underline := j.underline.getD true,
    color := j.color.getD true }

/-- Validate `StructureSpec`. -/
def StructureSpecJson.validate (j : StructureSpecJson) : Except String StructureSpec := do
  let toc := j.toc_max_level.getD 3
  if ¬ (1 ≤ toc ∧ toc ≤ 8) then throw "toc_max_level"
  return { required_h1_titles := j.required_h1_titles.getD [], toc_max_level := toc }

/-- Validate `PageNumberingSpec`. -/
def PageNumberingJson.validate (j : PageNumberingJson) : Except String PageNumberingSpec := do
  let ff := j.front_format.getD "romanUpper"
  if ff ∉ pageNumFormats then throw "front_format"
  let fs := j.front_start.getD 1
  if ¬ (1 ≤ fs) then throw "front_start"
  let mf := j.main_format.getD "decimal"
  if mf ∉ pageNumFormats then throw "main_format"
  let ms := j.main_start.getD 1
  if ¬ (1 ≤ ms) then throw "main_start"
  let fa := j.footer_alignment.getD "center"
  if fa ∉ alignmentValues then throw "footer_alignment"
  return { enabled := j.enabled.getD true, front_format := ff, front_start := fs,
           main_format := mf, main_start := ms,
           show_in_footer := j.show_in_footer.getD true, footer_alignment := fa }

/-- Validate one entry of the `styles` dict. -/
def validateStylesEntry (p : String × StyleDefJson) : Except String (String × StyleDef) :=
  match p.2.validate with
  | .error e => .error e
  | .ok d => .ok (p.1, d)

/-- The `_style_ids_must_match_keys` field validator. -/
def checkStyleKeys : List (String × StyleDef) → Except String Unit
  | [] => .ok ()
  | p :: rest =>
    if p.1 ≠ p.2.style_id then
      .error ("styles key " ++ p.1 ++ " must equal style_id " ++ p.2.style_id)
    else checkStyleKeys rest

/-- `validate_custom_spec` of `services/spec_generator.py` on a parsed
JSON object: `StyleSpec.model_validate`, including the
`_style_ids_must_match_keys` validator. -/
def validateCustomSpec (j : StyleSpecJson) : Except String StyleSpec := do
  let page ← j.page.validate
  let styles ← j.styles.mapM validateStylesEntry
  checkStyleKeys styles
  let numbering ← match j.numbering with
                  | none => pure none
                  | some n => do let n ← n.validate; pure (some n)
  let structure_ ← (j.structure_.getD {}).validate
  let pageNumbering ← match j.page_numbering with
                      | none => pure none
                      | some p => do let p ← p.validate; pure (some p)
  return { meta := j.meta.getD [], page := page, styles := styles,
           numbering := numbering, structure_ := structure_,
           forbidden_direct_formatting := (j.forbidden_direct_formatting.getD {}).validate,
           page_numbering := pageNumbering,
           auto_prefix_abstract_keywords := j.auto_prefix_abstract_keywords.getD false,
           auto_number_figures_tables := j.auto_number_figures_tables.getD false }

/-! ## ValidationReport (`models/validation.py`) -/

/-- Python values appearing in violation payloads and patch params. -/
inductive PVal where
  | s (v : String)
  | i (v : Int)
  | q (v : Rat)
  | b (v : Bool)
  | strs (v : List String)
  | numdict (v : List (String × Rat))
  deriving DecidableEq, Repr

/-- `FixSuggestion`. -/
structure FixSuggestion where
  action : String
  params : List (String × PVal) := []
  deriving DecidableEq, Repr

/-- `Location`. -/
structure Location where
  paragraph_index : Option Int := none
  text_snippet : Option String := none
  detail : List (String × PVal) := []
  deriving DecidableEq, Repr

/-- `Violation`. -/
structure Violation where
  violation_id : String
  severity : String := "error"
  message : String
  location : Location := {}
  expected : Option PVal := none
  actual : Option PVal := none
  suggestion : Option FixSuggestion := none
  deriving DecidableEq, Repr

/-- `ValidationSummary`. -/
structure ValidationSummary where
  ok : Bool
  errors : Nat := 0
  warnings : Nat := 0
  infos : Nat := 0
  deriving DecidableEq, Repr

/-- `ValidationReport`. -/
structure ValidationReport where
  summary : ValidationSummary
  violations : List Violation := []
  deriving DecidableEq, Repr

/-! ## Validator (`services/validator.py`) -/

/-- Substring test (Python `in` on strings). -/
def strContains (s sub : String) : Bool :=
  decide (sub.data <:+: s.data)

/-- `_twips_to_mm`: `twips / 1440 * 25.4 = twips * 254 / 14400`. -/
def twipsToMm (twips : Int) : Rat :=
  Rat.divInt (twips * 254) 14400

/-- Python `round(x, 2)`. -/
def pyRound2 (q : Rat) : Rat :=
  Rat.divInt (pyRound (Rat.divInt (q.num * 100) (q.den : Int))) 100

/-- Insert into a sorted list of strings. -/
def insertSorted (x : String) : List String → List String
  | [] => [x]
  | y :: ys => if x ≤ y then x :: y :: ys else y :: insertSorted x ys

/-- Sort a list of strings ascending (Python `sorted`; equal strings are
identical, so stability cannot be observed). -/
def sortedStrs (l : List String) : List String :=
  l.foldr insertSorted []

/-- Python `sorted(set(l))`: unique members, ascending. -/
def sortedSet (l : List String) : List String :=
  sortedStrs l.dedup

/-- `_get_text`: joined `.//w:t/text()`, stripped. -/
def getText (p : Xml) : String :=
  pyStripS (wtexts p)

/-- `_get_p_style`. -/
def getPStyle (p : Xml) : Option String := do
  let pPr ← p.find "w:pPr"
  let pStyle ← pPr.find "w:pStyle"
  pStyle.getA "w:val"

/-- `_find_sectpr` (same code in `validator.py` and `fixer.py`). -/
def findSectPr (docRoot : Xml) : Option Xml := do
  let body ← docRoot.find "w:body"
  match body.find "w:sectPr" with
  | some s => some s
  | none =>
    match (childElems "w:p" body.childrenOf).getLast? with
    | none => none
    | some lastP => do
      let pPr ← lastP.find "w:pPr"
      pPr.find "w:sectPr"

/-- `_has_toc_field`. -/
def hasTocField (docRoot : Xml) : Bool :=
  (descElems "w:fldSimple" docRoot).any
    (fun fld => strContains ((fld.getA "w:instr").getD "") "TOC")

/-- The `checks` dict of the margin section (also the `mapping` dict of
`_apply_set_page_margins`), in insertion order. -/
def marginChecks (spec : StyleSpec) : List (String × Rat) :=
  [("top", spec.page.margins_mm.top),
   ("bottom", spec.page.margins_mm.bottom),
   ("left", spec.page.margins_mm.left),
   ("right", spec.page.margins_mm.right),
   ("gutter", spec.page.margins_mm.binding),
   ("header", spec.page.header_mm),
   ("footer", spec.page.footer_mm)]

/-- The `layout.margin_<k>` violation. -/
def marginViolation (k : String) (expMm : Rat) (actTwips : Int) : Violation :=
  { violation_id := "layout.margin_" ++ k
    severity := "error"
    message := "页边距/页面距离不符合规范：" ++ k
    expected := some (PVal.numdict [("mm", expMm), ("twips", Rat.divInt (mmToTwips expMm) 1)])
    actual := some (PVal.numdict [("mm", pyRound2 (twipsToMm actTwips)),
      ("twips", Rat.divInt actTwips 1)])
    suggestion := some { action := "set_page_margins"
                         params := [("target", PVal.s "section0"), (k, PVal.i (mmToTwips expMm))] } }

/-- One iteration of the margin loop of `validate_docx`: absent
attributes are skipped; non-integer attribute text makes `int(val)`
raise. -/
def marginStep (pgMar : Xml) (acc : List Violation) (p : String × Rat) :
    Except String (List Violation) :=
  match pgMar.getA ("w:" ++ p.1) with
  | none => pure acc
  | some v =>
    match pyInt v with
    | none => throw "invalid literal for int()"
    | some act =>
      if (act - mmToTwips p.2).natAbs > 10 then
        pure (acc ++ [marginViolation p.1 p.2 act])
      else pure acc

/-- The violation (if any) that the margin loop emits for one check,
when no check raises. -/
def marginHit (pgMar : Xml) (p : String × Rat) : Option Violation :=
  match pgMar.getA ("w:" ++ p.1) with
  | none => none
  | some v =>
    match pyInt v with
    | none => none
    | some act =>
      if (act - mmToTwips p.2).natAbs > 10 then some (marginViolation p.1 p.2 act)
      else none

/-- The margin loop of `validate_docx`. -/
def checkMargins (pgMar : Xml) (spec : StyleSpec) : Except String (List Violation) :=
  (marginChecks spec).foldlM (marginStep pgMar) []

/-- The `layout.sectpr_missing` violation. -/
def sectprMissingViolation : Violation :=
  { violation_id := "layout.sectpr_missing", severity := "error"
    message := "未找到 sectPr（无法读取页边距/页面设置）" }

/-- The `layout.pgmar_missing` violation. -/
def pgmarMissingViolation : Violation :=
  { violation_id := "layout.pgmar_missing", severity := "error"
    message := "未找到 pgMar（无法读取页边距）" }

/-- Part 1 of `validate_docx` (margins). -/
def layoutViolations (docRoot : Xml) (spec : StyleSpec) : Except String (List Violation) :=
  match findSectPr docRoot with
  | none => .ok [sectprMissingViolation]
  | some sectPr =>
    match sectPr.find "w:pgMar" with
    | none => .ok [pgmarMissingViolation]
    | some pgMar => checkMargins pgMar spec

/-- `doc_root.findall(".//w:body/w:p")`. -/
def bodyParagraphs (docRoot : Xml) : List Xml :=
  (descElems "w:body" docRoot).flatMap (fun b => childElems "w:p" b.childrenOf)

/-- `doc_root.findall(".//w:p")`. -/
def allParas (docRoot : Xml) : List Xml :=
  descElems "w:p" docRoot

/-- The texts collected into `h1_titles` (a set; membership is what the
check uses). -/
def h1Titles (docRoot : Xml) : List String :=
  (bodyParagraphs docRoot).filterMap (fun p =>
    let text := getText p
    let style := (getPStyle p).getD ""
    if (style = "H1" ∨ style = "FrontHeading") ∧ text ≠ "" then some (pyStripS text)
    else none)

/-- Part 2 of `validate_docx` (required H1 titles; warnings). -/
def structureViolations (docRoot : Xml) (spec : StyleSpec) : List Violation :=
  spec.structure_.required_h1_titles.filterMap (fun req =>
    if req ∈ h1Titles docRoot then none
    else some
      { violation_id := "structure.required_section_missing"
        severity := "warning"
        message := "缺少必需的一级标题：" ++ req
        expected := some (PVal.s req)
        actual := some (PVal.strs (sortedSet (h1Titles docRoot))) })

/-- `_DIRECT_RPR_TAGS`. -/
def kindOfLocal (loc : String) : Option String :=
  if loc = "rFonts" then some "font"
  else if loc = "sz" then some "size"
  else if loc = "szCs" then some "size"
  else if loc = "b" then some "bold"
  else if loc = "bCs" then some "bold"
  else if loc = "i" then some "italic"
  else if loc = "iCs" then some "italic"
  else if loc = "u" then some "underline"
  else if loc = "color" then some "color"
  else none

/-- The `forbid` dict of `validate_docx` as a total lookup
(`forbid.get(kind, False)`). -/
def forbidLookup (f : ForbiddenDirectFormatting) (kind : String) : Bool :=
  if kind = "font" then f.font
  else if kind = "size" then f.size
  else if kind = "bold" then f.bold
  else if kind = "italic" then f.italic
  else if kind = "underline" then f.underline
  else if kind = "color" then f.color
  else false

/-- Violations contributed by the direct children of one `w:rPr`. -/
def rPrChildrenHits (forbid : String → Bool) : XmlList → List (String × String)
  | .nil => []
  | .cons c rest =>
    (match c with
     | .elem t _ _ =>
       match kindOfLocal (localName t) with
       | some kind => if forbid kind then [(kind, localName t)] else []
       | none => []
     | .txt _ => []) ++ rPrChildrenHits forbid rest

/-- `_check_run_direct_formatting`. -/
def checkRunDirectFormatting (forbid : String → Bool) (p : Xml) : List (String × String) :=
  (descElems "w:rPr" p).flatMap (fun r => rPrChildrenHits forbid r.childrenOf)

/-- The style ids defined by the spec (`set(spec.styles.keys())`). -/
def specStyleIds (spec : StyleSpec) : List String :=
  spec.styles.map Prod.fst

/-- The per-paragraph loop of `validate_docx` for one paragraph:
`style.unknown_style` (warning) then `style.direct_formatting_forbidden`
(error). -/
def paraViolations (spec : StyleSpec) (idx : Nat) (p : Xml) : List Violation :=
  let style := getPStyle p
  let text := getText p
  let unknown :=
    match style with
    | some s =>
      if s ≠ "" ∧ s ∉ specStyleIds spec ∧ s ≠ "Normal" ∧ s ≠ "DefaultParagraphFont" then
        [{ violation_id := "style.unknown_style"
           severity := "warning"
           message := "段落使用了未知样式：" ++ s
           location := { paragraph_index := some (idx : Int)
                         text_snippet := some (String.mk (text.data.take 80)) }
           expected := some (PVal.strs (sortedStrs (specStyleIds spec)))
           actual := some (PVal.s s)
           suggestion := some { action := "set_paragraph_style"
                                params := [("paragraph_index", PVal.i (idx : Int)),
                                           ("style_id", PVal.s "Body")] } }]
      else []
    | none => []
  let df := checkRunDirectFormatting (forbidLookup spec.forbidden_direct_formatting) p
  let direct :=
    if df ≠ [] then
      let kinds := sortedSet (df.map Prod.fst)
      [{ violation_id := "style.direct_formatting_forbidden"
         severity := "error"
         message := "检测到禁止的直接格式覆盖：" ++ String.intercalate ", " kinds
         location := { paragraph_index := some (idx : Int)
                       text_snippet := some (String.mk (text.data.take 80))
                       detail := [("kinds", PVal.strs kinds)] }
         expected := some (PVal.s "use paragraph styles only")
         actual := some (PVal.strs kinds)
         suggestion := some { action := "clear_direct_run_formatting"
                              params := [("paragraph_index", PVal.i (idx : Int))] } }]
    else []
  unknown ++ direct

/-- Part 5 of `validate_docx` (TOC field; warning). -/
def tocViolations (docRoot : Xml) (spec : StyleSpec) : List Violation :=
  if 0 < spec.structure_.toc_max_level ∧ ¬ hasTocField docRoot then
    [{ violation_id := "field.toc_missing"
       severity := "warning"
       message := "未检测到目录 TOC 字段（若需要目录，请插入 TOC 域）"
       suggestion := some { action := "insert_toc_field"
                            params := [("max_level", PVal.i spec.structure_.toc_max_level)] } }]
  else []

/-- All violations of `validate_docx`, in emission order. -/
def docViolations (docRoot : Xml) (spec : StyleSpec) : Except String (List Violation) := do
  let layout ← layoutViolations docRoot spec
  let paras := ((allParas docRoot).enum.flatMap (fun pi => paraViolations spec pi.1 pi.2))
  return layout ++ structureViolations docRoot spec ++ paras ++ tocViolations docRoot spec

/-- Count of violations with the given severity. -/
def countSeverity (vs : List Violation) (sev : String) : Nat :=
  (vs.filter (fun v => v.severity = sev)).length

/-- `validate_docx` of `services/validator.py`, on the parsed
`word/document.xml` tree (`DocxPackage.from_bytes` + `read_xml` recover
it from the bytes; `int()` failures surface as `Except.error`). -/
def validateDocx (docRoot : Xml) (spec : StyleSpec) : Except String ValidationReport := do
  let violations ← docViolations docRoot spec
  let errors := countSeverity violations "error"
  let warnings := countSeverity violations "warning"
  let infos := countSeverity violations "info"
  return { summary := { ok := errors = 0, errors := errors, warnings := warnings, infos := infos }
           violations := violations }

/-! ## Fixer (`services/fixer.py`) -/

/-- `PatchAction` of `models/patch.py`. -/
structure PatchAction where
  action : String
  params : List (String × PVal) := []
  deriving DecidableEq, Repr

/-- `Patch` of `models/patch.py`. -/
structure Patch where
  actions : List PatchAction := []
  deriving DecidableEq, Repr

/-- `build_patch_from_report`. -/
def buildPatchFromReport (report : ValidationReport) : Patch :=
  { actions := report.violations.filterMap (fun v =>
      v.suggestion.map (fun s => { action := s.action, params := s.params })) }

/-- Python dict `.get` on modelled params. -/
def getParam (params : List (String × PVal)) (k : String) : Option PVal :=
  (params.find? (fun p => p.1 = k)).map (fun p => p.2)

/-- An integer-valued param (`bool` is an `int` in Python; a `float`
index would make the subscript raise and is not modelled). -/
def getParamInt (params : List (String × PVal)) (k : String) : Option Int :=
  match getParam params k with
  | some (PVal.i n) => some n
  | some (PVal.b bv) => some (if bv then 1 else 0)
  | _ => none

/-- A string-valued param. -/
def getParamStr (params : List (String × PVal)) (k : String) : Option String :=
  match getParam params k with
  | some (PVal.s s) => some s
  | _ => none

/-- Python `int()` truncation (toward zero) on a rational. -/
def truncRat (q : Rat) : Int :=
  Int.tdiv q.num (q.den : Int)

/-- The attribute writes performed by `_apply_set_page_margins` for given
params, in `params.keys()` order: keys in the `mapping` dict are written
from the spec (the param's own value is ignored); other numeric params
are written as `str(int(v))`; `target` and non-numeric params are
skipped. -/
def marginWrites (spec : StyleSpec) (params : List (String × PVal)) :
    List (String × String) :=
  params.foldl
    (fun acc p =>
      if p.1 = "target" then acc
      else
        match (marginChecks spec).find? (fun c => c.1 = p.1) with
        | some c => acc ++ [("w:" ++ p.1, intStr (mmToTwips c.2))]
        | none =>
          match p.2 with
          | PVal.i n => acc ++ [("w:" ++ p.1, intStr n)]
          | PVal.q x => acc ++ [("w:" ++ p.1, intStr (truncRat x))]
          | PVal.b bv => acc ++ [("w:" ++ p.1, intStr (if bv then 1 else 0))]
          | _ => acc)
    []

/-- In-place attribute writes on an element. -/
def setAttrsOn (ws : List (String × String)) : Xml → Xml
  | .elem t a cs => .elem t (setAttrs a ws) cs
  | .txt s => .txt s

/-- `pgMar = sectPr.find("w:pgMar") or SubElement(sectPr, "w:pgMar")`,
then the attribute writes. -/
def pgMarWrite (ws : List (String × String)) : Xml → Xml
  | .elem t a cs =>
    if hasChild "w:pgMar" cs then .elem t a (mapFirstChild "w:pgMar" (setAttrsOn ws) cs)
    else .elem t a (cs.append (.cons (Xml.elem "w:pgMar" (setAttrs [] ws) .nil) .nil))
  | .txt s => .txt s

/-- Rewrite, in place, the section-properties element that `_find_sectpr`
resolves (identity when it resolves to `None`): the body's first
`w:sectPr` child if present, else the first `w:pPr` child's first
`w:sectPr` of the last `w:p` child of the body. -/
def updateSectPr (g : Xml → Xml) : Xml → Xml
  | .elem t a cs =>
    .elem t a (mapFirstChild "w:body" (fun body =>
      match body with
      | .elem bt ba bcs =>
        if hasChild "w:sectPr" bcs then .elem bt ba (mapFirstChild "w:sectPr" g bcs)
        else
          .elem bt ba (mapLastChild "w:p" (fun p =>
            match p with
            | .elem pt pa pcs =>
              .elem pt pa (mapFirstChild "w:pPr" (fun pPr =>
                match pPr with
                | .elem qt qa qcs =>
                  if hasChild "w:sectPr" qcs then .elem qt qa (mapFirstChild "w:sectPr" g qcs)
                  else pPr
                | x => x) pcs)
            | x => x) bcs)
      | x => x) cs)
  | .txt s => .txt s

/-- `_apply_set_page_margins`. -/
def applySetPageMargins (spec : StyleSpec) (params : List (String × PVal)) (docRoot : Xml) : Xml :=
  updateSectPr (pgMarWrite (marginWrites spec params)) docRoot

/-- Ensure `pPr/pStyle` exists on a paragraph and set its `w:val`
(`_apply_set_paragraph_style`'s per-paragraph mutation). -/
def ensurePStyle (sid : String) (pPr : Xml) : Xml :=
  match pPr with
  | .elem t a cs =>
    if hasChild "w:pStyle" cs then
      .elem t a (mapFirstChild "w:pStyle" (setAttrsOn [("w:val", sid)]) cs)
    else .elem t a (cs.append (.cons (Xml.elem "w:pStyle" [("w:val", sid)] .nil) .nil))
  | .txt s => .txt s

/-- The paragraph mutation of `_apply_set_paragraph_style`: reuse the
first `w:pPr` child, or insert a fresh one at position 0. -/
def setStyleOnPara (sid : String) (p : Xml) : Xml :=
  match p with
  | .elem t a cs =>
    if hasChild "w:pPr" cs then .elem t a (mapFirstChild "w:pPr" (ensurePStyle sid) cs)
    else
      .elem t a (cs.insertAt 0
        (Xml.elem "w:pPr" [] (.cons (Xml.elem "w:pStyle" [("w:val", sid)] .nil) .nil)))
  | .txt s => .txt s

/-- The paragraph mutation of `_apply_clear_direct_formatting`. -/
def clearOnPara (p : Xml) : Xml :=
  match p with
  | .elem t a cs => .elem t a (clearFmtL cs)
  | .txt s => .txt s

/-- Rewrite the `n`-th descendant `w:p` of the document root. -/
def rewriteNthP (n : Nat) (f : Xml → Xml) (docRoot : Xml) : Xml :=
  match docRoot with
  | .elem t a cs => .elem t a (mapNthDescL "w:p" f n cs).1
  | .txt s => .txt s

/-- `_apply_set_paragraph_style`: missing or out-of-range
`paragraph_index` is a no-op. -/
def applySetParagraphStyle (params : List (String × PVal)) (docRoot : Xml) : Xml :=
  match getParamInt params "paragraph_index" with
  | none => docRoot
  | some idx =>
    let sid := (getParamStr params "style_id").getD "Body"
    if idx < 0 ∨ ((allParas docRoot).length : Int) ≤ idx then docRoot
    else rewriteNthP idx.toNat (setStyleOnPara sid) docRoot

/-- `_apply_clear_direct_formatting`: missing or out-of-range
`paragraph_index` is a no-op. -/
def applyClearDirectFormatting (params : List (String × PVal)) (docRoot : Xml) : Xml :=
  match getParamInt params "paragraph_index" with
  | none => docRoot
  | some idx =>
    if idx < 0 ∨ ((allParas docRoot).length : Int) ≤ idx then docRoot
    else rewriteNthP idx.toNat clearOnPara docRoot

/-- The TOC field instruction `TOC \o "1-N" \h \z \u`. -/
def tocInstr (maxLevel : Int) : String :=
  "TOC \\o \"1-" ++ intStr maxLevel ++ "\" \\h \\z \\u"

/-- The paragraph built by `_apply_insert_toc`. -/
def tocParagraph (maxLevel : Int) : Xml :=
  Xml.elem "w:p" []
    (.cons (Xml.elem "w:pPr" []
        (.cons (Xml.elem "w:pStyle" [("w:val", "FrontHeading")] .nil) .nil))
      (.cons (Xml.elem "w:r" []
          (.cons (Xml.elem "w:fldSimple" [("w:instr", tocInstr maxLevel)] .nil) .nil))
        .nil))

/-- The insertion index of `_apply_insert_toc`: the position in the
body's `w:p` list of the first paragraph styled `H1`/`FrontHeading`
(0 when none); the code passes it to `body.insert` as a child index. -/
def tocInsertIndex (ps : List Xml) : Nat :=
  (ps.findIdx? (fun p =>
    match getPStyle p with
    | some s => s = "H1" ∨ s = "FrontHeading"
    | none => false)).getD 0

/-- `_apply_insert_toc`: no-op when the body is missing. -/
def applyInsertToc (maxLevel : Int) (docRoot : Xml) : Xml :=
  match docRoot with
  | .elem t a cs =>
    .elem t a (mapFirstChild "w:body" (fun body =>
      match body with
      | .elem bt ba bcs =>
        .elem bt ba (bcs.insertAt (tocInsertIndex (childElems "w:p" bcs)) (tocParagraph maxLevel))
      | x => x) cs)
  | .txt s => .txt s

/-- The dispatch of `apply_patch` for one action; unknown actions are
skipped. -/
def applyAction (spec : StyleSpec) (docRoot : Xml) (act : PatchAction) : Xml :=
  if act.action = "set_page_margins" then applySetPageMargins spec act.params docRoot
  else if act.action = "set_paragraph_style" then applySetParagraphStyle act.params docRoot
  else if act.action = "clear_direct_run_formatting" then
    applyClearDirectFormatting act.params docRoot
  else if act.action = "insert_toc_field" then
    applyInsertToc ((getParamInt act.params "max_level").getD 3) docRoot
  else docRoot

/-- `apply_patch` of `services/fixer.py`, on the parsed
`word/document.xml` tree (the byte level is the deterministic
serialization of the package holding this tree, so tree equality is byte
equality). -/
def applyPatch (docRoot : Xml) (patch : Patch) (spec : StyleSpec) : Xml :=
  patch.actions.foldl (applyAction spec) docRoot

/-- `fix_docx`: build the patch from the report; an empty patch returns
the input unchanged. -/
def fixDocx (docRoot : Xml) (report : ValidationReport) (spec : StyleSpec) : Xml :=
  let patch := buildPatchFromReport report
  if patch.actions = [] then docRoot
  else applyPatch docRoot patch spec

/-! ## Compiler error handling (`services/compiler.py`)

The claims touch only the try/except scaffolding of
`compile_document_with_ai`, so the two pipeline bodies are parameters:
`aiPipeline` is the outcome of the outer `try` block (a normal
`CompileResult` or a raised exception), `nonAiCompile` the outcome of
evaluating the call `compile_document(text, options, progress_callback)`
inside the fallback handler. -/

/-- A raised Python exception, carrying `str(e)`. -/
inductive PyErr where
  | typeError (msg : String)
  | exc (msg : String)
  deriving DecidableEq, Repr

/-- `str(e)` of an exception. -/
def PyErr.msg : PyErr → String
  | .typeError m => m
  | .exc m => m

/-- `CompileResult` of `services/compiler.py` (the payload fields `ast`,
`spec`, `report`, `docx_bytes` are not inspected by the error-handling
claims and are abstracted by `docx`). -/
structure CompileResult where
  success : Bool
  docx : Option Xml := none
  error : Option String := none
  warnings : List String := []
  deriving DecidableEq, Repr

/-- Python `await` applied to the value of `compile_document(...)`:
`compile_document` is a plain `def`, its `CompileResult` is not awaitable,
so `await` raises `TypeError` — this models the expression
`await compile_document(text, options, progress_callback)` of the
fallback branch of `compile_document_with_ai`. -/
def awaitCompileResult (_r : CompileResult) : Except PyErr CompileResult :=
  .error (.typeError "object CompileResult can't be used in 'await' expression")

/-- `compile_document_with_ai` of `services/compiler.py`: the outer
`try`, the fallback `try` that awaits the synchronous `compile_document`,
and the final failure result.  `warnings` starts empty (nothing appends
to the list before the handler runs). -/
def compileDocumentWithAi (aiPipeline : Except PyErr CompileResult)
    (nonAiCompile : Except PyErr CompileResult) : CompileResult :=
  match aiPipeline with
  | .ok r => r
  | .error e =>
    let warnings := ["AI 编译失败，已降级到规则模式: " ++ e.msg]
    let fallback : Except PyErr CompileResult := do
      let r ← nonAiCompile
      awaitCompileResult r
    match fallback with
    | .ok r => r
    | .error fe =>
      { success := false
        error := some ("编译失败: " ++ fe.msg ++ " (原始错误: " ++ e.msg ++ ")")
        warnings := warnings }

/-! ## Job manager (`services/job_manager.py`)

asyncio is single-threaded and cooperative: control can move between
`run_job` and `cancel_job` only at `await` points.  `run_job` has awaits
when acquiring the semaphore and the per-job lock (before it writes
`running`) and at the `await compile_document_with_ai(...)` call; the
block from assigning `job.result` to the final status write has no
awaits, and `cancel_job`'s body has none, so each runs atomically. -/

/-- `JobStatus`. -/
inductive JobStatus where
  | pending
  | running
  | completed
  | failed
  | cancelled
  deriving DecidableEq, Repr

/-- The per-job state that `run_job`/`cancel_job` mutate. -/
structure JobState where
  status : JobStatus
  resultStored : Bool := false
  outputStored : Bool := false
  error : Option String := none
  deriving DecidableEq, Repr

/-- A job as `create_job` returns it. -/
def newJob : JobState :=
  { status := .pending }

/-- The first atomic segment of `run_job` (after the semaphore and lock
awaits): `job.status = RUNNING`. -/
def runStart (j : JobState) : JobState :=
  { j with status := .running }

/-- The final atomic segment of `run_job` (after the compile await):
`job.result = result` and the unconditional terminal-status write —
`COMPLETED` with stored output when `result.success`, else `FAILED` with
`result.error`. -/
def runFinish (success : Bool) (err : Option String) (j : JobState) : JobState :=
  if success then
    { j with resultStored := true, status := .completed, outputStored := true }
  else
    { j with resultStored := true, status := .failed, error := err }

/-- `cancel_job` (atomic): `pending`/`running` jobs become `cancelled`
(returning `True`); anything else is untouched (returning `False`). -/
def cancelStep (j : JobState) : JobState × Bool :=
  if j.status = .pending ∨ j.status = .running then
    ({ j with status := .cancelled }, true)
  else (j, false)

/-- Where a single `cancel_job` call is scheduled relative to `run_job`'s
atomic segments (the three await windows), or not at all. -/
inductive CancelPoint where
  | beforeStart
  | duringCompile
  | afterFinish
  | never
  deriving DecidableEq, Repr

/-- Run one job from creation to `run_job`'s return with an optional
interleaved `cancel_job`; returns the final state and the observed
status sequence (the status after each atomic write, starting from
`pending`). -/
def runWithCancel (cp : CancelPoint) (success : Bool) (err : Option String) :
    JobState × List JobStatus :=
  let j0 := newJob
  let states :=
    match cp with
    | .beforeStart =>
      let j1 := (cancelStep j0).1
      let j2 := runStart j1
      let j3 := runFinish success err j2
      [j1, j2, j3]
    | .duringCompile =>
      let j1 := runStart j0
      let j2 := (cancelStep j1).1
      let j3 := runFinish success err j2
      [j1, j2, j3]
    | .afterFinish =>
      let j1 := runStart j0
      let j2 := runFinish success err j1
      let j3 := (cancelStep j2).1
      [j1, j2, j3]
    | .never =>
      let j1 := runStart j0
      let j2 := runFinish success err j1
      [j1, j2]
  ((states.getLast?).getD j0, j0.status :: states.map JobState.status)

/-! ## OOXML package and serializer (`utils/ooxml.py`)

`DocxPackage.to_bytes` writes each member with `zipfile.writestr(name,
content)`.  CPython's `writestr`, given a plain name, builds
`ZipInfo(filename=name, date_time=time.localtime(time.time())[:6])`:
the archive records the wall-clock time of serialization in every local
file header and central-directory entry.  DEFLATE compression and CRC32
are deterministic functions of the content and are represented by the
content itself; the date-time stamp is the `stamp` argument. -/

/-- A docx package: ordered member map (name → bytes). -/
structure DocxPackage where
  files : List (String × List Nat)
  deriving DecidableEq, Repr

/-- One serialized archive member as `writestr` lays it out: the fields
of the local file header that vary across calls (name, DOS date-time
stamp) plus the compressed payload. -/
structure ZipMember where
  name : String
  dosDateTime : Nat × Nat
  payload : List Nat
  deriving DecidableEq, Repr

/-- `DocxPackage.to_bytes` at wall-clock stamp `now`: members in
insertion order, each stamped with `now`. -/
def toBytes (pkg : DocxPackage) (now : Nat × Nat) : List ZipMember :=
  pkg.files.map (fun p => { name := p.1, dosDateTime := now, payload := p.2 })

/-! ## Concrete example values (used by witnesses and counterexamples) -/

/-- A small concrete `StyleSpec` (margins of the built-in generic spec,
one `Body` style). -/
def exampleSpec : StyleSpec :=
  { page := { margins_mm := { top := 25, bottom := 20, left := 25, right := 20, binding := 5 },
              header_mm := 15, footer_mm := 15 }
    styles := [("Body",
      { style_id := "Body", name := "Body",
        run := { size_pt := 12,
                 font := { eastAsia := "SimSun", ascii := "Times New Roman",
                           hAnsi := "Times New Roman" } },
        paragraph := {} })]
    structure_ := { required_h1_titles := [], toc_max_level := 3 } }

/-- A minimal document tree: `w:document` > `w:body` > one empty
paragraph and a `w:sectPr` with a `w:pgMar`. -/
def exampleDoc : Xml :=
  Xml.elem "w:document" [] (.cons
    (Xml.elem "w:body" [] (.cons (Xml.elem "w:p" [] .nil)
      (.cons (Xml.elem "w:sectPr" []
        (.cons (Xml.elem "w:pgMar" [("w:top", "1417"), ("w:bottom", "1134"),
          ("w:left", "1417"), ("w:right", "1134"), ("w:gutter", "283"),
          ("w:header", "850"), ("w:footer", "850")] .nil) .nil)) .nil))) .nil)

/-- The single-action `insert_toc_field` patch. -/
def tocOnlyPatch : Patch :=
  { actions := [{ action := "insert_toc_field", params := [("max_level", PVal.i 3)] }] }

/-- A `w:pgMar` whose `w:top` is off by 11 twips (1428 vs the expected
1417) and whose `w:bottom` is off by exactly 10 twips (1144 vs 1134). -/
def c6PgMar : Xml :=
  Xml.elem "w:pgMar" [("w:top", "1428"), ("w:bottom", "1144"),
    ("w:left", "1417"), ("w:right", "1134"), ("w:gutter", "283"),
    ("w:header", "850"), ("w:footer", "850")] .nil

/-- A `w:sectPr` holding `c6PgMar`. -/
def c6SectPr : Xml := Xml.elem "w:sectPr" [] (.cons c6PgMar .nil)

/-- A document like `exampleDoc` but with the `c6PgMar` margins. -/
def c6Doc : Xml :=
  Xml.elem "w:document" [] (.cons
    (Xml.elem "w:body" [] (.cons (Xml.elem "w:p" [] .nil)
      (.cons c6SectPr .nil))) .nil)

/-- A `w:pgMar` that carries no `w:top` attribute at all. -/
def c9PgMar : Xml :=
  Xml.elem "w:pgMar" [("w:bottom", "1134"),
    ("w:left", "1417"), ("w:right", "1134"), ("w:gutter", "283"),
    ("w:header", "850"), ("w:footer", "850")] .nil

/-- A `w:sectPr` holding `c9PgMar`. -/
def c9SectPr : Xml := Xml.elem "w:sectPr" [] (.cons c9PgMar .nil)

/-- A document like `exampleDoc` but with the `c9PgMar` margins. -/
def c9Doc : Xml :=
  Xml.elem "w:document" [] (.cons
    (Xml.elem "w:body" [] (.cons (Xml.elem "w:p" [] .nil)
      (.cons c9SectPr .nil))) .nil)

/-- Is there a `w:p` child at child position `j` or later? -/
def hasPAt : XmlList → Nat → Bool
  | .nil, _ => false
  | .cons c cs, 0 => Xml.isTag "w:p" c || hasPAt cs 0
  | .cons _ cs, n + 1 => hasPAt cs n

/-- The `pPr`-level rewriter of `updateSectPr`, factored out of its
lambda for reasoning (definitionally equal to the inline function). -/
def sectPrInPPr (g : Xml → Xml) (pPr : Xml) : Xml :=
  match pPr with
  | .elem qt qa qcs =>
    if hasChild "w:sectPr" qcs then .elem qt qa (mapFirstChild "w:sectPr" g qcs)
    else pPr
  | x => x

def sectPrInPara (g : Xml → Xml) (p : Xml) : Xml :=
  match p with
  | .elem pt pa pcs => .elem pt pa (mapFirstChild "w:pPr" (sectPrInPPr g) pcs)
  | x => x

def sectPrInBody (g : Xml → Xml) (body : Xml) : Xml :=
  match body with
  | .elem bt ba bcs =>
    if hasChild "w:sectPr" bcs then .elem bt ba (mapFirstChild "w:sectPr" g bcs)
    else .elem bt ba (mapLastChild "w:p" (sectPrInPara g) bcs)
  | x => x

/-- The pgMar attribute readout of a sectPr. -/
def pgmarRead (s : Xml) : Option (List (String × String)) :=
  (s.find "w:pgMar").map Xml.attrsOf

/-- What the margin checks (of the validator and of `_apply_set_page_margins`)
can observe: the resolved sectPr and its pgMar attributes. -/
def marginState (doc : Xml) : Option (Option (List (String × String))) :=
  (findSectPr doc).map pgmarRead

/-- `layoutViolations` as a function of the margin state. -/
def layoutViolationsS : Option (Option (List (String × String))) → StyleSpec →
    Except String (List Violation)
  | none, _ => .ok [sectprMissingViolation]
  | some none, _ => .ok [pgmarMissingViolation]
  | some (some attrs), spec => checkMargins (Xml.elem "w:pgMar" attrs .nil) spec

mutual
inductive PRw (tg : String) (g : Xml → Xml) : Xml → Xml → Prop where
  | here (a : List (String × String)) (cs : XmlList) :
      PRw tg g (.elem tg a cs) (g (.elem tg a cs))
  | deep (t : String) (a : List (String × String)) (cs cs' : XmlList) :
      PRwL tg g cs cs' → PRw tg g (.elem t a cs) (.elem t a cs')
inductive PRwL (tg : String) (g : Xml → Xml) : XmlList → XmlList → Prop where
  | head (c c' : Xml) (rest : XmlList) : PRw tg g c c' →
      PRwL tg g (.cons c rest) (.cons c' rest)
  | tail (c : Xml) (rest rest' : XmlList) : PRwL tg g rest rest' →
      PRwL tg g (.cons c rest) (.cons c rest')
end

/-- The relatedness carried along readouts. -/
def PRel (tg : String) (g : Xml → Xml) (c c' : Xml) : Prop :=
  c' = c ∨ PRw tg g c c'

/-- The last-paragraph readout of `_find_sectpr`, mapped by `pgmarRead`. -/
def pRead (p : Xml) : Option (Option (List (String × String))) :=
  ((p.find "w:pPr").bind (fun q => q.find "w:sectPr")).map pgmarRead

/-- The body-level part of `findSectPr`. -/
def findSectPrB (body : Xml) : Option Xml :=
  match body.find "w:sectPr" with
  | some s => some s
  | none =>
    match (childElems "w:p" body.childrenOf).getLast? with
    | none => none
    | some lastP => (lastP.find "w:pPr").bind (fun pPr => pPr.find "w:sectPr")

/-- The body updater of `_apply_insert_toc`. -/
def tocBodyU (maxLevel : Int) (body : Xml) : Xml :=
  match body with
  | .elem bt ba bcs =>
    .elem bt ba (bcs.insertAt (tocInsertIndex (childElems "w:p" bcs)) (tocParagraph maxLevel))
  | x => x

mutual
/-- All direct-formatting hits inside a node (including the node itself
when it is an `w:rPr`). -/
def hitsX (forbid : String → Bool) : Xml → List (String × String)
  | .txt _ => []
  | .elem t _ cs =>
    (if t = "w:rPr" then rPrChildrenHits forbid cs else []) ++ hitsL forbid cs
/-- `hitsX` summed over a forest. -/
def hitsL (forbid : String → Bool) : XmlList → List (String × String)
  | .nil => []
  | .cons c rest => hitsX forbid c ++ hitsL forbid rest
end

mutual
/-- The number of dirty paragraphs (nonempty direct-formatting hits)
inside a node, the node itself included when it is a `w:p`. -/
def dirtyX (forbid : String → Bool) : Xml → Nat
  | .txt _ => 0
  | .elem t _ cs =>
    (if t = "w:p" ∧ hitsL forbid cs ≠ [] then 1 else 0) + dirtyL forbid cs
/-- `dirtyX` summed over a forest. -/
def dirtyL (forbid : String → Bool) : XmlList → Nat
  | .nil => 0
  | .cons c rest => dirtyX forbid c + dirtyL forbid rest
end

/-- The per-paragraph dirty bit. -/
def dirtyBit (forbid : String → Bool) (p : Xml) : Nat :=
  if checkRunDirectFormatting forbid p = [] then 0 else 1

def dirtyD (forbid : String → Bool) (doc : Xml) : Nat :=
  dirtyL forbid doc.childrenOf

/-- The attribute writes an action contributes to the resolved pgMar. -/
def actionMarginWrites (spec : StyleSpec) (act : PatchAction) : List (String × String) :=
  if act.action = "set_page_margins" then marginWrites spec act.params else []

/-- The pgMar attribute writes the fixer performs for a report on `pg`. -/
def marginFixWrites (spec : StyleSpec) (pg : Xml) : List (String × String) :=
  (marginChecks spec).flatMap (fun p =>
    match marginHit pg p with
    | some _ => [("w:" ++ p.1, intStr (mmToTwips p.2))]
    | none => [])

/-! # Theorems -/


/-! ## StyleSpec round trip (claim C7) -/

/-- Round trip for `MarginMM`. -/
theorem marginMM_roundtrip : ∀ (m : MarginMM), m.Valid → m.toJson.validate = .ok m
  | ⟨top, bottom, left, right, binding⟩, ⟨h1, h2, h3, h4, h5⟩ => by
    simp [MarginMM.toJson, MarginMMJson.validate, checkGe0, h1, h2, h3, h4, h5,
      Bind.bind, Except.bind, pure, Except.pure]

/-- Round trip for `PageSpec`. -/
theorem pageSpec_roundtrip : ∀ (p : PageSpec), p.Valid → p.toJson.validate = .ok p
  | ⟨size, margins, header, footer⟩, ⟨h1, h2, h3, h4⟩ => by
    simp only at h1
    subst h1
    simp [PageSpec.toJson, PageSpecJson.validate, marginMM_roundtrip _ h2, checkGe0, h3, h4,
      Bind.bind, Except.bind, pure, Except.pure]

/-- Round trip for `StyleParagraph`. -/
theorem styleParagraph_roundtrip :
    ∀ (s : StyleParagraph), s.Valid → s.toJson.validate = .ok s
  | ⟨al, lsr, ls, sbp, sap, sbl, sal, fli, hic, kwn, kl, pbb, wc⟩,
    ⟨h1, h2, h3, h4, h5, h6, h7, h8⟩ => by
    simp only at h1 h2 h3 h4 h5 h6 h7 h8
    cases sbl with
    | none =>
      cases sal with
      | none =>
        simp [StyleParagraph.toJson, StyleParagraphJson.validate, h1, h2, h3, h4, h7, h8,
          checkGe0, Bind.bind, Except.bind, pure, Except.pure]
      | some q =>
        simp [StyleParagraph.toJson, StyleParagraphJson.validate, h1, h2, h3, h4, h7, h8,
          checkGe0, h6 q (by simp), Bind.bind, Except.bind, pure, Except.pure]
    | some q =>
      cases sal with
      | none =>
        simp [StyleParagraph.toJson, StyleParagraphJson.validate, h1, h2, h3, h4, h7, h8,
          checkGe0, h5 q (by simp), Bind.bind, Except.bind, pure, Except.pure]
      | some q2 =>
        simp [StyleParagraph.toJson, StyleParagraphJson.validate, h1, h2, h3, h4, h7, h8,
          checkGe0, h5 q (by simp), h6 q2 (by simp), Bind.bind, Except.bind, pure, Except.pure]

/-- Round trip for `StyleRun`. -/
theorem styleRun_roundtrip : ∀ (r : StyleRun), r.Valid → r.toJson.validate = .ok r
  | ⟨b, i, u, sz, f⟩, h => by
    have hs : 0 < sz := h
    simp [StyleRun.toJson, StyleRunJson.validate, hs,
      Bind.bind, Except.bind, pure, Except.pure]

/-- Round trip for `StyleDef`. -/
theorem styleDef_roundtrip : ∀ (s : StyleDef), s.Valid → s.toJson.validate = .ok s
  | ⟨sid, name, bo, ih, ol, run, par⟩, ⟨h1, h2, h3, h4, h5⟩ => by
    simp only at h1 h2 h3 h4 h5
    cases ol with
    | none =>
      simp [StyleDef.toJson, StyleDefJson.validate, h1, h2,
        styleRun_roundtrip _ h4, styleParagraph_roundtrip _ h5,
        Bind.bind, Except.bind, pure, Except.pure]
    | some n =>
      have hn := h3 n (by simp)
      simp [StyleDef.toJson, StyleDefJson.validate, h1, h2, hn.1, hn.2,
        styleRun_roundtrip _ h4, styleParagraph_roundtrip _ h5,
        Bind.bind, Except.bind, pure, Except.pure]

/-- Round trip for `NumberingLevel`. -/
theorem numberingLevel_roundtrip :
    ∀ (n : NumberingLevel), n.Valid → n.toJson.validate = .ok n
  | ⟨lv, sid, st, fmt, lt, suf⟩, ⟨h1, h2, h3, h4, h5⟩ => by
    simp only at h1 h2 h3 h4 h5
    subst h4
    simp [NumberingLevel.toJson, NumberingLevelJson.validate, h1, h2, h3, h5,
      Bind.bind, Except.bind, pure, Except.pure]

/-- `mapM` over `Except` when every member validates back to its source. -/
theorem mapM_ok {α β γ : Type} (f : α → Except γ β) (g : β → α) (l : List β)
    (h : ∀ x ∈ l, f (g x) = .ok x) :
    (l.map g).mapM f = .ok l := by
  induction l with
  | nil => rfl
  | cons x xs ih =>
    have hx := h x (by simp)
    have hxs := ih (fun y hy => h y (by simp [hy]))
    simp only [List.map_cons, List.mapM_cons, hx, hxs, Bind.bind, Except.bind,
      pure, Except.pure]

/-- Round trip for `NumberingSpec`. -/
theorem numberingSpec_roundtrip :
    ∀ (n : NumberingSpec), n.Valid → n.toJson.validate = .ok n
  | ⟨ai, ni, levels⟩, ⟨h1, h2, h3⟩ => by
    simp only at h1 h2 h3
    have hl : (levels.map NumberingLevel.toJson).mapM NumberingLevelJson.validate
        = .ok levels :=
      mapM_ok _ _ _ (fun x hx => numberingLevel_roundtrip x (h3 x hx))
    have hl2 : List.mapM.loop NumberingLevelJson.validate
        (levels.map NumberingLevel.toJson) [] = Except.ok levels := hl
    simp [NumberingSpec.toJson, NumberingSpecJson.validate, h1, h2, hl, hl2,
      Bind.bind, Except.bind, pure, Except.pure]

/-- Round trip for `ForbiddenDirectFormatting`. -/
theorem forbidden_roundtrip (f : ForbiddenDirectFormatting) :
    f.toJson.validate = f := rfl

/-- Round trip for `StructureSpec`. -/
theorem structureSpec_roundtrip :
    ∀ (s : StructureSpec), s.Valid → s.toJson.validate = .ok s
  | ⟨req, toc⟩, ⟨h1, h2⟩ => by
    simp only at h1 h2
    simp [StructureSpec.toJson, StructureSpecJson.validate, h1, h2,
      Bind.bind, Except.bind, pure, Except.pure]

/-- Round trip for `PageNumberingSpec`. -/
theorem pageNumbering_roundtrip :
    ∀ (p : PageNumberingSpec), p.Valid → p.toJson.validate = .ok p
  | ⟨en, ff, fs, mf, ms, sif, fa⟩, ⟨h1, h2, h3, h4, h5⟩ => by
    simp only at h1 h2 h3 h4 h5
    simp [PageNumberingSpec.toJson, PageNumberingJson.validate, h1, h2, h3, h4, h5,
      Bind.bind, Except.bind, pure, Except.pure]

/-- `checkStyleKeys` succeeds when every key equals its `style_id`. -/
theorem checkStyleKeys_ok (l : List (String × StyleDef))
    (h : ∀ p ∈ l, p.1 = p.2.style_id) : checkStyleKeys l = .ok () := by
  induction l with
  | nil => rfl
  | cons p rest ih =>
    have hp := h p (by simp)
    simp [checkStyleKeys, hp, ih (fun q hq => h q (by simp [hq]))]

/-- Claim C7: for every `StyleSpec` `s` (any value constructible by the
pydantic model, i.e. satisfying its field constraints), exporting to JSON
and re-validating is the identity:
`validate_custom_spec(export_spec_to_json(s))` returns a `StyleSpec`
equal to `s`. -/
theorem c7_stylespec_roundtrip (s : StyleSpec) (h : s.Valid) :
    validateCustomSpec (exportSpecToJson s) = .ok s := by
  obtain ⟨hp, _hnd, _hm, hst, hnum, hstr, hpn⟩ := h
  have hpage := pageSpec_roundtrip s.page hp
  have hstyles : (s.styles.map (fun p => (p.1, p.2.toJson))).mapM validateStylesEntry
      = .ok s.styles :=
    mapM_ok validateStylesEntry (fun p => (p.1, p.2.toJson)) s.styles
      (fun x hx => by
        simp [validateStylesEntry, styleDef_roundtrip x.2 (hst x hx).2])
  have hkeys := checkStyleKeys_ok s.styles (fun p hp2 => (hst p hp2).1)
  obtain ⟨meta, page, styles, numbering, structure_, fdf, pageNumbering, apak, anft⟩ := s
  simp only at hpage hstyles hkeys hnum hstr hpn
  have hstyles2 : List.mapM.loop validateStylesEntry
      (styles.map (fun p => (p.1, p.2.toJson))) [] = Except.ok styles := hstyles
  cases numbering with
  | none =>
    cases pageNumbering with
    | none =>
      simp [validateCustomSpec, exportSpecToJson, hpage, hstyles, hstyles2, hkeys,
        structureSpec_roundtrip _ hstr, forbidden_roundtrip,
        Bind.bind, Except.bind, pure, Except.pure]
    | some pn =>
      simp [validateCustomSpec, exportSpecToJson, hpage, hstyles, hstyles2, hkeys,
        structureSpec_roundtrip _ hstr, forbidden_roundtrip,
        pageNumbering_roundtrip pn (by simpa using hpn pn),
        Bind.bind, Except.bind, pure, Except.pure]
  | some num =>
    have hnum2 := numberingSpec_roundtrip num (by simpa using hnum num)
    cases pageNumbering with
    | none =>
      simp [validateCustomSpec, exportSpecToJson, hpage, hstyles, hstyles2, hkeys,
        structureSpec_roundtrip _ hstr, forbidden_roundtrip, hnum2,
        Bind.bind, Except.bind, pure, Except.pure]
    | some pn =>
      simp [validateCustomSpec, exportSpecToJson, hpage, hstyles, hstyles2, hkeys,
        structureSpec_roundtrip _ hstr, forbidden_roundtrip, hnum2,
        pageNumbering_roundtrip pn (by simpa using hpn pn),
        Bind.bind, Except.bind, pure, Except.pure]

/-- Witness for C7: the round trip evaluated at the concrete
`exampleSpec`. -/
theorem c7_stylespec_roundtrip_witness :
    exampleSpec.Valid ∧ validateCustomSpec (exportSpecToJson exampleSpec) = .ok exampleSpec := by
  have hv : exampleSpec.Valid := by
    simp [StyleSpec.Valid, PageSpec.Valid, MarginMM.Valid, StructureSpec.Valid,
      StyleDef.Valid, StyleRun.Valid, StyleParagraph.Valid, exampleSpec,
      alignmentValues, lineSpacingRules]
  exact ⟨hv, c7_stylespec_roundtrip exampleSpec hv⟩

/-! ## Plain-text heading recognition (claim C8) -/


theorem sepDigitGroupsF_append : ∀ (fuel : Nat) (l : List Char), l.length ≤ fuel →
    (sepDigitGroupsF fuel l).1 ++ (sepDigitGroupsF fuel l).2 = l := by
  intro fuel
  induction fuel with
  | zero => intro l hl; simp [sepDigitGroupsF]
  | succ fuel ih =>
    intro l hl
    match l with
    | [] => simp [sepDigitGroupsF]
    | c :: rest =>
      by_cases h : isHeadSep c ∧ rest.takeWhile isPyDigit ≠ []
      · have hlen : (rest.dropWhile isPyDigit).length ≤ fuel := by
          have := (List.dropWhile_sublist (p := isPyDigit) (l := rest)).length_le
          simp only [List.length_cons] at hl
          omega
        simp only [sepDigitGroupsF, if_pos h]
        simp only [List.cons_append, List.append_assoc, ih _ hlen]
        exact congrArg (fun t => c :: t) (List.takeWhile_append_dropWhile _ _)
      · simp only [sepDigitGroupsF, if_neg h, List.nil_append]

theorem sepDigitGroups_append (l : List Char) :
    (sepDigitGroups l).1 ++ (sepDigitGroups l).2 = l :=
  sepDigitGroupsF_append l.length l (le_refl _)

theorem sepDigitGroupsF_mem : ∀ (fuel : Nat) (l : List Char) (c : Char),
    c ∈ (sepDigitGroupsF fuel l).1 → isHeadSep c ∨ isPyDigit c := by
  intro fuel
  induction fuel with
  | zero => intro l c hc; simp [sepDigitGroupsF] at hc
  | succ fuel ih =>
    intro l c hc
    match l with
    | [] => simp [sepDigitGroupsF] at hc
    | c0 :: rest =>
      by_cases h : isHeadSep c0 ∧ rest.takeWhile isPyDigit ≠ []
      · simp only [sepDigitGroupsF, if_pos h] at hc
        rcases List.mem_cons.mp hc with rfl | hmem
        · exact Or.inl h.1
        · rcases List.mem_append.mp hmem with h1 | h2
          · exact Or.inr (List.mem_takeWhile_imp h1)
          · exact ih _ _ h2
      · simp only [sepDigitGroupsF, if_neg h] at hc
        simp at hc

theorem sepDigitGroups_mem (l : List Char) (c : Char)
    (h : c ∈ (sepDigitGroups l).1) : isHeadSep c ∨ isPyDigit c :=
  sepDigitGroupsF_mem l.length l c h


theorem isPyDigit_not_space {c : Char} (h : isPyDigit c) : ¬ isPySpace c := by
  simp only [isPyDigit, isAsciiDigit, isPySpace, decide_eq_true_eq, Bool.or_eq_true] at h ⊢
  omega

theorem isHeadSep_not_space {c : Char} (h : isHeadSep c) : ¬ isPySpace c := by
  simp only [isHeadSep, Bool.or_eq_true, decide_eq_true_eq] at h
  rcases h with rfl | rfl <;> decide

/-- Anatomy of a successful heading match. -/
theorem headingNumParse_anatomy (l pfx rest : List Char)
    (h : headingNumParse l = some (pfx, rest)) :
    l.dropWhile isPySpace = pfx ++ rest ∧
    (∀ c ∈ pfx, ¬ isPySpace c) ∧
    (l.dropWhile isPySpace).takeWhile isPyDigit ≠ [] ∧
    pfx = (l.dropWhile isPySpace).takeWhile isPyDigit ++
      (sepDigitGroups ((l.dropWhile isPySpace).dropWhile isPyDigit)).1 ∧
    (∃ c1 c2 t, rest = c1 :: c2 :: t ∧ isPySpace c1) := by
  unfold headingNumParse at h
  split at h
  · exact absurd h (by simp)
  · split at h
    case h_1 c1 c2 t heq =>
      split at h
      case isTrue hs =>
        injection h with h2
        injection h2 with hpfx hrest
        subst hpfx
        refine ⟨?_, ?_, by assumption, rfl, ⟨c1, c2, t, by rw [← hrest, heq], hs⟩⟩
        · conv_lhs => rw [← List.takeWhile_append_dropWhile (p := isPyDigit)
            (l := l.dropWhile isPySpace)]
          rw [← hrest, List.append_assoc]
          congr 1
          exact (sepDigitGroups_append _).symm
        · intro c hc
          rcases List.mem_append.mp hc with h1 | h2
          · exact isPyDigit_not_space (List.mem_takeWhile_imp h1)
          · rcases sepDigitGroups_mem _ _ h2 with hsep | hdig
            · exact isHeadSep_not_space hsep
            · exact isPyDigit_not_space hdig
      case isFalse hs => exact absurd h (by simp)
    case h_2 heq2 => exact absurd h (by simp)

/-- For a matched line the first whitespace token is the numeric prefix. -/
theorem headingNumParse_firstToken (l pfx rest : List Char)
    (h : headingNumParse l = some (pfx, rest)) : firstToken l = pfx := by
  obtain ⟨hsplit, hnosp, _hd, _hpfx, c1, c2, t, hrest, hs⟩ :=
    headingNumParse_anatomy l pfx rest h
  unfold firstToken
  rw [hsplit, List.takeWhile_append_of_pos (by simpa using hnosp), hrest]
  simp [List.takeWhile_cons, hs]

/-- Right strip is a prefix. -/
theorem rstrip_prefix (p : Char → Bool) (m : List Char) :
    ((m.reverse.dropWhile p).reverse) <+: m := by
  have h := List.dropWhile_suffix (l := m.reverse) p
  have h2 := List.reverse_prefix.mpr h
  simpa using h2

/-- A list whose head fails the predicate survives right stripping. -/
theorem rstrip_ne_nil (p : Char → Bool) (m : List Char) (c : Char)
    (hc : c ∈ m) (hp : ¬ p c) : (m.reverse.dropWhile p).reverse ≠ [] := by
  intro hnil
  have : m.reverse.dropWhile p = [] := by
    simpa using congrArg List.reverse hnil
  have hall := List.dropWhile_eq_nil_iff.mp this
  exact hp (hall c (by simpa using hc))

/-- `pyStrip` of a line whose first non-space character exists: the head
of the strip is that character. -/
theorem pyStrip_head (l : List Char) (c : Char) (tl : List Char)
    (hm : l.dropWhile isPySpace = c :: tl) (hc : ¬ isPySpace c) :
    ∃ t2, pyStrip l = c :: t2 := by
  unfold pyStrip
  rw [hm]
  have hpre := rstrip_prefix isPySpace (c :: tl)
  have hne := rstrip_ne_nil isPySpace (c :: tl) c (by simp) hc
  match he : ((c :: tl).reverse.dropWhile isPySpace).reverse with
  | [] => exact absurd he hne
  | c0 :: t2 =>
    rw [he] at hpre
    obtain ⟨t3, ht3⟩ := hpre
    injection ht3 with h1 h2
    exact ⟨t2, by rw [h1]⟩

/-- A matched line strips to a string starting with a digit. -/
theorem matched_strip_head (l pfx rest : List Char)
    (h : headingNumParse l = some (pfx, rest)) :
    ∃ c t2, pyStrip l = c :: t2 ∧ isPyDigit c := by
  obtain ⟨hsplit, _hnosp, hd, hpfx, _⟩ := headingNumParse_anatomy l pfx rest h
  match he : (l.dropWhile isPySpace).takeWhile isPyDigit with
  | [] => exact absurd he hd
  | c :: t =>
    have hdig : isPyDigit c := List.mem_takeWhile_imp (by rw [he]; simp)
    have hm : l.dropWhile isPySpace = c :: (t ++ (l.dropWhile isPySpace).dropWhile isPyDigit) := by
      conv_lhs => rw [← List.takeWhile_append_dropWhile (p := isPyDigit)
        (l := l.dropWhile isPySpace)]
      rw [he]
      simp
    obtain ⟨t2, ht2⟩ := pyStrip_head l c _ hm (isPyDigit_not_space hdig)
    exact ⟨c, t2, ht2, hdig⟩

/-- A matched line is not blank and is not a sentinel line. -/
theorem matched_not_sentinel (line : String) (pfx rest : List Char)
    (h : headingNumParse line.data = some (pfx, rest)) :
    pyStripS line ≠ "" ∧ pyStripS line ≠ "[[PAGEBREAK]]" ∧
    pyStripS line ≠ "---pagebreak---" ∧ pyStripS line ≠ "[[SECTIONBREAK]]" ∧
    pyStripS line ≠ "---sectionbreak---" := by
  obtain ⟨c, t2, hstrip, hdig⟩ := matched_strip_head line.data pfx rest h
  have hne : ∀ (s : String), (s.data.head? = some c → False) → pyStripS line ≠ s := by
    intro s hhead heq
    have : (pyStripS line).data = s.data := by rw [heq]
    rw [pyStripS] at this
    simp only [hstrip] at this
    exact hhead (by rw [← this]; rfl)
  refine ⟨hne "" (by simp), hne "[[PAGEBREAK]]" ?_, hne "---pagebreak---" ?_,
    hne "[[SECTIONBREAK]]" ?_, hne "---sectionbreak---" ?_⟩ <;>
    · intro hh
      injection hh with hh
      subst hh
      simp [isPyDigit, isAsciiDigit] at hdig

/-- Claim C8 (main step): a line matching `_HEADING_NUM_RE` makes
`parse_plaintext_heuristic` flush the paragraph buffer and emit a
`Heading` block whose level is `1 + (number of separators in the numeric
prefix)`, clamped to 3. -/
theorem c8_heading_level (line : String) (blocks : List Block) (buf : List String)
    (pfx rest : List Char) (h : headingNumParse line.data = some (pfx, rest)) :
    stepLine (blocks, buf) line =
      (flushPara blocks buf ++
        [Block.heading (min (1 + countSeps pfx) 3) (headingTitle line)], []) := by
  obtain ⟨hblank, hp1, hp2, hs1, hs2⟩ := matched_not_sentinel line pfx rest h
  unfold stepLine
  rw [if_neg hblank, if_neg (by push_neg; exact ⟨hp1, hp2⟩),
    if_neg (by push_neg; exact ⟨hs1, hs2⟩), h]
  have : headingLevel line = min (1 + countSeps pfx) 3 := by
    unfold headingLevel
    rw [headingNumParse_firstToken line.data pfx rest h]
  rw [this]

theorem c8_witness :
    headingNumParse ("1.1.1.1 x").data =
      some (['1', '.', '1', '.', '1', '.', '1'], [' ', 'x']) ∧
    stepLine ([], []) "1.1.1.1 x" = ([Block.heading 3 "x"], []) := by
  constructor
  · decide
  · rw [c8_heading_level "1.1.1.1 x" [] []
      ['1', '.', '1', '.', '1', '.', '1'] [' ', 'x'] (by decide)]
    decide


/-! ## Serializer determinism (claim C5) -/

/-- Claim C5 support: `to_bytes` is not a function of the member map
alone — `writestr` stamps the current local time into every member, so
serializing the same package at two different wall-clock times yields
different bytes. -/
theorem c5_tobytes_depends_on_time (pkg : DocxPackage) (t1 t2 : Nat × Nat)
    (hne : pkg.files ≠ []) (ht : t1 ≠ t2) : toBytes pkg t1 ≠ toBytes pkg t2 := by
  intro h
  match hf : pkg.files with
  | [] => exact hne hf
  | p :: rest =>
    unfold toBytes at h
    rw [hf] at h
    simp only [List.map_cons, List.cons.injEq, ZipMember.mk.injEq] at h
    exact ht h.1.2.1

/-- Witness for C5: a one-member package serialized at two DOS
date-times. -/
theorem c5_tobytes_depends_on_time_witness :
    toBytes { files := [("word/document.xml", [60, 63])] } (20513, 0) ≠
      toBytes { files := [("word/document.xml", [60, 63])] } (20513, 2048) :=
  c5_tobytes_depends_on_time { files := [("word/document.xml", [60, 63])] }
    (20513, 0) (20513, 2048) (by decide) (by decide)

/-! ## AI-compiler fallback (claim C3) -/

/-- Claim C3 support: whenever an exception `e` escapes the AI pipeline,
`compile_document_with_ai` awaits the value returned by the synchronous
`compile_document`, which raises `TypeError`; the final result therefore
has `success=false` even when the non-AI pipeline returned a successful
result `r` — the fallback can never surface `r`. -/
theorem c3_fallback_always_fails (e : PyErr) (r : CompileResult)
    (_h : r.success = true) :
    (compileDocumentWithAi (.error e) (.ok r)).success = false ∧
    (compileDocumentWithAi (.error e) (.ok r)).error =
      some ("编译失败: object CompileResult can't be used in 'await' expression (原始错误: "
        ++ e.msg ++ ")") ∧
    (compileDocumentWithAi (.error e) (.ok r)).warnings =
      ["AI 编译失败，已降级到规则模式: " ++ e.msg] := by
  refine ⟨rfl, rfl, rfl⟩

/-- Witness for C3: a concrete AI failure with a fallback result that
has `success=true`. -/
theorem c3_fallback_always_fails_witness :
    ({ success := true } : CompileResult).success = true ∧
    (compileDocumentWithAi (.error (.exc "boom")) (.ok { success := true })).success = false :=
  ⟨rfl, (c3_fallback_always_fails (.exc "boom") { success := true } rfl).1⟩

/-! ## Job status transitions (claim C4) -/

/-- Counterexample to claim C4: a job cancelled while its compile is in
flight is overwritten to `completed` by `run_job`'s unconditional final
status write, and its result is stored, not discarded; the observed
status sequence `pending, running, cancelled, completed` leaves the
terminal state `cancelled`. -/
theorem c4_cancel_overwritten_counterexample :
    (runWithCancel .duringCompile true none).1.status = .completed ∧
    (runWithCancel .duringCompile true none).1.resultStored = true ∧
    (runWithCancel .duringCompile true none).1.outputStored = true ∧
    (runWithCancel .duringCompile true none).2 =
      [.pending, .running, .cancelled, .completed] := by
  refine ⟨rfl, rfl, rfl, rfl⟩

/-- Amended claim C4: `cancel_job` moves only `pending`/`running` jobs to
`cancelled` (and reports whether it did); with no interleaved
cancellation the observed sequence is exactly `pending, running,` then
`completed`/`failed` by `result.success`; but `run_job`'s final write is
unconditional, so a cancellation scheduled before it (before the start
or during the compile) ends in `completed`/`failed` with the result
retained, while a cancellation after it leaves the terminal status
untouched and returns `False`. -/
theorem c4_amended_status_protocol (cp : CancelPoint) (success : Bool)
    (err : Option String) :
    ((runWithCancel .never success err).2 =
      [.pending, .running, if success then .completed else .failed]) ∧
    (cp = .beforeStart ∨ cp = .duringCompile →
      (runWithCancel cp success err).1.status =
        (if success then .completed else .failed) ∧
      (runWithCancel cp success err).1.resultStored = true) ∧
    ((runWithCancel .afterFinish success err).1.status =
      (if success then .completed else .failed) ∧
     (cancelStep (runFinish success err (runStart newJob))).2 = false) ∧
    (∀ j : JobState, (cancelStep j).2 = true ↔
      (j.status = .pending ∨ j.status = .running)) := by
  refine ⟨?_, ?_, ?_, ?_⟩
  · cases success <;> rfl
  · rintro (rfl | rfl) <;> cases success <;>
      simp [runWithCancel, runStart, runFinish, cancelStep, newJob]
  · constructor
    · cases success <;>
        simp [runWithCancel, runStart, runFinish, cancelStep, newJob]
    · cases success <;> rfl
  · intro j
    unfold cancelStep
    by_cases h : j.status = .pending ∨ j.status = .running
    · simp [h]
    · simp [h]

/-! ## Out-of-range patch actions (claim C10) -/

/-- Claim C10: a `set_paragraph_style` or `clear_direct_run_formatting`
action whose `paragraph_index` is missing, negative, or not less than
the number of paragraphs leaves the document tree unchanged (the
handlers bound-check before indexing, so nothing is raised either). -/
theorem c10_out_of_range_noop (params : List (String × PVal)) (docRoot : Xml)
    (h : getParamInt params "paragraph_index" = none ∨
      ∃ idx, getParamInt params "paragraph_index" = some idx ∧
        (idx < 0 ∨ ((allParas docRoot).length : Int) ≤ idx)) :
    applySetParagraphStyle params docRoot = docRoot ∧
    applyClearDirectFormatting params docRoot = docRoot := by
  rcases h with h | ⟨idx, hidx, hoob⟩
  · constructor <;> simp [applySetParagraphStyle, applyClearDirectFormatting, h]
  · constructor <;> simp [applySetParagraphStyle, applyClearDirectFormatting, hidx, hoob]

/-- Witness for C10: index 5 on the one-paragraph document. -/
theorem c10_out_of_range_noop_witness :
    applySetParagraphStyle [("paragraph_index", PVal.i 5)] exampleDoc = exampleDoc ∧
    applyClearDirectFormatting [("paragraph_index", PVal.i 5)] exampleDoc = exampleDoc :=
  c10_out_of_range_noop [("paragraph_index", PVal.i 5)] exampleDoc
    (Or.inr ⟨5, by decide, by decide⟩)


/-! ## Margin tolerance (claims C6 and C9) -/

theorem string_data_inj {a b : String} (h : a.data = b.data) : a = b := by
  cases a; cases b; exact congrArg String.mk h

theorem marginPrefix_inj {a b : String}
    (h : "layout.margin_" ++ a = "layout.margin_" ++ b) : a = b := by
  have h2 := congrArg String.data h
  simp only [String.data_append] at h2
  exact string_data_inj (List.append_cancel_left h2)

theorem wPrefix_inj {a b : String} (h : "w:" ++ a = "w:" ++ b) : a = b := by
  have h2 := congrArg String.data h
  simp only [String.data_append] at h2
  exact string_data_inj (List.append_cancel_left h2)

theorem margin_id_ne (k s : String) (h : s.data.head? ≠ some 'l') :
    "layout.margin_" ++ k ≠ s := by
  intro he
  apply h
  rw [← he]
  rfl

theorem marginStep_none (pgMar : Xml) (acc : List Violation) (p : String × Rat)
    (hA : pgMar.getA ("w:" ++ p.1) = none) : marginStep pgMar acc p = pure acc := by
  unfold marginStep
  simp only [hA]

theorem marginStep_some (pgMar : Xml) (acc : List Violation) (p : String × Rat)
    (v : String) (act : Int) (hA : pgMar.getA ("w:" ++ p.1) = some v)
    (hP : pyInt v = some act) :
    marginStep pgMar acc p = pure (acc ++ (marginHit pgMar p).toList) := by
  unfold marginStep marginHit
  simp only [hA, hP]
  by_cases hc : (act - mmToTwips p.2).natAbs > 10
  · simp [hc]
  · simp [hc]

theorem marginStep_bad (pgMar : Xml) (acc : List Violation) (p : String × Rat)
    (v : String) (hA : pgMar.getA ("w:" ++ p.1) = some v) (hP : pyInt v = none) :
    marginStep pgMar acc p = throw "invalid literal for int()" := by
  unfold marginStep
  simp only [hA, hP]

theorem marginHit_none (pgMar : Xml) (p : String × Rat)
    (hA : pgMar.getA ("w:" ++ p.1) = none) : marginHit pgMar p = none := by
  unfold marginHit
  simp only [hA]

theorem marginFold_ok (pgMar : Xml) :
    ∀ (checks : List (String × Rat)) (acc vs : List Violation),
    checks.foldlM (marginStep pgMar) acc = .ok vs →
    vs = acc ++ checks.filterMap (marginHit pgMar) := by
  intro checks
  induction checks with
  | nil =>
    intro acc vs h
    simp only [List.foldlM_nil, pure, Except.pure, Except.ok.injEq] at h
    simp [h]
  | cons p rest ih =>
    intro acc vs h
    rw [List.foldlM_cons] at h
    cases hA : pgMar.getA ("w:" ++ p.1) with
    | none =>
      rw [marginStep_none pgMar acc p hA] at h
      simp only [pure, Except.pure, Bind.bind, Except.bind] at h
      rw [ih acc vs h]
      simp [List.filterMap_cons, marginHit_none pgMar p hA]
    | some v =>
      cases hP : pyInt v with
      | none =>
        rw [marginStep_bad pgMar acc p v hA hP] at h
        simp [Bind.bind, Except.bind, throw, throwThe, MonadExceptOf.throw] at h
      | some act =>
        rw [marginStep_some pgMar acc p v act hA hP] at h
        simp only [pure, Except.pure, Bind.bind, Except.bind] at h
        rw [ih _ vs h]
        cases hhit : marginHit pgMar p with
        | none => simp [List.filterMap_cons, hhit]
        | some mv => simp [List.filterMap_cons, hhit]

theorem marginHit_some_elim (pgMar : Xml) (p : String × Rat) (mv : Violation)
    (h : marginHit pgMar p = some mv) :
    ∃ v act, pgMar.getA ("w:" ++ p.1) = some v ∧ pyInt v = some act ∧
      (act - mmToTwips p.2).natAbs > 10 ∧ mv = marginViolation p.1 p.2 act := by
  unfold marginHit at h
  cases hA : pgMar.getA ("w:" ++ p.1) with
  | none => simp [hA] at h
  | some v =>
    simp only [hA] at h
    cases hP : pyInt v with
    | none => simp [hP] at h
    | some act =>
      simp only [hP] at h
      by_cases hc : (act - mmToTwips p.2).natAbs > 10
      · rw [if_pos hc] at h
        exact ⟨v, act, rfl, hP, hc, (Option.some.injEq _ _ ▸ h).symm⟩
      · rw [if_neg hc] at h
        simp at h

/-- Decomposition of a successful `validate_docx` run. -/
theorem validateDocx_ok_elim (t : Xml) (spec : StyleSpec) (r : ValidationReport)
    (h : validateDocx t spec = .ok r) :
    ∃ lvs, layoutViolations t spec = .ok lvs ∧
      r.violations = lvs ++ structureViolations t spec ++
        ((allParas t).enum.flatMap (fun pi => paraViolations spec pi.1 pi.2)) ++
        tocViolations t spec := by
  unfold validateDocx docViolations at h
  cases hl : layoutViolations t spec with
  | error e =>
    rw [hl] at h
    simp [Bind.bind, Except.bind] at h
  | ok lvs =>
    rw [hl] at h
    simp only [Bind.bind, Except.bind, pure, Except.pure, Except.ok.injEq] at h
    refine ⟨lvs, rfl, ?_⟩
    rw [← h]

theorem structure_ids (t : Xml) (spec : StyleSpec) (v : Violation)
    (h : v ∈ structureViolations t spec) :
    v.violation_id = "structure.required_section_missing" := by
  unfold structureViolations at h
  obtain ⟨req, _hreq, hsome⟩ := List.mem_filterMap.mp h
  by_cases hmem : req ∈ h1Titles t
  · simp [hmem] at hsome
  · simp only [hmem, if_neg, if_false, reduceIte, Option.some.injEq] at hsome
    rw [← hsome]

theorem para_ids (spec : StyleSpec) (i : Nat) (p : Xml) (v : Violation)
    (h : v ∈ paraViolations spec i p) :
    v.violation_id = "style.unknown_style" ∨
    v.violation_id = "style.direct_formatting_forbidden" := by
  simp only [paraViolations] at h
  rcases List.mem_append.mp h with h1 | h2
  · left
    cases hs : getPStyle p with
    | none => simp [hs] at h1
    | some s =>
      simp only [hs] at h1
      by_cases hc : s ≠ "" ∧ s ∉ specStyleIds spec ∧ s ≠ "Normal" ∧ s ≠ "DefaultParagraphFont"
      · rw [if_pos hc] at h1
        rcases List.mem_singleton.mp h1 with rfl
        rfl
      · rw [if_neg hc] at h1
        simp at h1
  · right
    by_cases hd : checkRunDirectFormatting (forbidLookup spec.forbidden_direct_formatting) p ≠ []
    · rw [if_pos hd] at h2
      rcases List.mem_singleton.mp h2 with rfl
      rfl
    · rw [if_neg hd] at h2
      simp at h2

theorem toc_ids (t : Xml) (spec : StyleSpec) (v : Violation)
    (h : v ∈ tocViolations t spec) : v.violation_id = "field.toc_missing" := by
  unfold tocViolations at h
  by_cases hc : 0 < spec.structure_.toc_max_level ∧ ¬ hasTocField t
  · rw [if_pos hc] at h
    rcases List.mem_singleton.mp h with rfl
    rfl
  · rw [if_neg hc] at h
    simp at h



theorem marginChecks_key_inj (spec : StyleSpec) (p q : String × Rat)
    (hp : p ∈ marginChecks spec) (hq : q ∈ marginChecks spec) (h : p.1 = q.1) :
    p.2 = q.2 := by
  simp only [marginChecks, List.mem_cons, List.not_mem_nil, or_false] at hp hq
  rcases hp with rfl | rfl | rfl | rfl | rfl | rfl | rfl <;>
    rcases hq with rfl | rfl | rfl | rfl | rfl | rfl | rfl <;>
    first
      | rfl
      | simp at h

theorem validateDocx_decomp (t : Xml) (spec : StyleSpec) (sectPr pgMar : Xml)
    (r : ValidationReport)
    (hS : findSectPr t = some sectPr) (hM : sectPr.find "w:pgMar" = some pgMar)
    (hr : validateDocx t spec = .ok r) :
    r.violations = (marginChecks spec).filterMap (marginHit pgMar) ++
      structureViolations t spec ++
      ((allParas t).enum.flatMap (fun pi => paraViolations spec pi.1 pi.2)) ++
      tocViolations t spec := by
  obtain ⟨lvs, hl, hv⟩ := validateDocx_ok_elim t spec r hr
  have h2 : checkMargins pgMar spec = .ok lvs := by
    unfold layoutViolations at hl
    simp only [hS, hM] at hl
    exact hl
  have h2b : (marginChecks spec).foldlM (marginStep pgMar) [] = .ok lvs := h2
  have h3 := marginFold_ok pgMar (marginChecks spec) [] lvs h2b
  rw [hv, h3]
  simp

theorem margin_viol_mem (t : Xml) (spec : StyleSpec) (sectPr pgMar : Xml)
    (r : ValidationReport)
    (hS : findSectPr t = some sectPr) (hM : sectPr.find "w:pgMar" = some pgMar)
    (hr : validateDocx t spec = .ok r)
    (p : String × Rat) (hp : p ∈ marginChecks spec) (mv : Violation)
    (hhit : marginHit pgMar p = some mv) : mv ∈ r.violations := by
  rw [validateDocx_decomp t spec sectPr pgMar r hS hM hr]
  simp only [List.mem_append]
  left; left; left
  exact List.mem_filterMap.mpr ⟨p, hp, hhit⟩

theorem margin_viol_src (t : Xml) (spec : StyleSpec) (sectPr pgMar : Xml)
    (r : ValidationReport)
    (hS : findSectPr t = some sectPr) (hM : sectPr.find "w:pgMar" = some pgMar)
    (hr : validateDocx t spec = .ok r)
    (viol : Violation) (hv : viol ∈ r.violations)
    (hid : viol.violation_id.data.head? = some 'l') :
    ∃ p ∈ marginChecks spec, marginHit pgMar p = some viol := by
  rw [validateDocx_decomp t spec sectPr pgMar r hS hM hr] at hv
  rcases List.mem_append.mp hv with hv3 | htoc
  · rcases List.mem_append.mp hv3 with hv2 | hpar
    · rcases List.mem_append.mp hv2 with hmar | hstr
      · exact List.mem_filterMap.mp hmar
      · rw [structure_ids t spec viol hstr] at hid
        exact absurd hid (by decide)
    · obtain ⟨pi, _hpi, hmem⟩ := List.mem_flatMap.mp hpar
      rcases para_ids spec pi.1 pi.2 viol hmem with h | h <;>
        (rw [h] at hid; exact absurd hid (by decide))
  · rw [toc_ids t spec viol htoc] at hid
    exact absurd hid (by decide)

/-- Claim C6: for every document whose `pgMar` carries a value for the
margin/header/footer key `k` of the checks table, `validate_docx` emits a
`layout.margin_<k>` error carrying a `set_page_margins` suggestion iff
the absolute difference between that twip value and the spec's expected
value `round(mm / 25.4 * 1440)` exceeds 10 twips. -/
theorem c6_margin_tolerance (t : Xml) (spec : StyleSpec) (sectPr pgMar : Xml)
    (k : String) (expMm : Rat) (v : String) (act : Int) (r : ValidationReport)
    (hS : findSectPr t = some sectPr)
    (hM : sectPr.find "w:pgMar" = some pgMar)
    (hk : (k, expMm) ∈ marginChecks spec)
    (hA : pgMar.getA ("w:" ++ k) = some v)
    (hP : pyInt v = some act)
    (hr : validateDocx t spec = .ok r) :
    (∃ viol ∈ r.violations, viol.violation_id = "layout.margin_" ++ k ∧
        viol.severity = "error" ∧
        viol.suggestion = some (FixSuggestion.mk "set_page_margins"
          [("target", PVal.s "section0"), (k, PVal.i (mmToTwips expMm))]))
      ↔ (act - mmToTwips expMm).natAbs > 10 := by
  constructor
  · rintro ⟨viol, hv, hid, _, _⟩
    have hhead : viol.violation_id.data.head? = some 'l' := by rw [hid]; rfl
    obtain ⟨p, hp, hhit⟩ := margin_viol_src t spec sectPr pgMar r hS hM hr viol hv hhead
    obtain ⟨v', act', hA', hP', hgt, hveq⟩ := marginHit_some_elim pgMar p viol hhit
    have hk1 : p.1 = k := by
      apply marginPrefix_inj
      rw [← hid, hveq]
      rfl
    have hk2 : p.2 = expMm := marginChecks_key_inj spec p (k, expMm) hp hk hk1
    rw [hk1, hA] at hA'
    have hv' : v' = v := ((Option.some.injEq _ _).mp hA').symm
    subst hv'
    rw [hP] at hP'
    have hact : act' = act := ((Option.some.injEq _ _).mp hP').symm
    subst hact
    rw [hk2] at hgt
    exact hgt
  · intro hgt
    have hA2 : pgMar.getA ("w:" ++ (k, expMm).1) = some v := hA
    have hP2 : pyInt v = some act := hP
    have hhit : marginHit pgMar (k, expMm) = some (marginViolation k expMm act) := by
      unfold marginHit
      simp only [hA2, hP2]
      rw [if_pos hgt]
    have hm := margin_viol_mem t spec sectPr pgMar r hS hM hr (k, expMm) hk _ hhit
    exact ⟨marginViolation k expMm act, hm, rfl, rfl, rfl⟩

/-- Claim C9: for every document whose `pgMar` element is present but
lacks the attribute for a key `k`, `validate_docx` emits no
`layout.margin_<k>` violation for that key: absent attributes are
silently skipped. -/
theorem c9_absent_attr_skipped (t : Xml) (spec : StyleSpec) (sectPr pgMar : Xml)
    (k : String) (r : ValidationReport)
    (hS : findSectPr t = some sectPr)
    (hM : sectPr.find "w:pgMar" = some pgMar)
    (hA : pgMar.getA ("w:" ++ k) = none)
    (hr : validateDocx t spec = .ok r) :
    ∀ viol ∈ r.violations, viol.violation_id ≠ "layout.margin_" ++ k := by
  intro viol hv hid
  have hhead : viol.violation_id.data.head? = some 'l' := by rw [hid]; rfl
  obtain ⟨p, hp, hhit⟩ := margin_viol_src t spec sectPr pgMar r hS hM hr viol hv hhead
  obtain ⟨v', act', hA', _hP', _hgt, hveq⟩ := marginHit_some_elim pgMar p viol hhit
  have hk1 : p.1 = k := by
    apply marginPrefix_inj
    rw [← hid, hveq]
    rfl
  rw [hk1, hA] at hA'
  exact Option.noConfusion hA'

theorem c6_margin_tolerance_witness :
    ∃ r, validateDocx c6Doc exampleSpec = .ok r ∧
      (∃ viol ∈ r.violations, viol.violation_id = "layout.margin_" ++ "top" ∧
          viol.severity = "error" ∧
          viol.suggestion = some (FixSuggestion.mk "set_page_margins"
            [("target", PVal.s "section0"), ("top", PVal.i (mmToTwips 25))])) ∧
      ¬ (∃ viol ∈ r.violations, viol.violation_id = "layout.margin_" ++ "bottom" ∧
          viol.severity = "error" ∧
          viol.suggestion = some (FixSuggestion.mk "set_page_margins"
            [("target", PVal.s "section0"), ("bottom", PVal.i (mmToTwips 20))])) := by
  refine ⟨(validateDocx c6Doc exampleSpec).toOption.getD
      (ValidationReport.mk (ValidationSummary.mk false 0 0 0) []), rfl, ?_, ?_⟩
  · exact (c6_margin_tolerance c6Doc exampleSpec c6SectPr c6PgMar "top" 25 "1428" 1428 _
      rfl rfl (by decide) rfl rfl rfl).mpr (by decide)
  · intro hex
    exact absurd ((c6_margin_tolerance c6Doc exampleSpec c6SectPr c6PgMar "bottom" 20 "1144" 1144 _
      rfl rfl (by decide) rfl rfl rfl).mp hex) (by decide)

theorem c9_absent_attr_skipped_witness :
    ∃ r, validateDocx c9Doc exampleSpec = .ok r ∧
      ∀ viol ∈ r.violations, viol.violation_id ≠ "layout.margin_" ++ "top" :=
  ⟨(validateDocx c9Doc exampleSpec).toOption.getD
      (ValidationReport.mk (ValidationSummary.mk false 0 0 0) []),
    rfl,
    c9_absent_attr_skipped c9Doc exampleSpec c9SectPr c9PgMar "top" _ rfl rfl rfl rfl⟩


/-! ## Attribute-write and child-combinator lemmas (shared by C1, C2) -/

theorem setAttrs_nil (a : List (String × String)) : setAttrs a [] = a := rfl

theorem setAttrs_cons (a : List (String × String)) (w : String × String)
    (ws : List (String × String)) :
    setAttrs a (w :: ws) = setAttrs (setAttr a w.1 w.2) ws := rfl

theorem setAttrs_append (a : List (String × String)) (ws1 ws2 : List (String × String)) :
    setAttrs a (ws1 ++ ws2) = setAttrs (setAttrs a ws1) ws2 := by
  simp [setAttrs, List.foldl_append]

theorem getAttr_setAttr_same (a : List (String × String)) (k v : String) :
    getAttr (setAttr a k v) k = some v := by
  induction a with
  | nil => simp [setAttr, getAttr]
  | cons p rest ih =>
    by_cases h : p.1 = k
    · simp [setAttr, getAttr, h]
    · simp only [setAttr, if_neg h]
      simp only [getAttr] at ih ⊢
      rw [List.find?_cons_of_neg _ (by simpa using h)]
      exact ih

theorem getAttr_setAttr_other (a : List (String × String)) (k k' v : String)
    (h : k' ≠ k) : getAttr (setAttr a k' v) k = getAttr a k := by
  induction a with
  | nil => simp [setAttr, getAttr, h]
  | cons p rest ih =>
    by_cases hp : p.1 = k'
    · simp [setAttr, getAttr, hp, h]
    · simp only [setAttr, if_neg hp]
      by_cases hk : p.1 = k
      · simp [getAttr, hk]
      · simp only [getAttr] at ih ⊢
        rw [List.find?_cons_of_neg _ (by simpa using hk),
          List.find?_cons_of_neg _ (by simpa using hk)]
        exact ih

theorem getAttr_setAttrs_not_mem (ws : List (String × String)) :
    ∀ (a : List (String × String)) (k : String), k ∉ ws.map Prod.fst →
    getAttr (setAttrs a ws) k = getAttr a k := by
  induction ws with
  | nil => intro a k _; rfl
  | cons w ws ih =>
    intro a k hk
    simp only [List.map_cons, List.mem_cons, not_or] at hk
    rw [setAttrs_cons]
    rw [ih _ _ hk.2]
    exact getAttr_setAttr_other a k w.1 w.2 (fun he => hk.1 he.symm)

theorem setAttr_same_val (a : List (String × String)) (k v : String)
    (h : getAttr a k = some v) : setAttr a k v = a := by
  induction a with
  | nil => simp [getAttr] at h
  | cons p rest ih =>
    by_cases hp : p.1 = k
    · obtain ⟨k0, v0⟩ := p
      obtain rfl : k0 = k := hp
      simp only [getAttr] at h
      rw [List.find?_cons_of_pos _ (by simp)] at h
      simp at h
      subst h
      simp [setAttr]
    · simp only [getAttr] at h
      rw [List.find?_cons_of_neg _ (by simpa using hp)] at h
      simp [setAttr, hp, ih h]

theorem setAttrs_idem (ws : List (String × String)) :
    ∀ (a : List (String × String)), (ws.map Prod.fst).Nodup →
    setAttrs (setAttrs a ws) ws = setAttrs a ws := by
  induction ws with
  | nil => intro a _; rfl
  | cons w ws ih =>
    intro a hnd
    simp only [List.map_cons, List.nodup_cons] at hnd
    rw [setAttrs_cons a w ws]
    rw [setAttrs_cons (setAttrs (setAttr a w.1 w.2) ws) w ws]
    have hv : getAttr (setAttrs (setAttr a w.1 w.2) ws) w.1 = some w.2 := by
      rw [getAttr_setAttrs_not_mem ws _ _ hnd.1]
      exact getAttr_setAttr_same _ _ _
    rw [setAttr_same_val _ _ _ hv]
    exact ih _ hnd.2

/-- A node with `isTag t` true is an element tagged `t`. -/
theorem isTag_elim {t : String} {x : Xml} (h : Xml.isTag t x = true) :
    ∃ a cs, x = Xml.elem t a cs := by
  cases x with
  | elem t0 a cs =>
    simp only [Xml.isTag, decide_eq_true_eq] at h
    exact ⟨a, cs, by rw [h]⟩
  | txt s => simp [Xml.isTag] at h

theorem findChild_mapFirstChild_same (t : String) (f : Xml → Xml)
    (hf : ∀ u x, Xml.isTag u (f x) = Xml.isTag u x) :
    ∀ (cs : XmlList), findChild t (mapFirstChild t f cs) = (findChild t cs).map f
  | .nil => rfl
  | .cons c rest => by
    cases c with
    | elem t0 a cs0 =>
      by_cases h : t0 = t
      · subst h
        simp only [mapFirstChild, if_pos rfl]
        obtain ⟨a2, cs2, he⟩ := isTag_elim (x := f (Xml.elem t0 a cs0))
          (by have := hf t0 (Xml.elem t0 a cs0); simpa [Xml.isTag] using this)
        rw [he]
        simp [findChild, ← he]
      · simp only [mapFirstChild, if_neg h, findChild, if_neg h]
        exact findChild_mapFirstChild_same t f hf rest
    | txt s =>
      simpa [mapFirstChild, findChild] using findChild_mapFirstChild_same t f hf rest

theorem findChild_mapFirstChild_other (t u : String) (f : Xml → Xml)
    (hf : ∀ w x, Xml.isTag w (f x) = Xml.isTag w x) (hu : u ≠ t) :
    ∀ (cs : XmlList), findChild u (mapFirstChild t f cs) = findChild u cs
  | .nil => rfl
  | .cons c rest => by
    cases c with
    | elem t0 a cs0 =>
      by_cases h : t0 = t
      · subst h
        simp only [mapFirstChild, if_pos rfl]
        obtain ⟨a2, cs2, he⟩ := isTag_elim (x := f (Xml.elem t0 a cs0))
          (by have := hf t0 (Xml.elem t0 a cs0); simpa [Xml.isTag] using this)
        rw [he]
        simp only [findChild]
        rw [if_neg (fun hh : t0 = u => hu hh.symm), if_neg (fun hh : t0 = u => hu hh.symm)]
      · simp only [mapFirstChild, if_neg h, findChild]
        by_cases hc : t0 = u
        · rw [if_pos hc, if_pos hc]
        · rw [if_neg hc, if_neg hc]
          exact findChild_mapFirstChild_other t u f hf hu rest
    | txt s =>
      simpa [mapFirstChild, findChild] using findChild_mapFirstChild_other t u f hf hu rest

theorem hasChild_mapFirstChild (t u : String) (f : Xml → Xml)
    (hf : ∀ w x, Xml.isTag w (f x) = Xml.isTag w x) (cs : XmlList) :
    hasChild u (mapFirstChild t f cs) = hasChild u cs := by
  by_cases h : u = t
  · subst h
    unfold hasChild
    rw [findChild_mapFirstChild_same u f hf cs]
    cases findChild u cs <;> simp
  · unfold hasChild
    rw [findChild_mapFirstChild_other t u f hf h cs]

theorem mapFirstChild_comp (t : String) (f g : Xml → Xml)
    (hg : ∀ u x, Xml.isTag u (g x) = Xml.isTag u x) :
    ∀ (cs : XmlList),
      mapFirstChild t f (mapFirstChild t g cs) = mapFirstChild t (fun x => f (g x)) cs
  | .nil => rfl
  | .cons c rest => by
    cases c with
    | elem t0 a cs0 =>
      by_cases h : t0 = t
      · subst h
        simp only [mapFirstChild, if_pos rfl]
        obtain ⟨a2, cs2, he⟩ := isTag_elim (x := g (Xml.elem t0 a cs0))
          (by have := hg t0 (Xml.elem t0 a cs0); simpa [Xml.isTag] using this)
        rw [he]
        simp only [mapFirstChild, if_pos rfl, ← he]
        simp
      · simp only [mapFirstChild, if_neg h]
        rw [mapFirstChild_comp t f g hg rest]
    | txt s =>
      simp only [mapFirstChild]
      rw [mapFirstChild_comp t f g hg rest]

theorem childElems_ne_nil_iff (t : String) :
    ∀ (cs : XmlList), childElems t cs ≠ [] ↔ hasChild t cs = true
  | .nil => by simp [childElems, hasChild, findChild]
  | .cons c rest => by
    cases c with
    | elem t0 a cs0 =>
      by_cases h : t0 = t
      · simp [childElems, hasChild, findChild, h]
      · simp only [childElems, if_neg h, hasChild, findChild, if_neg h]
        exact childElems_ne_nil_iff t rest
    | txt s =>
      simp only [childElems, hasChild, findChild]
      exact childElems_ne_nil_iff t rest

theorem hasPAt_mono : ∀ (cs : XmlList) (j : Nat), hasPAt cs (j + 1) = true → hasPAt cs j = true
  | .nil, _, h => by simp [hasPAt] at h
  | .cons c rest, 0, h => by
    simp only [hasPAt] at h ⊢
    rw [h]
    simp
  | .cons c rest, j + 1, h => hasPAt_mono rest j h

theorem hasPAt_zero : ∀ (cs : XmlList), hasPAt cs 0 = hasChild "w:p" cs
  | .nil => rfl
  | .cons c rest => by
    cases c with
    | elem t0 a cs0 =>
      by_cases ht : t0 = "w:p"
      · subst ht
        simp [hasPAt, hasChild, findChild, Xml.isTag]
      · simp only [hasPAt, hasChild, findChild, if_neg ht, Xml.isTag]
        rw [hasPAt_zero rest]
        simp [ht, hasChild]
    | txt s =>
      simp only [hasPAt, hasChild, findChild, Xml.isTag]
      rw [hasPAt_zero rest]
      simp [hasChild]

theorem hasPAt_of_lt_len : ∀ (cs : XmlList) (i : Nat),
    i < (childElems "w:p" cs).length → hasPAt cs i = true
  | .nil, i, h => by simp [childElems] at h
  | .cons c rest, 0, h => by
    simp only [hasPAt]
    cases c with
    | elem t0 a cs0 =>
      by_cases ht : t0 = "w:p"
      · subst ht
        simp [Xml.isTag]
      · simp only [childElems, if_neg ht] at h
        rw [hasPAt_zero rest]
        rw [(childElems_ne_nil_iff "w:p" rest).mp (by
          intro he
          rw [he] at h
          simp at h)]
        simp
    | txt s =>
      simp only [childElems] at h
      rw [hasPAt_zero rest]
      rw [(childElems_ne_nil_iff "w:p" rest).mp (by
        intro he
        rw [he] at h
        simp at h)]
      simp
  | .cons c rest, i + 1, h => by
    simp only [hasPAt]
    apply hasPAt_of_lt_len rest i
    cases c with
    | elem t0 a cs0 =>
      by_cases ht : t0 = "w:p"
      · simp only [childElems, if_pos ht, List.length_cons] at h
        omega
      · simp only [childElems, if_neg ht] at h
        omega
    | txt s =>
      simp only [childElems] at h
      omega

theorem childElems_insertAt_ne_nil (t : String) :
    ∀ (cs : XmlList) (j : Nat) (x : Xml), childElems t cs ≠ [] →
      childElems t (cs.insertAt j x) ≠ []
  | .nil, j, x, h => by simp [childElems] at h
  | .cons c rest, 0, x, h => by
    cases x with
    | elem tx ax cx =>
      by_cases ht : tx = t
      · simp [XmlList.insertAt, childElems, ht]
      · simpa [XmlList.insertAt, childElems, ht] using h
    | txt s => simpa [XmlList.insertAt, childElems] using h
  | .cons c rest, j + 1, x, h => by
    cases c with
    | elem t0 a cs0 =>
      by_cases ht : t0 = t
      · simp [XmlList.insertAt, childElems, ht]
      · simp only [XmlList.insertAt, childElems, if_neg ht] at h ⊢
        exact childElems_insertAt_ne_nil t rest j x h
    | txt s =>
      simp only [XmlList.insertAt, childElems] at h ⊢
      exact childElems_insertAt_ne_nil t rest j x h

theorem hasPAt_imp_hasChild (cs : XmlList) :
    ∀ (j : Nat), hasPAt cs j = true → hasChild "w:p" cs = true := by
  intro j
  induction j with
  | zero => rw [hasPAt_zero]; exact id
  | succ n ih => intro h; exact ih (hasPAt_mono cs n h)

theorem getLast_cons_ne {α : Type} (a : α) (l : List α) (h : l ≠ []) :
    (a :: l).getLast? = l.getLast? := by
  cases l with
  | nil => exact absurd rfl h
  | cons b t => exact List.getLast?_cons_cons

theorem getLast_childElems_insertAt :
    ∀ (cs : XmlList) (j : Nat) (x : Xml), hasPAt cs j = true →
      (childElems "w:p" (cs.insertAt j x)).getLast? = (childElems "w:p" cs).getLast?
  | .nil, j, x, h => by simp [hasPAt] at h
  | .cons c rest, 0, x, h => by
    have hne : childElems "w:p" (XmlList.cons c rest) ≠ [] := by
      rw [childElems_ne_nil_iff]
      rw [← hasPAt_zero]
      exact h
    show (childElems "w:p" (XmlList.cons x (XmlList.cons c rest))).getLast? = _
    cases x with
    | elem tx ax cx =>
      by_cases ht : tx = "w:p"
      · simp only [childElems, if_pos ht]
        exact getLast_cons_ne _ _ hne
      · simp [childElems, ht]
    | txt s => simp [childElems]
  | .cons c rest, j + 1, x, h => by
    have hj : hasPAt rest j = true := h
    have hner : childElems "w:p" rest ≠ [] := by
      rw [childElems_ne_nil_iff]
      exact hasPAt_imp_hasChild rest j hj
    have hnei : childElems "w:p" (rest.insertAt j x) ≠ [] :=
      childElems_insertAt_ne_nil "w:p" rest j x hner
    have ih := getLast_childElems_insertAt rest j x hj
    show (childElems "w:p" (XmlList.cons c (rest.insertAt j x))).getLast? = _
    cases c with
    | elem t0 a cs0 =>
      by_cases ht : t0 = "w:p"
      · simp only [childElems, if_pos ht]
        rw [getLast_cons_ne _ _ hnei, getLast_cons_ne _ _ hner]
        exact ih
      · simp only [childElems, if_neg ht]
        exact ih
    | txt s =>
      simp only [childElems]
      exact ih

theorem hasPAt_findIdx (pred : Xml → Bool) :
    ∀ (cs : XmlList), childElems "w:p" cs ≠ [] →
      hasPAt cs (((childElems "w:p" cs).findIdx? pred).getD 0) = true
  | .nil, h => by simp [childElems] at h
  | .cons c rest, h => by
    have hz : hasChild "w:p" rest = true → hasPAt (XmlList.cons c rest) 0 = true := by
      intro hh
      simp only [hasPAt]
      rw [hasPAt_zero, hh]
      simp
    cases c with
    | elem t0 a cs0 =>
      by_cases ht : t0 = "w:p"
      · subst ht
        have hce : childElems "w:p" (XmlList.cons (Xml.elem "w:p" a cs0) rest) =
            Xml.elem "w:p" a cs0 :: childElems "w:p" rest := by
          simp [childElems]
        rw [hce, List.findIdx?_cons]
        by_cases hp : pred (Xml.elem "w:p" a cs0) = true
        · rw [if_pos hp]
          simp only [Option.getD_some]
          simp [hasPAt, Xml.isTag]
        · rw [if_neg hp, List.findIdx?_succ]
          cases hfi : (childElems "w:p" rest).findIdx? pred with
          | none =>
            simp [hasPAt, Xml.isTag]
          | some i =>
            show hasPAt (XmlList.cons (Xml.elem "w:p" a cs0) rest)
              ((Option.map (fun i => i + 1) (some i)).getD 0) = true
            show hasPAt rest i = true
            apply hasPAt_of_lt_len
            exact (List.findIdx?_eq_some_iff_findIdx_eq.mp hfi).1
      · simp only [childElems, if_neg ht] at h ⊢
        cases hj : ((childElems "w:p" rest).findIdx? pred).getD 0 with
        | zero =>
          apply hz
          rw [← childElems_ne_nil_iff]
          exact h
        | succ m =>
          show hasPAt rest m = true
          apply hasPAt_mono
          rw [← hj]
          exact hasPAt_findIdx pred rest h
    | txt s =>
      simp only [childElems] at h ⊢
      cases hj : ((childElems "w:p" rest).findIdx? pred).getD 0 with
      | zero =>
        apply hz
        rw [← childElems_ne_nil_iff]
        exact h
      | succ m =>
        show hasPAt rest m = true
        apply hasPAt_mono
        rw [← hj]
        exact hasPAt_findIdx pred rest h

theorem findChild_mapLastChild_other (t u : String) (f : Xml → Xml)
    (hf : ∀ w x, Xml.isTag w (f x) = Xml.isTag w x) (hu : u ≠ t) :
    ∀ (cs : XmlList), findChild u (mapLastChild t f cs) = findChild u cs
  | .nil => rfl
  | .cons c rest => by
    cases c with
    | elem t0 a cs0 =>
      by_cases h : t0 = t ∧ ¬ hasChild t rest = true
      · simp only [mapLastChild, if_pos h]
        obtain ⟨a2, cs2, he⟩ := isTag_elim (x := f (Xml.elem t0 a cs0))
          (by have := hf t0 (Xml.elem t0 a cs0); simpa [Xml.isTag] using this)
        rw [he]
        simp only [findChild]
        rw [if_neg (fun hh : t0 = u => hu (h.1 ▸ hh.symm ▸ rfl)),
          if_neg (fun hh : t0 = u => hu (h.1 ▸ hh.symm ▸ rfl))]
      · simp only [mapLastChild, if_neg h, findChild]
        by_cases hc : t0 = u
        · rw [if_pos hc, if_pos hc]
        · rw [if_neg hc, if_neg hc]
          exact findChild_mapLastChild_other t u f hf hu rest
    | txt s =>
      simpa [mapLastChild, findChild] using findChild_mapLastChild_other t u f hf hu rest

theorem hasChild_mapLastChild (t u : String) (f : Xml → Xml)
    (hf : ∀ w x, Xml.isTag w (f x) = Xml.isTag w x) :
    ∀ (cs : XmlList), hasChild u (mapLastChild t f cs) = hasChild u cs
  | .nil => rfl
  | .cons c rest => by
    cases c with
    | elem t0 a cs0 =>
      by_cases h : t0 = t ∧ ¬ hasChild t rest = true
      · simp only [mapLastChild, if_pos h]
        obtain ⟨a2, cs2, he⟩ := isTag_elim (x := f (Xml.elem t0 a cs0))
          (by have := hf t0 (Xml.elem t0 a cs0); simpa [Xml.isTag] using this)
        rw [he]
        simp only [hasChild, findChild]
        by_cases hc : t0 = u
        · rw [if_pos hc, if_pos hc]
          simp
        · rw [if_neg hc, if_neg hc]
      · simp only [mapLastChild, if_neg h]
        simp only [hasChild, findChild]
        by_cases hc : t0 = u
        · rw [if_pos hc, if_pos hc]
        · rw [if_neg hc, if_neg hc]
          exact hasChild_mapLastChild t u f hf rest
    | txt s =>
      simpa [mapLastChild, hasChild, findChild] using hasChild_mapLastChild t u f hf rest

theorem mapLastChild_comp (t : String) (f g : Xml → Xml)
    (hg : ∀ u x, Xml.isTag u (g x) = Xml.isTag u x) :
    ∀ (cs : XmlList),
      mapLastChild t f (mapLastChild t g cs) = mapLastChild t (fun x => f (g x)) cs
  | .nil => rfl
  | .cons c rest => by
    cases c with
    | elem t0 a cs0 =>
      by_cases h : t0 = t ∧ ¬ hasChild t rest = true
      · simp only [mapLastChild, if_pos h]
        obtain ⟨a2, cs2, he⟩ := isTag_elim (x := g (Xml.elem t0 a cs0))
          (by have := hg t0 (Xml.elem t0 a cs0); simpa [Xml.isTag] using this)
        rw [he]
        simp only [mapLastChild]
        rw [if_pos (by exact ⟨h.1, h.2⟩ : _ ∧ _), ← he]
      · simp only [mapLastChild, if_neg h]
        have hrec := mapLastChild_comp t f g hg rest
        have hh : ¬ (t0 = t ∧ ¬ hasChild t (mapLastChild t g rest) = true) := by
          rw [hasChild_mapLastChild t t g hg rest]
          exact h
        simp only [mapLastChild, if_neg hh]
        rw [hrec]
    | txt s =>
      simp only [mapLastChild]
      rw [mapLastChild_comp t f g hg rest]

theorem childElems_mapLastChild (t : String) (f : Xml → Xml)
    (hf : ∀ w x, Xml.isTag w (f x) = Xml.isTag w x) :
    ∀ (cs : XmlList), childElems t (mapLastChild t f cs) =
      (childElems t cs).dropLast ++ ((childElems t cs).getLast?.map f).toList
  | .nil => by simp [mapLastChild, childElems]
  | .cons c rest => by
    cases c with
    | elem t0 a cs0 =>
      by_cases h : t0 = t ∧ ¬ hasChild t rest = true
      · obtain ⟨h1, h2⟩ := h
        subst h1
        have hres : childElems t0 rest = [] := by
          by_contra hne
          exact h2 ((childElems_ne_nil_iff t0 rest).mp hne)
        have hstep : mapLastChild t0 f (XmlList.cons (Xml.elem t0 a cs0) rest) =
            XmlList.cons (f (Xml.elem t0 a cs0)) rest := by
          simp only [mapLastChild]
          rw [if_pos (⟨trivial, h2⟩ : True ∧ ¬hasChild t0 rest = true)]
        rw [hstep]
        obtain ⟨a2, cs2, he⟩ := isTag_elim (x := f (Xml.elem t0 a cs0))
          (by have := hf t0 (Xml.elem t0 a cs0); simpa [Xml.isTag] using this)
        rw [he]
        simp [childElems, hres, ← he]
      · have hstep : mapLastChild t f (XmlList.cons (Xml.elem t0 a cs0) rest) =
            XmlList.cons (Xml.elem t0 a cs0) (mapLastChild t f rest) := by
          simp only [mapLastChild]
          rw [if_neg h]
        rw [hstep]
        by_cases ht : t0 = t
        · subst ht
          have h2 : hasChild t0 rest = true := by
            by_contra hh
            exact h ⟨rfl, by simpa using hh⟩
          have hne : childElems t0 rest ≠ [] := (childElems_ne_nil_iff t0 rest).mpr h2
          have hceL : childElems t0 (XmlList.cons (Xml.elem t0 a cs0) (mapLastChild t0 f rest)) =
              Xml.elem t0 a cs0 :: childElems t0 (mapLastChild t0 f rest) := by
            simp [childElems]
          have hceR : childElems t0 (XmlList.cons (Xml.elem t0 a cs0) rest) =
              Xml.elem t0 a cs0 :: childElems t0 rest := by
            simp [childElems]
          rw [hceL, hceR]
          rw [childElems_mapLastChild t0 f hf rest]
          rw [List.dropLast_cons_of_ne_nil hne]
          rw [getLast_cons_ne _ _ hne]
          simp
        · have hceL : childElems t (XmlList.cons (Xml.elem t0 a cs0) (mapLastChild t f rest)) =
              childElems t (mapLastChild t f rest) := by
            simp [childElems, ht]
          have hceR : childElems t (XmlList.cons (Xml.elem t0 a cs0) rest) =
              childElems t rest := by
            simp [childElems, ht]
          rw [hceL, hceR]
          exact childElems_mapLastChild t f hf rest
    | txt s =>
      simpa [mapLastChild, childElems] using childElems_mapLastChild t f hf rest

theorem findChild_insertAt (t : String) :
    ∀ (cs : XmlList) (j : Nat) (x : Xml), Xml.isTag t x = false →
      findChild t (cs.insertAt j x) = findChild t cs
  | .nil, j, x, hx => by
    cases x with
    | elem tx ax cx =>
      simp only [Xml.isTag] at hx
      rw [decide_eq_false_iff_not] at hx
      simp [XmlList.insertAt, findChild, hx]
    | txt s => simp [XmlList.insertAt, findChild]
  | .cons c rest, 0, x, hx => by
    cases x with
    | elem tx ax cx =>
      simp only [Xml.isTag] at hx
      rw [decide_eq_false_iff_not] at hx
      simp [XmlList.insertAt, findChild, hx]
    | txt s => simp [XmlList.insertAt, findChild]
  | .cons c rest, j + 1, x, hx => by
    cases c with
    | elem t0 a cs0 =>
      simp only [XmlList.insertAt, findChild]
      by_cases hc : t0 = t
      · rw [if_pos hc, if_pos hc]
      · rw [if_neg hc, if_neg hc]
        exact findChild_insertAt t rest j x hx
    | txt s =>
      simpa [XmlList.insertAt, findChild] using findChild_insertAt t rest j x hx

theorem hasChild_append (t : String) :
    ∀ (cs ds : XmlList), hasChild t (cs.append ds) = (hasChild t cs || hasChild t ds)
  | .nil, ds => by simp [XmlList.append, hasChild, findChild]
  | .cons c rest, ds => by
    cases c with
    | elem t0 a cs0 =>
      simp only [XmlList.append, hasChild, findChild]
      by_cases hc : t0 = t
      · simp [hc]
      · simp only [if_neg hc]
        exact hasChild_append t rest ds
    | txt s =>
      simpa [XmlList.append, hasChild, findChild] using hasChild_append t rest ds

theorem findChild_append_not (t : String) :
    ∀ (cs ds : XmlList), hasChild t cs = false →
      findChild t (cs.append ds) = findChild t ds
  | .nil, ds, _ => rfl
  | .cons c rest, ds, h => by
    cases c with
    | elem t0 a cs0 =>
      simp only [hasChild, findChild] at h
      by_cases hc : t0 = t
      · rw [if_pos hc] at h
        simp at h
      · rw [if_neg hc] at h
        simp only [XmlList.append, findChild, if_neg hc]
        exact findChild_append_not t rest ds h
    | txt s =>
      simp only [hasChild, findChild] at h
      simp only [XmlList.append, findChild]
      exact findChild_append_not t rest ds h

theorem mapFirstChild_append_not (t : String) (f : Xml → Xml) :
    ∀ (cs ds : XmlList), hasChild t cs = false →
      mapFirstChild t f (cs.append ds) = cs.append (mapFirstChild t f ds)
  | .nil, ds, _ => rfl
  | .cons c rest, ds, h => by
    cases c with
    | elem t0 a cs0 =>
      simp only [hasChild, findChild] at h
      by_cases hc : t0 = t
      · rw [if_pos hc] at h
        simp at h
      · rw [if_neg hc] at h
        simp only [XmlList.append, mapFirstChild, if_neg hc]
        rw [mapFirstChild_append_not t f rest ds h]
    | txt s =>
      simp only [hasChild, findChild] at h
      simp only [XmlList.append, mapFirstChild]
      rw [mapFirstChild_append_not t f rest ds h]


/-! ## Patch idempotence (claim C1) -/

mutual
/-- The leftover counter of `mapNthDescX` does not depend on the rewrite
function. -/
theorem mapNthDescX_snd_congr (t : String) (g g2 : Xml → Xml) :
    ∀ (n : Nat) (x : Xml), (mapNthDescX t g n x).2 = (mapNthDescX t g2 n x).2
  | n, .txt s => rfl
  | n, .elem ta a cs => by
    by_cases ht : ta = t
    · subst ht
      by_cases hn : n = 0
      · subst hn
        simp [mapNthDescX]
      · simp only [mapNthDescX, if_neg hn, if_true]
        exact mapNthDescL_snd_congr ta g g2 (n - 1) cs
    · simp only [mapNthDescX, if_neg ht]
      exact mapNthDescL_snd_congr t g g2 n cs

theorem mapNthDescL_snd_congr (t : String) (g g2 : Xml → Xml) :
    ∀ (n : Nat) (cs : XmlList), (mapNthDescL t g n cs).2 = (mapNthDescL t g2 n cs).2
  | n, .nil => rfl
  | n, .cons c rest => by
    simp only [mapNthDescL]
    have h1 := mapNthDescX_snd_congr t g g2 n c
    cases h2 : (mapNthDescX t g n c).2 with
    | none => rw [← h1, h2]
    | some n1 =>
      rw [← h1, h2]
      simp only
      exact mapNthDescL_snd_congr t g g2 n1 rest
end

mutual
/-- When the counter survives, the node is unchanged. -/
theorem mapNthDescX_miss (t : String) (g : Xml → Xml) :
    ∀ (n : Nat) (x : Xml) (m : Nat), (mapNthDescX t g n x).2 = some m →
      (mapNthDescX t g n x).1 = x
  | n, .txt s, m, _ => rfl
  | n, .elem ta a cs, m, h => by
    by_cases ht : ta = t
    · subst ht
      by_cases hn : n = 0
      · subst hn
        simp [mapNthDescX] at h
      · simp only [mapNthDescX, if_neg hn, if_true] at h ⊢
        rw [mapNthDescL_miss ta g (n - 1) cs m h]
    · simp only [mapNthDescX, if_neg ht] at h ⊢
      rw [mapNthDescL_miss t g n cs m h]

theorem mapNthDescL_miss (t : String) (g : Xml → Xml) :
    ∀ (n : Nat) (cs : XmlList) (m : Nat), (mapNthDescL t g n cs).2 = some m →
      (mapNthDescL t g n cs).1 = cs
  | n, .nil, m, _ => rfl
  | n, .cons c rest, m, h => by
    simp only [mapNthDescL] at h ⊢
    cases h2 : (mapNthDescX t g n c).2 with
    | none => rw [h2] at h; simp at h
    | some n1 =>
      rw [h2] at h
      simp only at h ⊢
      rw [mapNthDescX_miss t g n c n1 h2, mapNthDescL_miss t g n1 rest m h]
end

mutual
/-- Running `mapNthDescX` twice with the same index composes the rewrite:
the second run reaches the same node. -/
theorem mapNthDescX_comp (t : String) (g : Xml → Xml)
    (hg : ∀ u x, Xml.isTag u (g x) = Xml.isTag u x) :
    ∀ (n : Nat) (x : Xml),
      mapNthDescX t g n ((mapNthDescX t g n x).1) =
        ((mapNthDescX t (fun y => g (g y)) n x).1, (mapNthDescX t g n x).2)
  | n, .txt s => rfl
  | n, .elem ta a cs => by
    by_cases ht : ta = t
    · subst ht
      by_cases hn : n = 0
      · subst hn
        have h1 : mapNthDescX ta g 0 (Xml.elem ta a cs) = (g (Xml.elem ta a cs), none) := by
          simp [mapNthDescX]
        have h2 : mapNthDescX ta (fun y => g (g y)) 0 (Xml.elem ta a cs) =
            (g (g (Xml.elem ta a cs)), none) := by
          simp [mapNthDescX]
        simp only [h1, h2]
        obtain ⟨a2, cs2, he⟩ := isTag_elim (x := g (Xml.elem ta a cs))
          (by have := hg ta (Xml.elem ta a cs); simpa [Xml.isTag] using this)
        rw [he]
        have h3 : mapNthDescX ta g 0 (Xml.elem ta a2 cs2) = (g (Xml.elem ta a2 cs2), none) := by
          simp [mapNthDescX]
        exact h3
      · have hL := mapNthDescL_comp ta g hg (n - 1) cs
        have e1 : mapNthDescX ta g n (Xml.elem ta a cs) =
            (Xml.elem ta a (mapNthDescL ta g (n - 1) cs).1, (mapNthDescL ta g (n - 1) cs).2) := by
          simp [mapNthDescX, hn]
        have e2 : mapNthDescX ta (fun y => g (g y)) n (Xml.elem ta a cs) =
            (Xml.elem ta a (mapNthDescL ta (fun y => g (g y)) (n - 1) cs).1,
              (mapNthDescL ta (fun y => g (g y)) (n - 1) cs).2) := by
          simp [mapNthDescX, hn]
        have e3 : mapNthDescX ta g n (Xml.elem ta a (mapNthDescL ta g (n - 1) cs).1) =
            (Xml.elem ta a (mapNthDescL ta g (n - 1) ((mapNthDescL ta g (n - 1) cs).1)).1,
              (mapNthDescL ta g (n - 1) ((mapNthDescL ta g (n - 1) cs).1)).2) := by
          simp [mapNthDescX, hn]
        simp only [e1, e2]
        rw [e3, hL]
    · have hL := mapNthDescL_comp t g hg n cs
      have e1 : mapNthDescX t g n (Xml.elem ta a cs) =
          (Xml.elem ta a (mapNthDescL t g n cs).1, (mapNthDescL t g n cs).2) := by
        simp [mapNthDescX, ht]
      have e2 : mapNthDescX t (fun y => g (g y)) n (Xml.elem ta a cs) =
          (Xml.elem ta a (mapNthDescL t (fun y => g (g y)) n cs).1,
            (mapNthDescL t (fun y => g (g y)) n cs).2) := by
        simp [mapNthDescX, ht]
      have e3 : mapNthDescX t g n (Xml.elem ta a (mapNthDescL t g n cs).1) =
          (Xml.elem ta a (mapNthDescL t g n ((mapNthDescL t g n cs).1)).1,
            (mapNthDescL t g n ((mapNthDescL t g n cs).1)).2) := by
        simp [mapNthDescX, ht]
      simp only [e1, e2]
      rw [e3, hL]

theorem mapNthDescL_comp (t : String) (g : Xml → Xml)
    (hg : ∀ u x, Xml.isTag u (g x) = Xml.isTag u x) :
    ∀ (n : Nat) (cs : XmlList),
      mapNthDescL t g n ((mapNthDescL t g n cs).1) =
        ((mapNthDescL t (fun y => g (g y)) n cs).1, (mapNthDescL t g n cs).2)
  | n, .nil => rfl
  | n, .cons c rest => by
    have hX := mapNthDescX_comp t g hg n c
    have hsnd := mapNthDescX_snd_congr t g (fun y => g (g y)) n c
    cases hr : (mapNthDescX t g n c).2 with
    | none =>
      have hgg2 : (mapNthDescX t (fun y => g (g y)) n c).2 = none := by
        rw [← hsnd]
        exact hr
      have h4 : (mapNthDescX t g n ((mapNthDescX t g n c).1)).2 = none := by
        rw [hX]
        exact hr
      have e1 : mapNthDescL t g n (XmlList.cons c rest) =
          (XmlList.cons (mapNthDescX t g n c).1 rest, none) := by
        simp only [mapNthDescL, hr]
      have e2 : mapNthDescL t (fun y => g (g y)) n (XmlList.cons c rest) =
          (XmlList.cons (mapNthDescX t (fun y => g (g y)) n c).1 rest, none) := by
        simp only [mapNthDescL, hgg2]
      have e3 : mapNthDescL t g n (XmlList.cons (mapNthDescX t g n c).1 rest) =
          (XmlList.cons (mapNthDescX t g n ((mapNthDescX t g n c).1)).1 rest, none) := by
        simp only [mapNthDescL, h4]
      simp only [e1, e2]
      rw [e3, hX]
    | some n1 =>
      have hgg2 : (mapNthDescX t (fun y => g (g y)) n c).2 = some n1 := by
        rw [← hsnd]
        exact hr
      have hmiss := mapNthDescX_miss t g n c n1 hr
      have hmiss2 : (mapNthDescX t (fun y => g (g y)) n c).1 = c :=
        mapNthDescX_miss t (fun y => g (g y)) n c n1 hgg2
      have hL := mapNthDescL_comp t g hg n1 rest
      have e1 : mapNthDescL t g n (XmlList.cons c rest) =
          (XmlList.cons c (mapNthDescL t g n1 rest).1, (mapNthDescL t g n1 rest).2) := by
        simp only [mapNthDescL, hr, hmiss]
      have e2 : mapNthDescL t (fun y => g (g y)) n (XmlList.cons c rest) =
          (XmlList.cons c (mapNthDescL t (fun y => g (g y)) n1 rest).1,
            (mapNthDescL t (fun y => g (g y)) n1 rest).2) := by
        simp only [mapNthDescL, hgg2, hmiss2]
      have e3 : mapNthDescL t g n (XmlList.cons c ((mapNthDescL t g n1 rest).1)) =
          (XmlList.cons c (mapNthDescL t g n1 ((mapNthDescL t g n1 rest).1)).1,
            (mapNthDescL t g n1 ((mapNthDescL t g n1 rest).1)).2) := by
        simp only [mapNthDescL, hr, hmiss]
      simp only [e1, e2]
      rw [e3, hL]
end

theorem mapFirstChild_idem (t : String) (u : Xml → Xml)
    (hu : ∀ w x, Xml.isTag w (u x) = Xml.isTag w x)
    (huu : ∀ x, u (u x) = u x) (cs : XmlList) :
    mapFirstChild t u (mapFirstChild t u cs) = mapFirstChild t u cs := by
  rw [mapFirstChild_comp t u u hu]
  have he : (fun x => u (u x)) = u := funext huu
  rw [he]

theorem mapLastChild_idem (t : String) (u : Xml → Xml)
    (hu : ∀ w x, Xml.isTag w (u x) = Xml.isTag w x)
    (huu : ∀ x, u (u x) = u x) (cs : XmlList) :
    mapLastChild t u (mapLastChild t u cs) = mapLastChild t u cs := by
  rw [mapLastChild_comp t u u hu cs]
  have he : (fun x => u (u x)) = u := funext huu
  rw [he]

theorem setAttrsOn_isTag (ws : List (String × String)) :
    ∀ (u : String) (x : Xml), Xml.isTag u (setAttrsOn ws x) = Xml.isTag u x := by
  intro u x
  cases x <;> rfl

theorem setAttrsOn_idem (ws : List (String × String))
    (hnd : (ws.map Prod.fst).Nodup) (x : Xml) :
    setAttrsOn ws (setAttrsOn ws x) = setAttrsOn ws x := by
  cases x with
  | elem t a cs => simp [setAttrsOn, setAttrs_idem ws a hnd]
  | txt s => rfl

theorem pgMarWrite_isTag (ws : List (String × String)) :
    ∀ (u : String) (x : Xml), Xml.isTag u (pgMarWrite ws x) = Xml.isTag u x := by
  intro u x
  cases x with
  | elem t a cs =>
    simp only [pgMarWrite]
    by_cases h : hasChild "w:pgMar" cs = true
    · rw [if_pos h]
      rfl
    · rw [if_neg h]
      rfl
  | txt s => rfl

theorem hasChild_singleton_pgmar (a : List (String × String)) :
    hasChild "w:pgMar" (XmlList.cons (Xml.elem "w:pgMar" a .nil) .nil) = true := by
  simp [hasChild, findChild]

theorem pgMarWrite_idem (ws : List (String × String))
    (hnd : (ws.map Prod.fst).Nodup) (x : Xml) :
    pgMarWrite ws (pgMarWrite ws x) = pgMarWrite ws x := by
  cases x with
  | elem t a cs =>
    by_cases h : hasChild "w:pgMar" cs = true
    · have e1 : pgMarWrite ws (Xml.elem t a cs) =
          Xml.elem t a (mapFirstChild "w:pgMar" (setAttrsOn ws) cs) := by
        simp only [pgMarWrite]
        rw [if_pos h]
      rw [e1]
      have h2 : hasChild "w:pgMar" (mapFirstChild "w:pgMar" (setAttrsOn ws) cs) = true := by
        rw [hasChild_mapFirstChild _ _ _ (setAttrsOn_isTag ws)]
        exact h
      have e2 : pgMarWrite ws (Xml.elem t a (mapFirstChild "w:pgMar" (setAttrsOn ws) cs)) =
          Xml.elem t a (mapFirstChild "w:pgMar" (setAttrsOn ws)
            (mapFirstChild "w:pgMar" (setAttrsOn ws) cs)) := by
        simp only [pgMarWrite]
        rw [if_pos h2]
      rw [e2, mapFirstChild_idem _ _ (setAttrsOn_isTag ws) (setAttrsOn_idem ws hnd)]
    · have e1 : pgMarWrite ws (Xml.elem t a cs) =
          Xml.elem t a (cs.append (.cons (Xml.elem "w:pgMar" (setAttrs [] ws) .nil) .nil)) := by
        simp only [pgMarWrite]
        rw [if_neg h]
      rw [e1]
      have h2 : hasChild "w:pgMar"
          (cs.append (.cons (Xml.elem "w:pgMar" (setAttrs [] ws) .nil) .nil)) = true := by
        rw [hasChild_append]
        rw [hasChild_singleton_pgmar]
        simp
      have e2 : pgMarWrite ws (Xml.elem t a
            (cs.append (.cons (Xml.elem "w:pgMar" (setAttrs [] ws) .nil) .nil))) =
          Xml.elem t a (mapFirstChild "w:pgMar" (setAttrsOn ws)
            (cs.append (.cons (Xml.elem "w:pgMar" (setAttrs [] ws) .nil) .nil))) := by
        simp only [pgMarWrite]
        rw [if_pos h2]
      rw [e2]
      rw [mapFirstChild_append_not "w:pgMar" (setAttrsOn ws) cs _ (by
        cases hh : hasChild "w:pgMar" cs
        · rfl
        · exact absurd hh h)]
      have e3 : mapFirstChild "w:pgMar" (setAttrsOn ws)
            (XmlList.cons (Xml.elem "w:pgMar" (setAttrs [] ws) .nil) .nil) =
          XmlList.cons (setAttrsOn ws (Xml.elem "w:pgMar" (setAttrs [] ws) .nil)) .nil := by
        simp [mapFirstChild]
      rw [e3]
      have e4 : setAttrsOn ws (Xml.elem "w:pgMar" (setAttrs [] ws) .nil) =
          Xml.elem "w:pgMar" (setAttrs [] ws) .nil := by
        simp only [setAttrsOn]
        rw [setAttrs_idem ws [] hnd]
      rw [e4]
  | txt s => rfl

theorem updateSectPr_elem (g : Xml → Xml) (t : String) (a : List (String × String))
    (cs : XmlList) :
    updateSectPr g (Xml.elem t a cs) =
      Xml.elem t a (mapFirstChild "w:body" (sectPrInBody g) cs) := rfl

theorem sectPrInPPr_isTag (g : Xml → Xml) :
    ∀ (u : String) (x : Xml), Xml.isTag u (sectPrInPPr g x) = Xml.isTag u x := by
  intro u x
  cases x with
  | elem qt qa qcs =>
    simp only [sectPrInPPr]
    by_cases h : hasChild "w:sectPr" qcs = true
    · rw [if_pos h]
      rfl
    · rw [if_neg h]
  | txt s => rfl

theorem sectPrInPara_isTag (g : Xml → Xml) :
    ∀ (u : String) (x : Xml), Xml.isTag u (sectPrInPara g x) = Xml.isTag u x := by
  intro u x
  cases x <;> rfl

theorem sectPrInBody_isTag (g : Xml → Xml) :
    ∀ (u : String) (x : Xml), Xml.isTag u (sectPrInBody g x) = Xml.isTag u x := by
  intro u x
  cases x with
  | elem bt ba bcs =>
    simp only [sectPrInBody]
    by_cases h : hasChild "w:sectPr" bcs = true
    · rw [if_pos h]
      rfl
    · rw [if_neg h]
      rfl
  | txt s => rfl

theorem sectPrInPPr_idem (g : Xml → Xml)
    (hg : ∀ u x, Xml.isTag u (g x) = Xml.isTag u x)
    (hgg : ∀ x, g (g x) = g x) (x : Xml) :
    sectPrInPPr g (sectPrInPPr g x) = sectPrInPPr g x := by
  cases x with
  | elem qt qa qcs =>
    by_cases h : hasChild "w:sectPr" qcs = true
    · have e1 : sectPrInPPr g (Xml.elem qt qa qcs) =
          Xml.elem qt qa (mapFirstChild "w:sectPr" g qcs) := by
        simp only [sectPrInPPr]
        rw [if_pos h]
      rw [e1]
      have h2 : hasChild "w:sectPr" (mapFirstChild "w:sectPr" g qcs) = true := by
        rw [hasChild_mapFirstChild _ _ _ hg]
        exact h
      have e2 : sectPrInPPr g (Xml.elem qt qa (mapFirstChild "w:sectPr" g qcs)) =
          Xml.elem qt qa (mapFirstChild "w:sectPr" g (mapFirstChild "w:sectPr" g qcs)) := by
        simp only [sectPrInPPr]
        rw [if_pos h2]
      rw [e2, mapFirstChild_idem _ _ hg hgg]
    · have e1 : sectPrInPPr g (Xml.elem qt qa qcs) = Xml.elem qt qa qcs := by
        simp only [sectPrInPPr]
        rw [if_neg h]
      rw [e1, e1]
  | txt s => rfl

theorem sectPrInPara_idem (g : Xml → Xml)
    (hg : ∀ u x, Xml.isTag u (g x) = Xml.isTag u x)
    (hgg : ∀ x, g (g x) = g x) (x : Xml) :
    sectPrInPara g (sectPrInPara g x) = sectPrInPara g x := by
  cases x with
  | elem pt pa pcs =>
    simp only [sectPrInPara]
    rw [mapFirstChild_idem _ _ (sectPrInPPr_isTag g) (sectPrInPPr_idem g hg hgg)]
  | txt s => rfl

theorem sectPrInBody_idem (g : Xml → Xml)
    (hg : ∀ u x, Xml.isTag u (g x) = Xml.isTag u x)
    (hgg : ∀ x, g (g x) = g x) (x : Xml) :
    sectPrInBody g (sectPrInBody g x) = sectPrInBody g x := by
  cases x with
  | elem bt ba bcs =>
    by_cases h : hasChild "w:sectPr" bcs = true
    · have e1 : sectPrInBody g (Xml.elem bt ba bcs) =
          Xml.elem bt ba (mapFirstChild "w:sectPr" g bcs) := by
        simp only [sectPrInBody]
        rw [if_pos h]
      rw [e1]
      have h2 : hasChild "w:sectPr" (mapFirstChild "w:sectPr" g bcs) = true := by
        rw [hasChild_mapFirstChild _ _ _ hg]
        exact h
      have e2 : sectPrInBody g (Xml.elem bt ba (mapFirstChild "w:sectPr" g bcs)) =
          Xml.elem bt ba (mapFirstChild "w:sectPr" g (mapFirstChild "w:sectPr" g bcs)) := by
        simp only [sectPrInBody]
        rw [if_pos h2]
      rw [e2, mapFirstChild_idem _ _ hg hgg]
    · have e1 : sectPrInBody g (Xml.elem bt ba bcs) =
          Xml.elem bt ba (mapLastChild "w:p" (sectPrInPara g) bcs) := by
        simp only [sectPrInBody]
        rw [if_neg h]
      rw [e1]
      have h2 : hasChild "w:sectPr" (mapLastChild "w:p" (sectPrInPara g) bcs) = false := by
        rw [hasChild_mapLastChild _ _ _ (sectPrInPara_isTag g)]
        cases hh : hasChild "w:sectPr" bcs
        · rfl
        · exact absurd hh h
      have e2 : sectPrInBody g (Xml.elem bt ba (mapLastChild "w:p" (sectPrInPara g) bcs)) =
          Xml.elem bt ba (mapLastChild "w:p" (sectPrInPara g)
            (mapLastChild "w:p" (sectPrInPara g) bcs)) := by
        simp only [sectPrInBody]
        rw [if_neg (by rw [h2]; simp)]
      rw [e2, mapLastChild_idem _ _ (sectPrInPara_isTag g) (sectPrInPara_idem g hg hgg)]
  | txt s => rfl

theorem updateSectPr_idem (g : Xml → Xml)
    (hg : ∀ u x, Xml.isTag u (g x) = Xml.isTag u x)
    (hgg : ∀ x, g (g x) = g x) (doc : Xml) :
    updateSectPr g (updateSectPr g doc) = updateSectPr g doc := by
  cases doc with
  | elem t a cs =>
    rw [updateSectPr_elem g t a cs, updateSectPr_elem]
    rw [mapFirstChild_idem _ _ (sectPrInBody_isTag g) (sectPrInBody_idem g hg hgg)]
  | txt s => rfl

theorem applySetPageMargins_idem (spec : StyleSpec) (params : List (String × PVal))
    (hnd : ((marginWrites spec params).map Prod.fst).Nodup) (doc : Xml) :
    applySetPageMargins spec params (applySetPageMargins spec params doc) =
      applySetPageMargins spec params doc := by
  unfold applySetPageMargins
  exact updateSectPr_idem _ (pgMarWrite_isTag _) (pgMarWrite_idem _ hnd) doc

theorem insertAt_zero (cs : XmlList) (y : Xml) : cs.insertAt 0 y = .cons y cs := by
  cases cs <;> rfl

theorem setAttrs_single_idem (k v : String) (a : List (String × String)) :
    setAttrs (setAttrs a [(k, v)]) [(k, v)] = setAttrs a [(k, v)] := by
  apply setAttrs_idem
  simp

theorem ensurePStyle_isTag (sid : String) :
    ∀ (u : String) (x : Xml), Xml.isTag u (ensurePStyle sid x) = Xml.isTag u x := by
  intro u x
  cases x with
  | elem t a cs =>
    simp only [ensurePStyle]
    by_cases h : hasChild "w:pStyle" cs = true
    · rw [if_pos h]
      rfl
    · rw [if_neg h]
      rfl
  | txt s => rfl

theorem ensurePStyle_idem (sid : String) (x : Xml) :
    ensurePStyle sid (ensurePStyle sid x) = ensurePStyle sid x := by
  cases x with
  | elem t a cs =>
    by_cases h : hasChild "w:pStyle" cs = true
    · have e1 : ensurePStyle sid (Xml.elem t a cs) =
          Xml.elem t a (mapFirstChild "w:pStyle" (setAttrsOn [("w:val", sid)]) cs) := by
        simp only [ensurePStyle]
        rw [if_pos h]
      rw [e1]
      have h2 : hasChild "w:pStyle"
          (mapFirstChild "w:pStyle" (setAttrsOn [("w:val", sid)]) cs) = true := by
        rw [hasChild_mapFirstChild _ _ _ (setAttrsOn_isTag _)]
        exact h
      have e2 : ensurePStyle sid
            (Xml.elem t a (mapFirstChild "w:pStyle" (setAttrsOn [("w:val", sid)]) cs)) =
          Xml.elem t a (mapFirstChild "w:pStyle" (setAttrsOn [("w:val", sid)])
            (mapFirstChild "w:pStyle" (setAttrsOn [("w:val", sid)]) cs)) := by
        simp only [ensurePStyle]
        rw [if_pos h2]
      rw [e2, mapFirstChild_idem _ _ (setAttrsOn_isTag _)
        (setAttrsOn_idem _ (by simp))]
    · have e1 : ensurePStyle sid (Xml.elem t a cs) =
          Xml.elem t a (cs.append (.cons (Xml.elem "w:pStyle" [("w:val", sid)] .nil) .nil)) := by
        simp only [ensurePStyle]
        rw [if_neg h]
      rw [e1]
      have h2 : hasChild "w:pStyle"
          (cs.append (.cons (Xml.elem "w:pStyle" [("w:val", sid)] .nil) .nil)) = true := by
        rw [hasChild_append]
        have : hasChild "w:pStyle" (XmlList.cons (Xml.elem "w:pStyle" [("w:val", sid)] .nil) .nil)
            = true := by
          simp [hasChild, findChild]
        rw [this]
        simp
      have e2 : ensurePStyle sid (Xml.elem t a
            (cs.append (.cons (Xml.elem "w:pStyle" [("w:val", sid)] .nil) .nil))) =
          Xml.elem t a (mapFirstChild "w:pStyle" (setAttrsOn [("w:val", sid)])
            (cs.append (.cons (Xml.elem "w:pStyle" [("w:val", sid)] .nil) .nil))) := by
        simp only [ensurePStyle]
        rw [if_pos h2]
      rw [e2]
      rw [mapFirstChild_append_not "w:pStyle" _ cs _ (by
        cases hh : hasChild "w:pStyle" cs
        · rfl
        · exact absurd hh h)]
      have e3 : mapFirstChild "w:pStyle" (setAttrsOn [("w:val", sid)])
            (XmlList.cons (Xml.elem "w:pStyle" [("w:val", sid)] .nil) .nil) =
          XmlList.cons (setAttrsOn [("w:val", sid)] (Xml.elem "w:pStyle" [("w:val", sid)] .nil))
            .nil := by
        simp [mapFirstChild]
      rw [e3]
      have e4 : setAttrsOn [("w:val", sid)] (Xml.elem "w:pStyle" [("w:val", sid)] .nil) =
          Xml.elem "w:pStyle" [("w:val", sid)] .nil := by
        simp [setAttrsOn, setAttrs, setAttr]
      rw [e4]
  | txt s => rfl

theorem setStyleOnPara_isTag (sid : String) :
    ∀ (u : String) (x : Xml), Xml.isTag u (setStyleOnPara sid x) = Xml.isTag u x := by
  intro u x
  cases x with
  | elem t a cs =>
    simp only [setStyleOnPara]
    by_cases h : hasChild "w:pPr" cs = true
    · rw [if_pos h]
      rfl
    · rw [if_neg h]
      rfl
  | txt s => rfl

theorem setStyleOnPara_idem (sid : String) (x : Xml) :
    setStyleOnPara sid (setStyleOnPara sid x) = setStyleOnPara sid x := by
  cases x with
  | elem t a cs =>
    by_cases h : hasChild "w:pPr" cs = true
    · have e1 : setStyleOnPara sid (Xml.elem t a cs) =
          Xml.elem t a (mapFirstChild "w:pPr" (ensurePStyle sid) cs) := by
        simp only [setStyleOnPara]
        rw [if_pos h]
      rw [e1]
      have h2 : hasChild "w:pPr" (mapFirstChild "w:pPr" (ensurePStyle sid) cs) = true := by
        rw [hasChild_mapFirstChild _ _ _ (ensurePStyle_isTag sid)]
        exact h
      have e2 : setStyleOnPara sid
            (Xml.elem t a (mapFirstChild "w:pPr" (ensurePStyle sid) cs)) =
          Xml.elem t a (mapFirstChild "w:pPr" (ensurePStyle sid)
            (mapFirstChild "w:pPr" (ensurePStyle sid) cs)) := by
        simp only [setStyleOnPara]
        rw [if_pos h2]
      rw [e2, mapFirstChild_idem _ _ (ensurePStyle_isTag sid) (ensurePStyle_idem sid)]
    · have e1 : setStyleOnPara sid (Xml.elem t a cs) =
          Xml.elem t a (XmlList.cons
            (Xml.elem "w:pPr" [] (.cons (Xml.elem "w:pStyle" [("w:val", sid)] .nil) .nil)) cs) := by
        simp only [setStyleOnPara]
        rw [if_neg h]
        rw [insertAt_zero]
      rw [e1]
      have h2 : hasChild "w:pPr" (XmlList.cons
          (Xml.elem "w:pPr" [] (.cons (Xml.elem "w:pStyle" [("w:val", sid)] .nil) .nil)) cs)
          = true := by
        simp [hasChild, findChild]
      have e2 : setStyleOnPara sid (Xml.elem t a (XmlList.cons
            (Xml.elem "w:pPr" [] (.cons (Xml.elem "w:pStyle" [("w:val", sid)] .nil) .nil)) cs)) =
          Xml.elem t a (mapFirstChild "w:pPr" (ensurePStyle sid) (XmlList.cons
            (Xml.elem "w:pPr" [] (.cons (Xml.elem "w:pStyle" [("w:val", sid)] .nil) .nil)) cs)) := by
        simp only [setStyleOnPara]
        rw [if_pos h2]
      rw [e2]
      have e3 : mapFirstChild "w:pPr" (ensurePStyle sid) (XmlList.cons
            (Xml.elem "w:pPr" [] (.cons (Xml.elem "w:pStyle" [("w:val", sid)] .nil) .nil)) cs) =
          XmlList.cons (ensurePStyle sid
            (Xml.elem "w:pPr" [] (.cons (Xml.elem "w:pStyle" [("w:val", sid)] .nil) .nil))) cs := by
        simp [mapFirstChild]
      rw [e3]
      have e4 : ensurePStyle sid
            (Xml.elem "w:pPr" [] (.cons (Xml.elem "w:pStyle" [("w:val", sid)] .nil) .nil)) =
          Xml.elem "w:pPr" [] (.cons (Xml.elem "w:pStyle" [("w:val", sid)] .nil) .nil) := by
        simp [ensurePStyle, hasChild, findChild, mapFirstChild, setAttrsOn, setAttrs, setAttr]
      rw [e4]
  | txt s => rfl

theorem clearFmtX_isTag :
    ∀ (u : String) (x : Xml), Xml.isTag u (clearFmtX x) = Xml.isTag u x := by
  intro u x
  cases x with
  | elem t a cs =>
    simp only [clearFmtX]
    by_cases h : t = "w:rPr"
    · rw [if_pos h]
      rfl
    · rw [if_neg h]
      rfl
  | txt s => rfl

theorem isForbiddenChild_clearFmtX (c : Xml) :
    isForbiddenChild (clearFmtX c) = isForbiddenChild c := by
  cases c with
  | elem t a cs =>
    simp only [clearFmtX]
    by_cases h : t = "w:rPr"
    · rw [if_pos h]
      rfl
    · rw [if_neg h]
      rfl
  | txt s => rfl

mutual
theorem clearFmtX_idem : ∀ (x : Xml), clearFmtX (clearFmtX x) = clearFmtX x
  | .txt s => rfl
  | .elem t a cs => by
    by_cases h : t = "w:rPr"
    · have e1 : clearFmtX (Xml.elem t a cs) = Xml.elem t a (clearFmtKeepL cs) := by
        simp only [clearFmtX]
        rw [if_pos h]
      have e2 : clearFmtX (Xml.elem t a (clearFmtKeepL cs)) =
          Xml.elem t a (clearFmtKeepL (clearFmtKeepL cs)) := by
        simp only [clearFmtX]
        rw [if_pos h]
      rw [e1, e2, clearFmtKeepL_idem cs]
    · have e1 : clearFmtX (Xml.elem t a cs) = Xml.elem t a (clearFmtL cs) := by
        simp only [clearFmtX]
        rw [if_neg h]
      have e2 : clearFmtX (Xml.elem t a (clearFmtL cs)) =
          Xml.elem t a (clearFmtL (clearFmtL cs)) := by
        simp only [clearFmtX]
        rw [if_neg h]
      rw [e1, e2, clearFmtL_idem cs]

theorem clearFmtL_idem : ∀ (cs : XmlList), clearFmtL (clearFmtL cs) = clearFmtL cs
  | .nil => rfl
  | .cons c rest => by
    simp only [clearFmtL]
    rw [clearFmtX_idem c, clearFmtL_idem rest]

theorem clearFmtKeepL_idem : ∀ (cs : XmlList), clearFmtKeepL (clearFmtKeepL cs) = clearFmtKeepL cs
  | .nil => rfl
  | .cons c rest => by
    by_cases h : isForbiddenChild c = true
    · have e1 : clearFmtKeepL (XmlList.cons c rest) = clearFmtKeepL rest := by
        simp only [clearFmtKeepL]
        rw [if_pos h]
      rw [e1, clearFmtKeepL_idem rest]
    · have e1 : clearFmtKeepL (XmlList.cons c rest) =
          XmlList.cons (clearFmtX c) (clearFmtKeepL rest) := by
        simp only [clearFmtKeepL]
        rw [if_neg h]
      rw [e1]
      have h2 : isForbiddenChild (clearFmtX c) = false := by
        rw [isForbiddenChild_clearFmtX]
        cases hh : isForbiddenChild c
        · rfl
        · exact absurd hh h
      have e2 : clearFmtKeepL (XmlList.cons (clearFmtX c) (clearFmtKeepL rest)) =
          XmlList.cons (clearFmtX (clearFmtX c)) (clearFmtKeepL (clearFmtKeepL rest)) := by
        simp only [clearFmtKeepL]
        rw [if_neg (by rw [h2]; simp)]
      rw [e2, clearFmtX_idem c, clearFmtKeepL_idem rest]
end

theorem clearOnPara_isTag :
    ∀ (u : String) (x : Xml), Xml.isTag u (clearOnPara x) = Xml.isTag u x := by
  intro u x
  cases x <;> rfl

theorem clearOnPara_idem (x : Xml) : clearOnPara (clearOnPara x) = clearOnPara x := by
  cases x with
  | elem t a cs => simp [clearOnPara, clearFmtL_idem]
  | txt s => rfl

theorem rewriteNthP_idem (n : Nat) (f : Xml → Xml)
    (hf : ∀ u x, Xml.isTag u (f x) = Xml.isTag u x)
    (hff : ∀ x, f (f x) = f x) (doc : Xml) :
    rewriteNthP n f (rewriteNthP n f doc) = rewriteNthP n f doc := by
  cases doc with
  | elem t a cs =>
    simp only [rewriteNthP]
    have hL := mapNthDescL_comp "w:p" f hf n cs
    rw [hL]
    have he : (fun y => f (f y)) = f := funext hff
    rw [he]
  | txt s => rfl

theorem descElemsL_cons (t : String) (c : Xml) (rest : XmlList) :
    descElemsL t (XmlList.cons c rest) =
      ((if Xml.isTag t c then [c] else []) ++ descElemsL t (Xml.childrenOf c)) ++
        descElemsL t rest := by
  cases c with
  | elem t0 a cs =>
    simp only [descElemsL, Xml.isTag, Xml.childrenOf]
    by_cases h : t0 = t
    · subst h
      simp
    · simp [h]
  | txt s => simp [descElemsL, Xml.isTag, Xml.childrenOf]

theorem descElemsL_append (t : String) :
    ∀ (cs ds : XmlList), descElemsL t (cs.append ds) = descElemsL t cs ++ descElemsL t ds
  | .nil, ds => by simp [XmlList.append, descElemsL]
  | .cons c rest, ds => by
    show descElemsL t (XmlList.cons c (rest.append ds)) = _
    rw [descElemsL_cons, descElemsL_cons, descElemsL_append t rest ds]
    simp

mutual
theorem mapNthDescX_desc_len (t : String) (g : Xml → Xml)
    (hg : ∀ u x, Xml.isTag u (g x) = Xml.isTag u x)
    (hcnt : ∀ x, (descElems t (g x)).length = (descElems t x).length) :
    ∀ (n : Nat) (x : Xml),
      (∀ u, Xml.isTag u ((mapNthDescX t g n x).1) = Xml.isTag u x) ∧
      (descElems t ((mapNthDescX t g n x).1)).length = (descElems t x).length
  | n, .txt s => ⟨fun u => rfl, rfl⟩
  | n, .elem ta a cs => by
    by_cases ht : ta = t
    · subst ht
      by_cases hn : n = 0
      · subst hn
        have e1 : mapNthDescX ta g 0 (Xml.elem ta a cs) = (g (Xml.elem ta a cs), none) := by
          simp [mapNthDescX]
        rw [e1]
        exact ⟨fun u => hg u _, hcnt _⟩
      · have e1 : mapNthDescX ta g n (Xml.elem ta a cs) =
            (Xml.elem ta a (mapNthDescL ta g (n - 1) cs).1, (mapNthDescL ta g (n - 1) cs).2) := by
          simp [mapNthDescX, hn]
        rw [e1]
        refine ⟨fun u => rfl, ?_⟩
        show (descElemsL ta (mapNthDescL ta g (n - 1) cs).1).length = (descElemsL ta cs).length
        exact mapNthDescL_desc_len ta g hg hcnt (n - 1) cs
    · have e1 : mapNthDescX t g n (Xml.elem ta a cs) =
          (Xml.elem ta a (mapNthDescL t g n cs).1, (mapNthDescL t g n cs).2) := by
        simp [mapNthDescX, ht]
      rw [e1]
      refine ⟨fun u => rfl, ?_⟩
      show (descElemsL t (mapNthDescL t g n cs).1).length = (descElemsL t cs).length
      exact mapNthDescL_desc_len t g hg hcnt n cs

theorem mapNthDescL_desc_len (t : String) (g : Xml → Xml)
    (hg : ∀ u x, Xml.isTag u (g x) = Xml.isTag u x)
    (hcnt : ∀ x, (descElems t (g x)).length = (descElems t x).length) :
    ∀ (n : Nat) (cs : XmlList),
      (descElemsL t ((mapNthDescL t g n cs).1)).length = (descElemsL t cs).length
  | n, .nil => rfl
  | n, .cons c rest => by
    have hX := mapNthDescX_desc_len t g hg hcnt n c
    cases hr : (mapNthDescX t g n c).2 with
    | none =>
      have e1 : mapNthDescL t g n (XmlList.cons c rest) =
          (XmlList.cons (mapNthDescX t g n c).1 rest, none) := by
        simp only [mapNthDescL, hr]
      rw [e1]
      show (descElemsL t (XmlList.cons (mapNthDescX t g n c).1 rest)).length = _
      rw [descElemsL_cons, descElemsL_cons]
      simp only [List.length_append]
      rw [hX.1 t]
      have hch : (descElemsL t (Xml.childrenOf (mapNthDescX t g n c).1)).length =
          (descElemsL t (Xml.childrenOf c)).length := by
        cases c with
        | txt s => rfl
        | elem tc ac csc =>
          by_cases htc : tc = t
          · subst htc
            by_cases hn : n = 0
            · subst hn
              have e2 : (mapNthDescX tc g 0 (Xml.elem tc ac csc)).1 = g (Xml.elem tc ac csc) := by
                simp [mapNthDescX]
              rw [e2]
              have h3 := hcnt (Xml.elem tc ac csc)
              cases hge : g (Xml.elem tc ac csc) with
              | txt s2 =>
                rw [hge] at h3
                simp only [descElems] at h3
                simp only [Xml.childrenOf, descElemsL]
                omega
              | elem t2 a2 cs2 =>
                rw [hge] at h3
                simp only [descElems] at h3
                simp only [Xml.childrenOf]
                exact h3
            · have e2 : (mapNthDescX tc g n (Xml.elem tc ac csc)).1 =
                  Xml.elem tc ac (mapNthDescL tc g (n - 1) csc).1 := by
                simp [mapNthDescX, hn]
              rw [e2]
              simp only [Xml.childrenOf]
              exact mapNthDescL_desc_len tc g hg hcnt (n - 1) csc
          · have e2 : (mapNthDescX t g n (Xml.elem tc ac csc)).1 =
                Xml.elem tc ac (mapNthDescL t g n csc).1 := by
              simp [mapNthDescX, htc]
            rw [e2]
            simp only [Xml.childrenOf]
            exact mapNthDescL_desc_len t g hg hcnt n csc
      rw [hch]
      cases hit : Xml.isTag t c <;> simp [hit]
    | some n1 =>
      have hmiss := mapNthDescX_miss t g n c n1 hr
      have e1 : mapNthDescL t g n (XmlList.cons c rest) =
          (XmlList.cons c (mapNthDescL t g n1 rest).1, (mapNthDescL t g n1 rest).2) := by
        simp only [mapNthDescL, hr, hmiss]
      rw [e1]
      show (descElemsL t (XmlList.cons c (mapNthDescL t g n1 rest).1)).length = _
      rw [descElemsL_cons, descElemsL_cons]
      simp only [List.length_append]
      rw [mapNthDescL_desc_len t g hg hcnt n1 rest]
end

theorem descElems_eq_childrenOf (tg : String) (y : Xml) :
    descElems tg y = descElemsL tg (Xml.childrenOf y) := by
  cases y <;> rfl

theorem descElemsL_mapFirstChild_len (tg t : String) (f : Xml → Xml)
    (hf : ∀ u x, Xml.isTag u (f x) = Xml.isTag u x)
    (hlen : ∀ x, (descElems tg (f x)).length = (descElems tg x).length) :
    ∀ (cs : XmlList),
      (descElemsL tg (mapFirstChild t f cs)).length = (descElemsL tg cs).length
  | .nil => rfl
  | .cons c rest => by
    cases c with
    | elem t0 a cs0 =>
      by_cases h : t0 = t
      · subst h
        have e1 : mapFirstChild t0 f (XmlList.cons (Xml.elem t0 a cs0) rest) =
            XmlList.cons (f (Xml.elem t0 a cs0)) rest := by
          simp [mapFirstChild]
        rw [e1, descElemsL_cons, descElemsL_cons]
        simp only [List.length_append]
        have h1 : Xml.isTag tg (f (Xml.elem t0 a cs0)) = Xml.isTag tg (Xml.elem t0 a cs0) :=
          hf tg _
        have h2 : (descElemsL tg (Xml.childrenOf (f (Xml.elem t0 a cs0)))).length =
            (descElemsL tg (Xml.childrenOf (Xml.elem t0 a cs0))).length := by
          rw [← descElems_eq_childrenOf, ← descElems_eq_childrenOf]
          exact hlen _
        rw [h1, h2]
        cases hit : Xml.isTag tg (Xml.elem t0 a cs0) <;> simp [hit]
      · have e1 : mapFirstChild t f (XmlList.cons (Xml.elem t0 a cs0) rest) =
            XmlList.cons (Xml.elem t0 a cs0) (mapFirstChild t f rest) := by
          simp [mapFirstChild, h]
        rw [e1, descElemsL_cons, descElemsL_cons]
        simp only [List.length_append]
        rw [descElemsL_mapFirstChild_len tg t f hf hlen rest]
    | txt s =>
      have e1 : mapFirstChild t f (XmlList.cons (Xml.txt s) rest) =
          XmlList.cons (Xml.txt s) (mapFirstChild t f rest) := by
        simp [mapFirstChild]
      rw [e1, descElemsL_cons, descElemsL_cons]
      simp only [List.length_append]
      rw [descElemsL_mapFirstChild_len tg t f hf hlen rest]

theorem descElems_setAttrsOn (tg : String) (ws : List (String × String)) (y : Xml) :
    descElems tg (setAttrsOn ws y) = descElems tg y := by
  cases y <;> rfl

theorem ensurePStyle_desc_len (sid : String) (x : Xml) :
    (descElems "w:p" (ensurePStyle sid x)).length = (descElems "w:p" x).length := by
  cases x with
  | elem t a cs =>
    by_cases h : hasChild "w:pStyle" cs = true
    · have e1 : ensurePStyle sid (Xml.elem t a cs) =
          Xml.elem t a (mapFirstChild "w:pStyle" (setAttrsOn [("w:val", sid)]) cs) := by
        simp only [ensurePStyle]
        rw [if_pos h]
      rw [e1]
      show (descElemsL "w:p" (mapFirstChild "w:pStyle" (setAttrsOn [("w:val", sid)]) cs)).length
        = (descElemsL "w:p" cs).length
      exact descElemsL_mapFirstChild_len "w:p" "w:pStyle" _ (setAttrsOn_isTag _)
        (fun y => by rw [descElems_setAttrsOn]) cs
    · have e1 : ensurePStyle sid (Xml.elem t a cs) =
          Xml.elem t a (cs.append (.cons (Xml.elem "w:pStyle" [("w:val", sid)] .nil) .nil)) := by
        simp only [ensurePStyle]
        rw [if_neg h]
      rw [e1]
      show (descElemsL "w:p"
          (cs.append (.cons (Xml.elem "w:pStyle" [("w:val", sid)] .nil) .nil))).length
        = (descElemsL "w:p" cs).length
      rw [descElemsL_append]
      have : descElemsL "w:p" (XmlList.cons (Xml.elem "w:pStyle" [("w:val", sid)] .nil) .nil)
          = [] := by
        simp [descElemsL]
      rw [this]
      simp
  | txt s => rfl

theorem setStyleOnPara_desc_len (sid : String) (x : Xml) :
    (descElems "w:p" (setStyleOnPara sid x)).length = (descElems "w:p" x).length := by
  cases x with
  | elem t a cs =>
    by_cases h : hasChild "w:pPr" cs = true
    · have e1 : setStyleOnPara sid (Xml.elem t a cs) =
          Xml.elem t a (mapFirstChild "w:pPr" (ensurePStyle sid) cs) := by
        simp only [setStyleOnPara]
        rw [if_pos h]
      rw [e1]
      show (descElemsL "w:p" (mapFirstChild "w:pPr" (ensurePStyle sid) cs)).length
        = (descElemsL "w:p" cs).length
      exact descElemsL_mapFirstChild_len "w:p" "w:pPr" _ (ensurePStyle_isTag sid)
        (ensurePStyle_desc_len sid) cs
    · have e1 : setStyleOnPara sid (Xml.elem t a cs) =
          Xml.elem t a (XmlList.cons
            (Xml.elem "w:pPr" [] (.cons (Xml.elem "w:pStyle" [("w:val", sid)] .nil) .nil)) cs) := by
        simp only [setStyleOnPara]
        rw [if_neg h, insertAt_zero]
      rw [e1]
      show (descElemsL "w:p" (XmlList.cons
          (Xml.elem "w:pPr" [] (.cons (Xml.elem "w:pStyle" [("w:val", sid)] .nil) .nil)) cs)).length
        = (descElemsL "w:p" cs).length
      rw [descElemsL_cons]
      have h1 : Xml.isTag "w:p" (Xml.elem "w:pPr" []
          (.cons (Xml.elem "w:pStyle" [("w:val", sid)] .nil) .nil)) = false := by
        simp [Xml.isTag]
      have h2 : descElemsL "w:p" (Xml.childrenOf (Xml.elem "w:pPr" []
          (.cons (Xml.elem "w:pStyle" [("w:val", sid)] .nil) .nil))) = [] := by
        simp [Xml.childrenOf, descElemsL]
      rw [h1, h2]
      simp
  | txt s => rfl

theorem allParas_rewriteNthP_len (n : Nat) (f : Xml → Xml)
    (hf : ∀ u x, Xml.isTag u (f x) = Xml.isTag u x)
    (hlen : ∀ x, (descElems "w:p" (f x)).length = (descElems "w:p" x).length) (doc : Xml) :
    (allParas (rewriteNthP n f doc)).length = (allParas doc).length := by
  cases doc with
  | elem t a cs =>
    show (descElems "w:p" (Xml.elem t a (mapNthDescL "w:p" f n cs).1)).length
      = (descElems "w:p" (Xml.elem t a cs)).length
    show (descElemsL "w:p" (mapNthDescL "w:p" f n cs).1).length = (descElemsL "w:p" cs).length
    exact mapNthDescL_desc_len "w:p" f hf hlen n cs
  | txt s => rfl

theorem applySetParagraphStyle_idem (params : List (String × PVal)) (doc : Xml) :
    applySetParagraphStyle params (applySetParagraphStyle params doc) =
      applySetParagraphStyle params doc := by
  cases hpi : getParamInt params "paragraph_index" with
  | none => simp [applySetParagraphStyle, hpi]
  | some idx =>
    by_cases hb : idx < 0 ∨ ((allParas doc).length : Int) ≤ idx
    · have e1 : applySetParagraphStyle params doc = doc := by
        simp only [applySetParagraphStyle, hpi]
        rw [if_pos hb]
      rw [e1, e1]
    · have e1 : applySetParagraphStyle params doc =
          rewriteNthP idx.toNat (setStyleOnPara ((getParamStr params "style_id").getD "Body"))
            doc := by
        simp only [applySetParagraphStyle, hpi]
        rw [if_neg hb]
      rw [e1]
      have hlen : (allParas (rewriteNthP idx.toNat
          (setStyleOnPara ((getParamStr params "style_id").getD "Body")) doc)).length
          = (allParas doc).length :=
        allParas_rewriteNthP_len _ _ (setStyleOnPara_isTag _) (setStyleOnPara_desc_len _) doc
      have e2 : applySetParagraphStyle params (rewriteNthP idx.toNat
          (setStyleOnPara ((getParamStr params "style_id").getD "Body")) doc) =
          rewriteNthP idx.toNat (setStyleOnPara ((getParamStr params "style_id").getD "Body"))
            (rewriteNthP idx.toNat (setStyleOnPara ((getParamStr params "style_id").getD "Body"))
              doc) := by
        simp only [applySetParagraphStyle, hpi]
        rw [if_neg (by rw [hlen]; exact hb)]
      rw [e2]
      exact rewriteNthP_idem _ _ (setStyleOnPara_isTag _) (setStyleOnPara_idem _) doc

theorem applyClearDirectFormatting_idem (params : List (String × PVal)) (doc : Xml) :
    applyClearDirectFormatting params (applyClearDirectFormatting params doc) =
      applyClearDirectFormatting params doc := by
  cases hpi : getParamInt params "paragraph_index" with
  | none => simp [applyClearDirectFormatting, hpi]
  | some idx =>
    by_cases hb : idx < 0 ∨ ((allParas doc).length : Int) ≤ idx
    · have e1 : applyClearDirectFormatting params doc = doc := by
        simp only [applyClearDirectFormatting, hpi]
        rw [if_pos hb]
      rw [e1, e1]
    · have e1 : applyClearDirectFormatting params doc =
          rewriteNthP idx.toNat clearOnPara doc := by
        simp only [applyClearDirectFormatting, hpi]
        rw [if_neg hb]
      rw [e1]
      by_cases hb2 : idx < 0 ∨
          ((allParas (rewriteNthP idx.toNat clearOnPara doc)).length : Int) ≤ idx
      · simp only [applyClearDirectFormatting, hpi]
        rw [if_pos hb2]
      · simp only [applyClearDirectFormatting, hpi]
        rw [if_neg hb2]
        exact rewriteNthP_idem _ _ clearOnPara_isTag clearOnPara_idem doc

/-- Counterexample to claim C1: applying the single-action `insert_toc_field`
patch twice to `exampleDoc` inserts two TOC paragraphs, so the bytes differ
from a single application. -/
theorem c1_idempotence_counterexample :
    applyPatch (applyPatch exampleDoc tocOnlyPatch exampleSpec) tocOnlyPatch exampleSpec ≠
      applyPatch exampleDoc tocOnlyPatch exampleSpec := by decide

/-- Amended claim C1: every `set_page_margins` (with distinct attribute
writes), `set_paragraph_style`, `clear_direct_run_formatting` or unknown
action is idempotent; only `insert_toc_field` re-inserts on every
application. -/
theorem c1_amended_action_idempotent (spec : StyleSpec) (doc : Xml) (act : PatchAction)
    (hm : act.action = "set_page_margins" →
      ((marginWrites spec act.params).map Prod.fst).Nodup)
    (ht : act.action ≠ "insert_toc_field") :
    applyAction spec (applyAction spec doc act) act = applyAction spec doc act := by
  by_cases h1 : act.action = "set_page_margins"
  · simp only [applyAction, if_pos h1]
    exact applySetPageMargins_idem spec act.params (hm h1) doc
  · by_cases h2 : act.action = "set_paragraph_style"
    · simp only [applyAction, if_neg h1, if_pos h2]
      exact applySetParagraphStyle_idem act.params doc
    · by_cases h3 : act.action = "clear_direct_run_formatting"
      · simp only [applyAction, if_neg h1, if_neg h2, if_pos h3]
        exact applyClearDirectFormatting_idem act.params doc
      · simp only [applyAction, if_neg h1, if_neg h2, if_neg h3, if_neg ht]

/-- Witness for the amended C1 statement on a concrete margin action. -/
theorem c1_amended_action_idempotent_witness :
    applyAction exampleSpec (applyAction exampleSpec exampleDoc
        (PatchAction.mk "set_page_margins" [("target", PVal.s "section0"), ("top", PVal.i 1417)]))
      (PatchAction.mk "set_page_margins" [("target", PVal.s "section0"), ("top", PVal.i 1417)]) =
    applyAction exampleSpec exampleDoc
      (PatchAction.mk "set_page_margins" [("target", PVal.s "section0"), ("top", PVal.i 1417)]) :=
  c1_amended_action_idempotent exampleSpec exampleDoc _ (fun _ => by decide) (by decide)


/-! ## Integer parsing and printing roundtrip -/

theorem charDigit_toNat (n : Nat) (h : n < 10) : (Char.ofNat (48 + n)).toNat = 48 + n := by
  interval_cases n <;> decide

theorem charDigit_isDigit (n : Nat) (h : n < 10) : isAsciiDigit (Char.ofNat (48 + n)) = true := by
  interval_cases n <;> decide

theorem digitsVal_append (l : List Char) (c : Char) :
    digitsVal (l ++ [c]) = digitsVal l * 10 + (c.toNat - 48) := by
  simp [digitsVal, List.foldl_append]

theorem natDigitsF_spec : ∀ (fuel n : Nat), n < 10 ^ (fuel + 1) →
    (natDigitsF (fuel + 1) n).all isAsciiDigit = true ∧ natDigitsF (fuel + 1) n ≠ [] ∧
      digitsVal (natDigitsF (fuel + 1) n) = n
  | fuel, n, h => by
    by_cases hn : n < 10
    · have e1 : natDigitsF (fuel + 1) n = [Char.ofNat (48 + n)] := by
        simp [natDigitsF, hn]
      rw [e1]
      refine ⟨?_, by simp, ?_⟩
      · simp [List.all_cons, charDigit_isDigit n hn]
      · simp [digitsVal, charDigit_toNat n hn]
    · cases fuel with
      | zero =>
        exfalso
        simp at h
        omega
      | succ f =>
        have e1 : natDigitsF (f + 2) n =
            natDigitsF (f + 1) (n / 10) ++ [Char.ofNat (48 + n % 10)] := by
          simp [natDigitsF, hn]
        have hlt : n / 10 < 10 ^ (f + 1) := by
          rw [Nat.div_lt_iff_lt_mul (by norm_num)]
          calc n < 10 ^ (f + 2) := h
          _ = 10 ^ (f + 1) * 10 := by ring
        obtain ⟨ha, hne, hv⟩ := natDigitsF_spec f (n / 10) hlt
        rw [e1]
        refine ⟨?_, by simp, ?_⟩
        · rw [List.all_append, ha]
          simp [charDigit_isDigit (n % 10) (Nat.mod_lt n (by norm_num))]
        · rw [digitsVal_append, hv, charDigit_toNat (n % 10) (Nat.mod_lt n (by norm_num))]
          omega

theorem natDigits_spec (n : Nat) :
    (natDigits n).all isAsciiDigit = true ∧ natDigits n ≠ [] ∧ digitsVal (natDigits n) = n := by
  apply natDigitsF_spec
  calc n < 10 ^ n := Nat.lt_pow_self (by norm_num) n
  _ ≤ 10 ^ (n + 1) := Nat.pow_le_pow_right (by norm_num) (by omega)

theorem digit_not_space (c : Char) (h : isAsciiDigit c = true) : isPySpace c = false := by
  simp only [isAsciiDigit, Bool.decide_and, Bool.and_eq_true, decide_eq_true_eq] at h
  simp only [isPySpace, Bool.decide_or, decide_eq_true_eq]
  simp only [Bool.or_eq_false_iff, decide_eq_false_iff_not]
  omega

theorem dropWhile_space_all_not (l : List Char) (h : ∀ c ∈ l, isPySpace c = false) :
    l.dropWhile isPySpace = l := by
  cases l with
  | nil => rfl
  | cons c rest =>
    rw [List.dropWhile_cons_of_neg]
    rw [h c (by simp)]
    simp

theorem pyInt_decimalStr (n : Nat) : pyInt (decimalStr n) = some (n : Int) := by
  obtain ⟨ha, hne, hv⟩ := natDigits_spec n
  have hall : ∀ c ∈ natDigits n, isPySpace c = false := by
    intro c hc
    exact digit_not_space c (by
      rw [List.all_eq_true] at ha
      exact ha c hc)
  have h1 : (natDigits n).dropWhile isPySpace = natDigits n := dropWhile_space_all_not _ hall
  have h2 : (natDigits n).reverse.dropWhile isPySpace = (natDigits n).reverse :=
    dropWhile_space_all_not _ (by
      intro c hc
      exact hall c (List.mem_reverse.mp hc))
  have hdata : (decimalStr n).data = natDigits n := rfl
  unfold pyInt
  simp only [hdata, h1, h2, List.reverse_reverse]
  cases hd : natDigits n with
  | nil => exact absurd hd hne
  | cons c rest =>
    rw [hd] at ha hv
    simp only [List.all_cons, Bool.and_eq_true] at ha
    have hc : isAsciiDigit c = true := ha.1
    have hcm : ¬ c = '-' := by
      intro he
      rw [he] at hc
      simp [isAsciiDigit] at hc
    have hcp : ¬ c = '+' := by
      intro he
      rw [he] at hc
      simp [isAsciiDigit] at hc
    simp only [if_neg hcm, if_neg hcp]
    rw [if_pos (by simp [List.all_cons, hc, ha.2])]
    rw [hv]

theorem pyInt_intStr (i : Int) : pyInt (intStr i) = some i := by
  by_cases h : i < 0
  · have e1 : intStr i = "-" ++ decimalStr i.natAbs := by
      simp [intStr, h]
    rw [e1]
    obtain ⟨ha, hne, hv⟩ := natDigits_spec i.natAbs
    have hdata : ("-" ++ decimalStr i.natAbs).data = '-' :: natDigits i.natAbs := rfl
    have hall : ∀ c ∈ '-' :: natDigits i.natAbs, isPySpace c = false := by
      intro c hc
      rcases List.mem_cons.mp hc with rfl | hm
      · decide
      · exact digit_not_space c (by
          rw [List.all_eq_true] at ha
          exact ha c hm)
    have h1 : ('-' :: natDigits i.natAbs).dropWhile isPySpace =
        '-' :: natDigits i.natAbs :=
      dropWhile_space_all_not _ hall
    have h2 : ('-' :: natDigits i.natAbs).reverse.dropWhile isPySpace =
        ('-' :: natDigits i.natAbs).reverse :=
      dropWhile_space_all_not _ (by
        intro c hc
        exact hall c (List.mem_reverse.mp hc))
    unfold pyInt
    simp only [hdata, h1, h2, List.reverse_reverse]
    rw [if_pos (trivial : True)]
    rw [if_pos ⟨hne, ha⟩]
    rw [hv]
    congr 1
    omega
  · have e1 : intStr i = decimalStr i.natAbs := by
      simp [intStr, h]
    rw [e1, pyInt_decimalStr]
    congr 1
    omega

/-! ## Margin state of a document -/

theorem marginStep_congr (pg pg2 : Xml) (h : ∀ k, pg.getA k = pg2.getA k) :
    marginStep pg = marginStep pg2 := by
  funext acc p
  unfold marginStep
  rw [h]

theorem checkMargins_attrsOnly (pg : Xml) (spec : StyleSpec) :
    checkMargins pg spec = checkMargins (Xml.elem "w:pgMar" pg.attrsOf .nil) spec := by
  unfold checkMargins
  rw [marginStep_congr pg (Xml.elem "w:pgMar" pg.attrsOf .nil) (fun k => rfl)]

theorem layoutViolations_eq_S (doc : Xml) (spec : StyleSpec) :
    layoutViolations doc spec = layoutViolationsS (marginState doc) spec := by
  unfold layoutViolations marginState
  cases hs : findSectPr doc with
  | none => rfl
  | some sp =>
    simp only [Option.map_some']
    cases hm : sp.find "w:pgMar" with
    | none =>
      simp only [pgmarRead, hm, Option.map_none']
      rfl
    | some pg =>
      simp only [pgmarRead, hm, Option.map_some']
      show checkMargins pg spec = layoutViolationsS (some (some pg.attrsOf)) spec
      rw [checkMargins_attrsOnly]
      rfl

theorem findChild_isTag (t : String) :
    ∀ (cs : XmlList) (c : Xml), findChild t cs = some c → Xml.isTag t c = true
  | .nil, c, h => by simp [findChild] at h
  | .cons d rest, c, h => by
    cases d with
    | elem t0 a cs0 =>
      simp only [findChild] at h
      by_cases ht : t0 = t
      · rw [if_pos ht] at h
        cases h
        simp [Xml.isTag, ht]
      · rw [if_neg ht] at h
        exact findChild_isTag t rest c h
    | txt s =>
      simp only [findChild] at h
      exact findChild_isTag t rest c h

theorem findChild_elem (t : String) (cs : XmlList) (c : Xml)
    (h : findChild t cs = some c) : ∃ a cs0, c = Xml.elem t a cs0 :=
  isTag_elim (findChild_isTag t cs c h)

theorem childElems_isTag (t : String) :
    ∀ (cs : XmlList) (c : Xml), c ∈ childElems t cs → Xml.isTag t c = true
  | .nil, c, h => by simp [childElems] at h
  | .cons d rest, c, h => by
    cases d with
    | elem t0 a cs0 =>
      by_cases ht : t0 = t
      · rw [show childElems t (XmlList.cons (Xml.elem t0 a cs0) rest) =
            Xml.elem t0 a cs0 :: childElems t rest from by simp [childElems, ht]] at h
        rcases List.mem_cons.mp h with rfl | hm
        · simp [Xml.isTag, ht]
        · exact childElems_isTag t rest c hm
      · rw [show childElems t (XmlList.cons (Xml.elem t0 a cs0) rest) =
            childElems t rest from by simp [childElems, ht]] at h
        exact childElems_isTag t rest c h
    | txt s =>
      simp only [childElems] at h
      exact childElems_isTag t rest c h

theorem getLast_childElems_mapLastChild (t : String) (f : Xml → Xml)
    (hf : ∀ w x, Xml.isTag w (f x) = Xml.isTag w x) (cs : XmlList) :
    (childElems t (mapLastChild t f cs)).getLast? =
      ((childElems t cs).getLast?).map f := by
  rw [childElems_mapLastChild t f hf cs]
  cases hgl : (childElems t cs).getLast? with
  | none =>
    rw [List.getLast?_eq_none_iff.mp hgl]
    simp [hgl]
  | some z =>
    simp only [Option.map_some', Option.toList_some]
    exact List.getLast?_concat _

theorem attrsOf_setAttrsOn_elem (ws : List (String × String)) (t : String)
    (a : List (String × String)) (cs : XmlList) :
    Xml.attrsOf (setAttrsOn ws (Xml.elem t a cs)) = setAttrs a ws := rfl

theorem findSectPr_body_none (dt : String) (da : List (String × String)) (dcs : XmlList)
    (hb : findChild "w:body" dcs = none) : findSectPr (Xml.elem dt da dcs) = none := by
  unfold findSectPr
  show (findChild "w:body" dcs).bind _ = none
  rw [hb]
  rfl

theorem findSectPr_sect (dt : String) (da : List (String × String)) (dcs : XmlList)
    (body sp : Xml)
    (hb : findChild "w:body" dcs = some body) (hs : body.find "w:sectPr" = some sp) :
    findSectPr (Xml.elem dt da dcs) = some sp := by
  unfold findSectPr
  show (findChild "w:body" dcs).bind _ = some sp
  rw [hb]
  show (match body.find "w:sectPr" with
    | some s2 => some s2
    | none =>
      match (childElems "w:p" body.childrenOf).getLast? with
      | none => none
      | some lastP => (lastP.find "w:pPr").bind (fun pPr => pPr.find "w:sectPr")) = some sp
  rw [hs]

theorem findSectPr_nolast (dt : String) (da : List (String × String)) (dcs : XmlList)
    (body : Xml)
    (hb : findChild "w:body" dcs = some body) (hs : body.find "w:sectPr" = none)
    (hl : (childElems "w:p" body.childrenOf).getLast? = none) :
    findSectPr (Xml.elem dt da dcs) = none := by
  unfold findSectPr
  show (findChild "w:body" dcs).bind _ = none
  rw [hb]
  show (match body.find "w:sectPr" with
    | some s2 => some s2
    | none =>
      match (childElems "w:p" body.childrenOf).getLast? with
      | none => none
      | some lastP => (lastP.find "w:pPr").bind (fun pPr => pPr.find "w:sectPr")) = none
  rw [hs, hl]

theorem findSectPr_lastp (dt : String) (da : List (String × String)) (dcs : XmlList)
    (body lastP : Xml)
    (hb : findChild "w:body" dcs = some body) (hs : body.find "w:sectPr" = none)
    (hl : (childElems "w:p" body.childrenOf).getLast? = some lastP) :
    findSectPr (Xml.elem dt da dcs) = (lastP.find "w:pPr").bind (fun pPr => pPr.find "w:sectPr") := by
  unfold findSectPr
  show (findChild "w:body" dcs).bind _ = _
  rw [hb]
  show (match body.find "w:sectPr" with
    | some s2 => some s2
    | none =>
      match (childElems "w:p" body.childrenOf).getLast? with
      | none => none
      | some lastP => (lastP.find "w:pPr").bind (fun pPr => pPr.find "w:sectPr")) = _
  rw [hs, hl]

theorem marginState_applySetPageMargins (s : StyleSpec) (prm : List (String × PVal))
    (doc : Xml) (attrs : List (String × String))
    (h : marginState doc = some (some attrs)) :
    marginState (applySetPageMargins s prm doc) =
      some (some (setAttrs attrs (marginWrites s prm))) := by
  cases doc with
  | txt sdoc =>
    exfalso
    unfold marginState findSectPr at h
    simp [Xml.find, Xml.childrenOf, findChild, Bind.bind, Option.bind] at h
  | elem dt da dcs =>
    unfold marginState at h ⊢
    cases hbody : findChild "w:body" dcs with
    | none =>
      exfalso
      rw [findSectPr_body_none dt da dcs hbody] at h
      simp at h
    | some body =>
      obtain ⟨ba, bcs, rfl⟩ := findChild_elem _ _ _ hbody
      have happ : applySetPageMargins s prm (Xml.elem dt da dcs) =
          Xml.elem dt da (mapFirstChild "w:body"
            (sectPrInBody (pgMarWrite (marginWrites s prm))) dcs) := by
        unfold applySetPageMargins
        rw [updateSectPr_elem]
      rw [happ]
      have hbody2 : findChild "w:body" (mapFirstChild "w:body"
          (sectPrInBody (pgMarWrite (marginWrites s prm))) dcs) =
          some (sectPrInBody (pgMarWrite (marginWrites s prm)) (Xml.elem "w:body" ba bcs)) := by
        rw [findChild_mapFirstChild_same "w:body" _ (sectPrInBody_isTag _) dcs, hbody]
        rfl
      cases hsect : findChild "w:sectPr" bcs with
      | some sp =>
        obtain ⟨sa, scs, rfl⟩ := findChild_elem _ _ _ hsect
        rw [findSectPr_sect dt da dcs _ _ hbody hsect] at h
        simp only [Option.map_some', Option.some.injEq] at h
        cases hpg : findChild "w:pgMar" scs with
        | none =>
          exfalso
          rw [show pgmarRead (Xml.elem "w:sectPr" sa scs) = none from by
            simp [pgmarRead, Xml.find, Xml.childrenOf, hpg]] at h
          exact Option.noConfusion h
        | some pg =>
          obtain ⟨pa, pcs, rfl⟩ := findChild_elem _ _ _ hpg
          have hattrs : attrs = pa := by
            rw [show pgmarRead (Xml.elem "w:sectPr" sa scs) = some pa from by
              simp [pgmarRead, Xml.find, Xml.childrenOf, hpg, Xml.attrsOf]] at h
            exact (Option.some.injEq _ _).mp h.symm
          have hsB : sectPrInBody (pgMarWrite (marginWrites s prm)) (Xml.elem "w:body" ba bcs) =
              Xml.elem "w:body" ba
                (mapFirstChild "w:sectPr" (pgMarWrite (marginWrites s prm)) bcs) := by
            simp only [sectPrInBody]
            rw [if_pos (by simp [hasChild, hsect])]
          have hgw : pgMarWrite (marginWrites s prm) (Xml.elem "w:sectPr" sa scs) =
              Xml.elem "w:sectPr" sa (mapFirstChild "w:pgMar"
                (setAttrsOn (marginWrites s prm)) scs) := by
            simp only [pgMarWrite]
            rw [if_pos (by simp [hasChild, hpg])]
          have hfs2 : (sectPrInBody (pgMarWrite (marginWrites s prm))
              (Xml.elem "w:body" ba bcs)).find "w:sectPr" =
              some (Xml.elem "w:sectPr" sa (mapFirstChild "w:pgMar"
                (setAttrsOn (marginWrites s prm)) scs)) := by
            rw [hsB]
            show findChild "w:sectPr" (mapFirstChild "w:sectPr" _ bcs) = _
            rw [findChild_mapFirstChild_same "w:sectPr" _ (pgMarWrite_isTag _) bcs, hsect]
            rw [show Option.map (pgMarWrite (marginWrites s prm))
              (some (Xml.elem "w:sectPr" sa scs)) =
              some (pgMarWrite (marginWrites s prm) (Xml.elem "w:sectPr" sa scs)) from rfl]
            rw [hgw]
          rw [findSectPr_sect dt da _ _ _ hbody2 hfs2]
          have hread : pgmarRead (Xml.elem "w:sectPr" sa (mapFirstChild "w:pgMar"
              (setAttrsOn (marginWrites s prm)) scs)) =
              some (setAttrs pa (marginWrites s prm)) := by
            unfold pgmarRead
            show ((findChild "w:pgMar" (mapFirstChild "w:pgMar" _ scs)).map Xml.attrsOf) = _
            rw [findChild_mapFirstChild_same "w:pgMar" _ (setAttrsOn_isTag _) scs, hpg]
            simp [attrsOf_setAttrsOn_elem]
          simp only [Option.map_some']
          rw [hread, hattrs]
      | none =>
        have hbs : (Xml.elem "w:body" ba bcs).find "w:sectPr" = none := hsect
        cases hlast : (childElems "w:p" (Xml.elem "w:body" ba bcs).childrenOf).getLast? with
        | none =>
          exfalso
          rw [findSectPr_nolast dt da dcs _ hbody hbs hlast] at h
          simp at h
        | some lastP =>
          rw [findSectPr_lastp dt da dcs _ _ hbody hbs hlast] at h
          obtain ⟨pa0, pcs0, rfl⟩ := isTag_elim (childElems_isTag "w:p" bcs lastP
            (List.mem_of_getLast?_eq_some hlast))
          cases hpPr : findChild "w:pPr" pcs0 with
          | none =>
            exfalso
            rw [show (Xml.elem "w:p" pa0 pcs0).find "w:pPr" = none from hpPr] at h
            simp at h
          | some pPr0 =>
            rw [show (Xml.elem "w:p" pa0 pcs0).find "w:pPr" = some pPr0 from hpPr] at h
            simp only [Option.some_bind] at h
            obtain ⟨qa, qcs, rfl⟩ := findChild_elem _ _ _ hpPr
            cases hsp : findChild "w:sectPr" qcs with
            | none =>
              exfalso
              rw [show (Xml.elem "w:pPr" qa qcs).find "w:sectPr" = none from hsp] at h
              simp at h
            | some sp =>
              rw [show (Xml.elem "w:pPr" qa qcs).find "w:sectPr" = some sp from hsp] at h
              simp only [Option.map_some', Option.some.injEq] at h
              obtain ⟨sa, scs, rfl⟩ := findChild_elem _ _ _ hsp
              cases hpg : findChild "w:pgMar" scs with
              | none =>
                exfalso
                rw [show pgmarRead (Xml.elem "w:sectPr" sa scs) = none from by
                  simp [pgmarRead, Xml.find, Xml.childrenOf, hpg]] at h
                exact Option.noConfusion h
              | some pg =>
                obtain ⟨pga, pgcs, rfl⟩ := findChild_elem _ _ _ hpg
                have hattrs : attrs = pga := by
                  rw [show pgmarRead (Xml.elem "w:sectPr" sa scs) = some pga from by
                    simp [pgmarRead, Xml.find, Xml.childrenOf, hpg, Xml.attrsOf]] at h
                  exact (Option.some.injEq _ _).mp h.symm
                have hsB : sectPrInBody (pgMarWrite (marginWrites s prm))
                    (Xml.elem "w:body" ba bcs) =
                    Xml.elem "w:body" ba (mapLastChild "w:p"
                      (sectPrInPara (pgMarWrite (marginWrites s prm))) bcs) := by
                  simp only [sectPrInBody]
                  rw [if_neg (by simp [hasChild, hsect])]
                have hbs2 : (sectPrInBody (pgMarWrite (marginWrites s prm))
                    (Xml.elem "w:body" ba bcs)).find "w:sectPr" = none := by
                  rw [hsB]
                  show findChild "w:sectPr" (mapLastChild "w:p" _ bcs) = none
                  rw [findChild_mapLastChild_other "w:p" "w:sectPr" _
                    (sectPrInPara_isTag _) (by decide) bcs]
                  exact hsect
                have hlast2 : (childElems "w:p" (sectPrInBody (pgMarWrite (marginWrites s prm))
                    (Xml.elem "w:body" ba bcs)).childrenOf).getLast? =
                    some (sectPrInPara (pgMarWrite (marginWrites s prm))
                      (Xml.elem "w:p" pa0 pcs0)) := by
                  rw [hsB]
                  show (childElems "w:p" (mapLastChild "w:p" _ bcs)).getLast? = _
                  rw [getLast_childElems_mapLastChild "w:p" _ (sectPrInPara_isTag _) bcs]
                  rw [show (childElems "w:p" bcs).getLast? =
                    some (Xml.elem "w:p" pa0 pcs0) from hlast]
                  rfl
                rw [findSectPr_lastp dt da _ _ _ hbody2 hbs2 hlast2]
                have hpara : sectPrInPara (pgMarWrite (marginWrites s prm))
                    (Xml.elem "w:p" pa0 pcs0) =
                    Xml.elem "w:p" pa0 (mapFirstChild "w:pPr"
                      (sectPrInPPr (pgMarWrite (marginWrites s prm))) pcs0) := rfl
                rw [hpara]
                have hppr3 : sectPrInPPr (pgMarWrite (marginWrites s prm))
                    (Xml.elem "w:pPr" qa qcs) =
                    Xml.elem "w:pPr" qa (mapFirstChild "w:sectPr"
                      (pgMarWrite (marginWrites s prm)) qcs) := by
                  simp only [sectPrInPPr]
                  rw [if_pos (by simp [hasChild, hsp])]
                have hpPr2 : (Xml.elem "w:p" pa0 (mapFirstChild "w:pPr"
                    (sectPrInPPr (pgMarWrite (marginWrites s prm))) pcs0)).find "w:pPr" =
                    some (Xml.elem "w:pPr" qa (mapFirstChild "w:sectPr"
                      (pgMarWrite (marginWrites s prm)) qcs)) := by
                  show findChild "w:pPr" (mapFirstChild "w:pPr" _ pcs0) = _
                  rw [findChild_mapFirstChild_same "w:pPr" _ (sectPrInPPr_isTag _) pcs0, hpPr]
                  rw [show Option.map (sectPrInPPr (pgMarWrite (marginWrites s prm)))
                    (some (Xml.elem "w:pPr" qa qcs)) =
                    some (sectPrInPPr (pgMarWrite (marginWrites s prm))
                      (Xml.elem "w:pPr" qa qcs)) from rfl]
                  rw [hppr3]
                rw [hpPr2]
                simp only [Option.some_bind]
                have hgw : pgMarWrite (marginWrites s prm) (Xml.elem "w:sectPr" sa scs) =
                    Xml.elem "w:sectPr" sa (mapFirstChild "w:pgMar"
                      (setAttrsOn (marginWrites s prm)) scs) := by
                  simp only [pgMarWrite]
                  rw [if_pos (by simp [hasChild, hpg])]
                have hsp2 : (Xml.elem "w:pPr" qa (mapFirstChild "w:sectPr"
                    (pgMarWrite (marginWrites s prm)) qcs)).find "w:sectPr" =
                    some (Xml.elem "w:sectPr" sa (mapFirstChild "w:pgMar"
                      (setAttrsOn (marginWrites s prm)) scs)) := by
                  show findChild "w:sectPr" (mapFirstChild "w:sectPr" _ qcs) = _
                  rw [findChild_mapFirstChild_same "w:sectPr" _ (pgMarWrite_isTag _) qcs, hsp]
                  rw [show Option.map (pgMarWrite (marginWrites s prm)) (some (Xml.elem "w:sectPr" sa scs)) =
                    some (pgMarWrite (marginWrites s prm) (Xml.elem "w:sectPr" sa scs)) from rfl]
                  rw [hgw]
                rw [hsp2]
                have hread : pgmarRead (Xml.elem "w:sectPr" sa (mapFirstChild "w:pgMar"
                    (setAttrsOn (marginWrites s prm)) scs)) =
                    some (setAttrs pga (marginWrites s prm)) := by
                  unfold pgmarRead
                  show ((findChild "w:pgMar" (mapFirstChild "w:pgMar" _ scs)).map Xml.attrsOf) = _
                  rw [findChild_mapFirstChild_same "w:pgMar" _ (setAttrsOn_isTag _) scs, hpg]
                  simp [attrsOf_setAttrsOn_elem]
                simp only [Option.map_some']
                rw [hread, hattrs]


/-! ## One-paragraph rewrites and the margin state -/

/-! The relation `one descendant element tagged `tg` rewritten by `g`,
everything else unchanged`, which is what `mapNthDescL` does. -/

theorem PRw_isTag (tg : String) (g : Xml → Xml)
    (hg : ∀ u x, Xml.isTag u (g x) = Xml.isTag u x) (x x' : Xml)
    (h : PRw tg g x x') : ∀ u, Xml.isTag u x' = Xml.isTag u x := by
  cases h with
  | here a cs => exact fun u => hg u _
  | deep t a cs cs' hl => exact fun u => rfl

mutual
theorem mapNthDescX_prw (tg : String) (g : Xml → Xml) :
    ∀ (n : Nat) (x : Xml),
      (mapNthDescX tg g n x).1 = x ∨ PRw tg g x (mapNthDescX tg g n x).1
  | n, .txt s => Or.inl rfl
  | n, .elem ta a cs => by
    by_cases ht : ta = tg
    · subst ht
      by_cases hn : n = 0
      · subst hn
        right
        have e1 : (mapNthDescX ta g 0 (Xml.elem ta a cs)).1 = g (Xml.elem ta a cs) := by
          simp [mapNthDescX]
        rw [e1]
        exact PRw.here a cs
      · have e1 : (mapNthDescX ta g n (Xml.elem ta a cs)).1 =
            Xml.elem ta a (mapNthDescL ta g (n - 1) cs).1 := by
          simp [mapNthDescX, hn]
        rw [e1]
        rcases mapNthDescL_prw ta g (n - 1) cs with hl | hl
        · left
          rw [hl]
        · right
          exact PRw.deep ta a cs _ hl
    · have e1 : (mapNthDescX tg g n (Xml.elem ta a cs)).1 =
          Xml.elem ta a (mapNthDescL tg g n cs).1 := by
        simp [mapNthDescX, ht]
      rw [e1]
      rcases mapNthDescL_prw tg g n cs with hl | hl
      · left
        rw [hl]
      · right
        exact PRw.deep ta a cs _ hl

theorem mapNthDescL_prw (tg : String) (g : Xml → Xml) :
    ∀ (n : Nat) (cs : XmlList),
      (mapNthDescL tg g n cs).1 = cs ∨ PRwL tg g cs (mapNthDescL tg g n cs).1
  | n, .nil => Or.inl rfl
  | n, .cons c rest => by
    cases hr : (mapNthDescX tg g n c).2 with
    | none =>
      have e1 : (mapNthDescL tg g n (XmlList.cons c rest)).1 =
          XmlList.cons (mapNthDescX tg g n c).1 rest := by
        simp only [mapNthDescL, hr]
      rw [e1]
      rcases mapNthDescX_prw tg g n c with hx | hx
      · left
        rw [hx]
      · right
        exact PRwL.head c _ rest hx
    | some n1 =>
      have hmiss := mapNthDescX_miss tg g n c n1 hr
      have e1 : (mapNthDescL tg g n (XmlList.cons c rest)).1 =
          XmlList.cons c (mapNthDescL tg g n1 rest).1 := by
        simp only [mapNthDescL, hr, hmiss]
      rw [e1]
      rcases mapNthDescL_prw tg g n1 rest with hl | hl
      · left
        rw [hl]
      · right
        exact PRwL.tail c rest _ hl
end

theorem findChild_PRwL (tg : String) (g : Xml → Xml)
    (hg : ∀ u x, Xml.isTag u (g x) = Xml.isTag u x) (u : String) :
    ∀ (cs cs' : XmlList), PRwL tg g cs cs' →
      (findChild u cs = none ∧ findChild u cs' = none) ∨
      (∃ c c', findChild u cs = some c ∧ findChild u cs' = some c' ∧ PRel tg g c c')
  | .nil, cs', h => by cases h
  | .cons c rest, cs', h => by
    cases h with
    | head _ c' _ hcc =>
      by_cases hit : Xml.isTag u c = true
      · obtain ⟨a0, cs0, rfl⟩ := isTag_elim hit
        obtain ⟨a1, cs1, he1⟩ := isTag_elim (x := c') (by rw [PRw_isTag tg g hg _ _ hcc]; exact hit)
        right
        refine ⟨_, c', ?_, ?_, Or.inr hcc⟩
        · simp [findChild]
        · rw [he1]
          simp [findChild]
      · have hit' : Xml.isTag u c' = false := by
          rw [PRw_isTag tg g hg _ _ hcc]
          cases hh : Xml.isTag u c
          · rfl
          · exact absurd hh hit
        have e1 : findChild u (XmlList.cons c rest) = findChild u rest := by
          cases c with
          | elem t0 a0 cs0 =>
            simp only [Xml.isTag, decide_eq_true_eq] at hit
            simp [findChild, hit]
          | txt s => simp [findChild]
        have e2 : findChild u (XmlList.cons c' rest) = findChild u rest := by
          cases c' with
          | elem t0 a0 cs0 =>
            have hne : ¬ t0 = u := by simpa [Xml.isTag] using hit'
            simp [findChild, hne]
          | txt s => simp [findChild]
        rw [e1, e2]
        cases hf : findChild u rest with
        | none => exact Or.inl ⟨rfl, rfl⟩
        | some d => exact Or.inr ⟨d, d, rfl, rfl, Or.inl rfl⟩
    | tail _ _ rest' hrr =>
      by_cases hit : Xml.isTag u c = true
      · obtain ⟨a0, cs0, rfl⟩ := isTag_elim hit
        right
        exact ⟨Xml.elem u a0 cs0, Xml.elem u a0 cs0, by simp [findChild],
          by simp [findChild], Or.inl rfl⟩
      · have e1 : findChild u (XmlList.cons c rest) = findChild u rest := by
          cases c with
          | elem t0 a0 cs0 =>
            simp only [Xml.isTag, decide_eq_true_eq] at hit
            simp [findChild, hit]
          | txt s => simp [findChild]
        have e2 : findChild u (XmlList.cons c rest') = findChild u rest' := by
          cases c with
          | elem t0 a0 cs0 =>
            simp only [Xml.isTag, decide_eq_true_eq] at hit
            simp [findChild, hit]
          | txt s => simp [findChild]
        rw [e1, e2]
        exact findChild_PRwL tg g hg u rest rest' hrr

theorem childElems_PRwL (tg : String) (g : Xml → Xml)
    (hg : ∀ u x, Xml.isTag u (g x) = Xml.isTag u x) (u : String) :
    ∀ (cs cs' : XmlList), PRwL tg g cs cs' →
      List.Forall₂ (PRel tg g) (childElems u cs) (childElems u cs')
  | .nil, cs', h => by cases h
  | .cons c rest, cs', h => by
    cases h with
    | head _ c' _ hcc =>
      have hrefl : List.Forall₂ (PRel tg g) (childElems u rest) (childElems u rest) := by
        rw [List.forall₂_same]
        intro x _
        exact Or.inl rfl
      by_cases hit : Xml.isTag u c = true
      · obtain ⟨a0, cs0, rfl⟩ := isTag_elim hit
        obtain ⟨a1, cs1, he1⟩ := isTag_elim (x := c') (by rw [PRw_isTag tg g hg _ _ hcc]; exact hit)
        rw [show childElems u (XmlList.cons (Xml.elem u a0 cs0) rest) =
          Xml.elem u a0 cs0 :: childElems u rest from by simp [childElems]]
        rw [he1]
        rw [show childElems u (XmlList.cons (Xml.elem u a1 cs1) rest) =
          Xml.elem u a1 cs1 :: childElems u rest from by simp [childElems]]
        exact List.Forall₂.cons (by rw [← he1]; exact Or.inr hcc) hrefl
      · have hit' : Xml.isTag u c' = false := by
          rw [PRw_isTag tg g hg _ _ hcc]
          cases hh : Xml.isTag u c
          · rfl
          · exact absurd hh hit
        have e1 : childElems u (XmlList.cons c rest) = childElems u rest := by
          cases c with
          | elem t0 a0 cs0 =>
            simp only [Xml.isTag, decide_eq_true_eq] at hit
            simp [childElems, hit]
          | txt s => simp [childElems]
        have e2 : childElems u (XmlList.cons c' rest) = childElems u rest := by
          cases c' with
          | elem t0 a0 cs0 =>
            have hne : ¬ t0 = u := by simpa [Xml.isTag] using hit'
            simp [childElems, hne]
          | txt s => simp [childElems]
        rw [e1, e2]
        exact hrefl
    | tail _ _ rest' hrr =>
      by_cases hit : Xml.isTag u c = true
      · obtain ⟨a0, cs0, rfl⟩ := isTag_elim hit
        rw [show childElems u (XmlList.cons (Xml.elem u a0 cs0) rest) =
          Xml.elem u a0 cs0 :: childElems u rest from by simp [childElems]]
        rw [show childElems u (XmlList.cons (Xml.elem u a0 cs0) rest') =
          Xml.elem u a0 cs0 :: childElems u rest' from by simp [childElems]]
        exact List.Forall₂.cons (Or.inl rfl) (childElems_PRwL tg g hg u rest rest' hrr)
      · have e1 : childElems u (XmlList.cons c rest) = childElems u rest := by
          cases c with
          | elem t0 a0 cs0 =>
            simp only [Xml.isTag, decide_eq_true_eq] at hit
            simp [childElems, hit]
          | txt s => simp [childElems]
        have e2 : childElems u (XmlList.cons c rest') = childElems u rest' := by
          cases c with
          | elem t0 a0 cs0 =>
            simp only [Xml.isTag, decide_eq_true_eq] at hit
            simp [childElems, hit]
          | txt s => simp [childElems]
        rw [e1, e2]
        exact childElems_PRwL tg g hg u rest rest' hrr

theorem getLast?_forall₂ {α : Type} (r : α → α → Prop) :
    ∀ (l l' : List α), List.Forall₂ r l l' →
      (l.getLast? = none ∧ l'.getLast? = none) ∨
      (∃ a b, l.getLast? = some a ∧ l'.getLast? = some b ∧ r a b) := by
  intro l l' h
  induction h with
  | nil => exact Or.inl ⟨rfl, rfl⟩
  | cons ha htail ih =>
    rename_i a b l1 l2
    cases htail with
    | nil => exact Or.inr ⟨a, b, rfl, rfl, ha⟩
    | cons hc htail2 =>
      rename_i c d l3 l4
      rcases ih with ⟨h1, h2⟩ | ⟨x, y, h1, h2, hr⟩
      · simp at h1
      · right
        refine ⟨x, y, ?_, ?_, hr⟩
        · rw [getLast_cons_ne _ _ (by simp)]
          exact h1
        · rw [getLast_cons_ne _ _ (by simp)]
          exact h2

theorem findSectPr_eq (d : Xml) : findSectPr d = (d.find "w:body").bind findSectPrB := rfl

theorem findSectPrB_some (body : Xml) (sp : Xml) (h : body.find "w:sectPr" = some sp) :
    findSectPrB body = some sp := by
  simp [findSectPrB, h]

theorem findSectPrB_none2 (body : Xml) (h1 : body.find "w:sectPr" = none)
    (h2 : (childElems "w:p" body.childrenOf).getLast? = none) : findSectPrB body = none := by
  simp [findSectPrB, h1, h2]

theorem findSectPrB_lastp (body lastP : Xml) (h1 : body.find "w:sectPr" = none)
    (h2 : (childElems "w:p" body.childrenOf).getLast? = some lastP) :
    (findSectPrB body).map pgmarRead = pRead lastP := by
  simp [findSectPrB, h1, h2, pRead]

theorem attrsOf_PRel (g : Xml → Xml) (x x' : Xml) (h : PRel "w:p" g x x')
    (ht : Xml.isTag "w:p" x = false) : Xml.attrsOf x' = Xml.attrsOf x := by
  rcases h with rfl | h
  · rfl
  · cases h with
    | here a cs => simp [Xml.isTag] at ht
    | deep t a cs cs' hl => rfl

theorem pgmarRead_PRel (g : Xml → Xml)
    (hg : ∀ u x, Xml.isTag u (g x) = Xml.isTag u x) (sp sp' : Xml)
    (h : PRel "w:p" g sp sp') (ht : Xml.isTag "w:p" sp = false) :
    pgmarRead sp' = pgmarRead sp := by
  rcases h with rfl | h
  · rfl
  · cases h with
    | here a cs => simp [Xml.isTag] at ht
    | deep t a cs cs' hl =>
      rcases findChild_PRwL "w:p" g hg "w:pgMar" cs cs' hl with ⟨h1, h2⟩ | ⟨c, c', h1, h2, hrel⟩
      · simp [pgmarRead, Xml.find, Xml.childrenOf, h1, h2]
      · have htc : Xml.isTag "w:p" c = false := by
          obtain ⟨a0, cs0, rfl⟩ := isTag_elim (findChild_isTag "w:pgMar" cs c h1)
          simp [Xml.isTag]
        have ha := attrsOf_PRel g c c' hrel htc
        simp [pgmarRead, Xml.find, Xml.childrenOf, h1, h2, ha]

theorem sectRead_PRel (g : Xml → Xml)
    (hg : ∀ u x, Xml.isTag u (g x) = Xml.isTag u x) (q q' : Xml)
    (h : PRel "w:p" g q q') (ht : Xml.isTag "w:p" q = false) :
    (q'.find "w:sectPr").map pgmarRead = (q.find "w:sectPr").map pgmarRead := by
  rcases h with rfl | h
  · rfl
  · cases h with
    | here a cs => simp [Xml.isTag] at ht
    | deep t a cs cs' hl =>
      rcases findChild_PRwL "w:p" g hg "w:sectPr" cs cs' hl with ⟨h1, h2⟩ | ⟨c, c', h1, h2, hrel⟩
      · simp [Xml.find, Xml.childrenOf, h1, h2]
      · have htc : Xml.isTag "w:p" c = false := by
          obtain ⟨a0, cs0, rfl⟩ := isTag_elim (findChild_isTag "w:sectPr" cs c h1)
          simp [Xml.isTag]
        have hp := pgmarRead_PRel g hg c c' hrel htc
        simp [Xml.find, Xml.childrenOf, h1, h2, hp]

theorem pRead_PRel (g : Xml → Xml)
    (hg : ∀ u x, Xml.isTag u (g x) = Xml.isTag u x)
    (hR : ∀ a cs, pRead (g (Xml.elem "w:p" a cs)) = pRead (Xml.elem "w:p" a cs))
    (p p' : Xml) (h : PRel "w:p" g p p') : pRead p' = pRead p := by
  rcases h with rfl | h
  · rfl
  · cases h with
    | here a cs => exact hR a cs
    | deep t a cs cs' hl =>
      rcases findChild_PRwL "w:p" g hg "w:pPr" cs cs' hl with ⟨h1, h2⟩ | ⟨q, q', h1, h2, hrel⟩
      · simp [pRead, Xml.find, Xml.childrenOf, h1, h2]
      · have htq : Xml.isTag "w:p" q = false := by
          obtain ⟨a0, cs0, rfl⟩ := isTag_elim (findChild_isTag "w:pPr" cs q h1)
          simp [Xml.isTag]
        have hsr := sectRead_PRel g hg q q' hrel htq
        simp only [pRead, Xml.find, Xml.childrenOf, h1, h2, Option.some_bind]
        exact hsr

theorem findSectPrB_PRel (g : Xml → Xml)
    (hg : ∀ u x, Xml.isTag u (g x) = Xml.isTag u x)
    (hR : ∀ a cs, pRead (g (Xml.elem "w:p" a cs)) = pRead (Xml.elem "w:p" a cs))
    (body body' : Xml) (h : PRel "w:p" g body body')
    (ht : Xml.isTag "w:p" body = false) :
    (findSectPrB body').map pgmarRead = (findSectPrB body).map pgmarRead := by
  rcases h with rfl | h
  · rfl
  · cases h with
    | here a cs => simp [Xml.isTag] at ht
    | deep t a cs cs' hl =>
      rcases findChild_PRwL "w:p" g hg "w:sectPr" cs cs' hl with ⟨h1, h2⟩ | ⟨sp, sp', h1, h2, hrel⟩
      · rcases getLast?_forall₂ _ _ _ (childElems_PRwL "w:p" g hg "w:p" cs cs' hl) with
          ⟨hl1, hl2⟩ | ⟨lastP, lastP', hl1, hl2, hlrel⟩
        · rw [findSectPrB_none2 (Xml.elem t a cs') h2 hl2,
            findSectPrB_none2 (Xml.elem t a cs) h1 hl1]
        · rw [findSectPrB_lastp (Xml.elem t a cs') lastP' h2 hl2,
            findSectPrB_lastp (Xml.elem t a cs) lastP h1 hl1]
          exact pRead_PRel g hg hR lastP lastP' hlrel
      · have htc : Xml.isTag "w:p" sp = false := by
          obtain ⟨a0, cs0, rfl⟩ := isTag_elim (findChild_isTag "w:sectPr" cs sp h1)
          simp [Xml.isTag]
        rw [findSectPrB_some (Xml.elem t a cs') sp' h2,
          findSectPrB_some (Xml.elem t a cs) sp h1]
        simp [pgmarRead_PRel g hg sp sp' hrel htc]

theorem marginState_PRwL (g : Xml → Xml)
    (hg : ∀ u x, Xml.isTag u (g x) = Xml.isTag u x)
    (hR : ∀ a cs, pRead (g (Xml.elem "w:p" a cs)) = pRead (Xml.elem "w:p" a cs))
    (dt : String) (da : List (String × String)) (dcs dcs' : XmlList)
    (h : PRwL "w:p" g dcs dcs') :
    marginState (Xml.elem dt da dcs') = marginState (Xml.elem dt da dcs) := by
  rcases findChild_PRwL "w:p" g hg "w:body" dcs dcs' h with ⟨h1, h2⟩ | ⟨b, b', h1, h2, hrel⟩
  · simp [marginState, findSectPr_eq, Xml.find, Xml.childrenOf, h1, h2]
  · have htb : Xml.isTag "w:p" b = false := by
      obtain ⟨a0, cs0, rfl⟩ := isTag_elim (findChild_isTag "w:body" dcs b h1)
      simp [Xml.isTag]
    have hfb := findSectPrB_PRel g hg hR b b' hrel htb
    simp only [marginState, findSectPr_eq, Xml.find, Xml.childrenOf, h1, h2,
      Option.some_bind, Option.map_bind]
    exact hfb

theorem marginState_rewriteNthP (n : Nat) (f : Xml → Xml)
    (hf : ∀ u x, Xml.isTag u (f x) = Xml.isTag u x)
    (hR : ∀ a cs, pRead (f (Xml.elem "w:p" a cs)) = pRead (Xml.elem "w:p" a cs))
    (doc : Xml) : marginState (rewriteNthP n f doc) = marginState doc := by
  cases doc with
  | txt s => rfl
  | elem t a cs =>
    show marginState (Xml.elem t a (mapNthDescL "w:p" f n cs).1) = _
    rcases mapNthDescL_prw "w:p" f n cs with hl | hl
    · rw [hl]
    · exact marginState_PRwL f hf hR t a cs _ hl
theorem findChild_append_some (t : String) :
    ∀ (cs ds : XmlList) (c : Xml), findChild t cs = some c →
      findChild t (cs.append ds) = some c
  | .nil, ds, c, h => by simp [findChild] at h
  | .cons x rest, ds, c, h => by
    cases x with
    | elem t0 a0 cs0 =>
      by_cases ht : t0 = t
      · simp only [findChild, if_pos ht] at h
        show findChild t (XmlList.cons (Xml.elem t0 a0 cs0) (rest.append ds)) = some c
        simp only [findChild, if_pos ht]
        exact h
      · simp only [findChild, if_neg ht] at h
        show findChild t (XmlList.cons (Xml.elem t0 a0 cs0) (rest.append ds)) = some c
        simp only [findChild, if_neg ht]
        exact findChild_append_some t rest ds c h
    | txt s =>
      simp only [findChild] at h
      show findChild t (XmlList.cons (Xml.txt s) (rest.append ds)) = some c
      simp only [findChild]
      exact findChild_append_some t rest ds c h

theorem findChild_clearFmtL (t : String) :
    ∀ (cs : XmlList), findChild t (clearFmtL cs) = (findChild t cs).map clearFmtX
  | .nil => rfl
  | .cons c rest => by
    show findChild t (XmlList.cons (clearFmtX c) (clearFmtL rest)) = _
    cases c with
    | elem t0 a0 cs0 =>
      have hcf : ∃ X, clearFmtX (Xml.elem t0 a0 cs0) = Xml.elem t0 a0 X := by
        by_cases hr : t0 = "w:rPr"
        · exact ⟨clearFmtKeepL cs0, by simp [clearFmtX, hr]⟩
        · exact ⟨clearFmtL cs0, by simp [clearFmtX, hr]⟩
      obtain ⟨X, hX⟩ := hcf
      rw [hX]
      by_cases ht : t0 = t
      · subst ht
        simp [findChild, hX]
      · simp only [findChild, if_neg ht]
        exact findChild_clearFmtL t rest
    | txt s =>
      show findChild t (XmlList.cons (Xml.txt s) (clearFmtL rest)) = _
      simp only [findChild]
      exact findChild_clearFmtL t rest

theorem ensurePStyle_find (sid : String) (q : Xml) :
    (ensurePStyle sid q).find "w:sectPr" = q.find "w:sectPr" := by
  cases q with
  | txt s => rfl
  | elem qt qa qcs =>
    by_cases hc : hasChild "w:pStyle" qcs = true
    · simp only [ensurePStyle, if_pos hc]
      show findChild "w:sectPr" (mapFirstChild "w:pStyle" (setAttrsOn [("w:val", sid)]) qcs) =
        findChild "w:sectPr" qcs
      exact findChild_mapFirstChild_other "w:pStyle" "w:sectPr" _
        (fun w x => setAttrsOn_isTag [("w:val", sid)] w x) (by decide) qcs
    · simp only [ensurePStyle, if_neg hc]
      show findChild "w:sectPr"
        (qcs.append (XmlList.cons (Xml.elem "w:pStyle" [("w:val", sid)] XmlList.nil) XmlList.nil)) =
        findChild "w:sectPr" qcs
      cases hf : findChild "w:sectPr" qcs with
      | some c => exact findChild_append_some "w:sectPr" qcs _ c hf
      | none =>
        have hnc : hasChild "w:sectPr" qcs = false := by simp [hasChild, hf]
        rw [findChild_append_not "w:sectPr" qcs _ hnc]
        simp [findChild]

theorem pRead_setStyleOnPara (sid : String) (a : List (String × String)) (cs : XmlList) :
    pRead (setStyleOnPara sid (Xml.elem "w:p" a cs)) = pRead (Xml.elem "w:p" a cs) := by
  by_cases hc : hasChild "w:pPr" cs = true
  · simp only [setStyleOnPara, if_pos hc]
    have h1 : Xml.find (Xml.elem "w:p" a (mapFirstChild "w:pPr" (ensurePStyle sid) cs)) "w:pPr"
        = (findChild "w:pPr" cs).map (ensurePStyle sid) := by
      show findChild "w:pPr" (mapFirstChild "w:pPr" (ensurePStyle sid) cs) = _
      exact findChild_mapFirstChild_same "w:pPr" _ (ensurePStyle_isTag sid) cs
    have h2 : Xml.find (Xml.elem "w:p" a cs) "w:pPr" = findChild "w:pPr" cs := rfl
    simp only [pRead, h1, h2]
    cases hf : findChild "w:pPr" cs with
    | none => rfl
    | some q => simp [ensurePStyle_find sid q]
  · simp only [setStyleOnPara, if_neg hc]
    rw [insertAt_zero]
    have hf : findChild "w:pPr" cs = none := by
      cases hh : findChild "w:pPr" cs with
      | none => rfl
      | some c => simp [hasChild, hh] at hc
    simp only [pRead, Xml.find, Xml.childrenOf, hf]
    simp [findChild]

theorem pRead_clearOnPara (a : List (String × String)) (cs : XmlList) :
    pRead (clearOnPara (Xml.elem "w:p" a cs)) = pRead (Xml.elem "w:p" a cs) := by
  show pRead (Xml.elem "w:p" a (clearFmtL cs)) = _
  have h1 : Xml.find (Xml.elem "w:p" a (clearFmtL cs)) "w:pPr"
      = (findChild "w:pPr" cs).map clearFmtX := findChild_clearFmtL "w:pPr" cs
  have h2 : Xml.find (Xml.elem "w:p" a cs) "w:pPr" = findChild "w:pPr" cs := rfl
  simp only [pRead, h1, h2]
  cases hf : findChild "w:pPr" cs with
  | none => rfl
  | some q =>
    obtain ⟨qa, qcs, rfl⟩ := isTag_elim (findChild_isTag "w:pPr" cs q hf)
    have hq : clearFmtX (Xml.elem "w:pPr" qa qcs) = Xml.elem "w:pPr" qa (clearFmtL qcs) := by
      simp [clearFmtX]
    simp only [Option.map_some', hq, Option.some_bind]
    have h3 : Xml.find (Xml.elem "w:pPr" qa (clearFmtL qcs)) "w:sectPr"
        = (findChild "w:sectPr" qcs).map clearFmtX := findChild_clearFmtL "w:sectPr" qcs
    have h4 : Xml.find (Xml.elem "w:pPr" qa qcs) "w:sectPr" = findChild "w:sectPr" qcs := rfl
    simp only [h3, h4]
    cases hs : findChild "w:sectPr" qcs with
    | none => rfl
    | some sp =>
      obtain ⟨sa, scs, rfl⟩ := isTag_elim (findChild_isTag "w:sectPr" qcs sp hs)
      have hsp : clearFmtX (Xml.elem "w:sectPr" sa scs) =
          Xml.elem "w:sectPr" sa (clearFmtL scs) := by simp [clearFmtX]
      simp only [Option.map_some', hsp, Option.some.injEq]
      have h5 : Xml.find (Xml.elem "w:sectPr" sa (clearFmtL scs)) "w:pgMar"
          = (findChild "w:pgMar" scs).map clearFmtX := findChild_clearFmtL "w:pgMar" scs
      have h6 : Xml.find (Xml.elem "w:sectPr" sa scs) "w:pgMar" = findChild "w:pgMar" scs := rfl
      simp only [pgmarRead, h5, h6]
      cases hg : findChild "w:pgMar" scs with
      | none => rfl
      | some pg =>
        obtain ⟨ga, gcs, rfl⟩ := isTag_elim (findChild_isTag "w:pgMar" scs pg hg)
        have hpg : clearFmtX (Xml.elem "w:pgMar" ga gcs) =
            Xml.elem "w:pgMar" ga (clearFmtL gcs) := by simp [clearFmtX]
        simp [hpg, Xml.attrsOf]

theorem marginState_applySetParagraphStyle (params : List (String × PVal)) (doc : Xml) :
    marginState (applySetParagraphStyle params doc) = marginState doc := by
  cases hpi : getParamInt params "paragraph_index" with
  | none => simp [applySetParagraphStyle, hpi]
  | some idx =>
    simp only [applySetParagraphStyle, hpi]
    by_cases hb : idx < 0 ∨ ((allParas doc).length : Int) ≤ idx
    · rw [if_pos hb]
    · rw [if_neg hb]
      exact marginState_rewriteNthP idx.toNat _
        (fun u x => setStyleOnPara_isTag _ u x)
        (fun a cs => pRead_setStyleOnPara _ a cs) doc

theorem marginState_applyClearDirectFormatting (params : List (String × PVal)) (doc : Xml) :
    marginState (applyClearDirectFormatting params doc) = marginState doc := by
  cases hpi : getParamInt params "paragraph_index" with
  | none => simp [applyClearDirectFormatting, hpi]
  | some idx =>
    simp only [applyClearDirectFormatting, hpi]
    by_cases hb : idx < 0 ∨ ((allParas doc).length : Int) ≤ idx
    · rw [if_pos hb]
    · rw [if_neg hb]
      exact marginState_rewriteNthP idx.toNat _
        (fun u x => clearOnPara_isTag u x)
        (fun a cs => pRead_clearOnPara a cs) doc

theorem applyInsertToc_elem (m : Int) (t : String) (a : List (String × String)) (cs : XmlList) :
    applyInsertToc m (Xml.elem t a cs) = Xml.elem t a (mapFirstChild "w:body" (tocBodyU m) cs) :=
  rfl

theorem tocBodyU_isTag (m : Int) :
    ∀ (u : String) (x : Xml), Xml.isTag u (tocBodyU m x) = Xml.isTag u x := by
  intro u x
  cases x <;> rfl

theorem pRead_tocParagraph (m : Int) : pRead (tocParagraph m) = none := rfl

theorem marginState_applyInsertToc (m : Int) (doc : Xml) :
    marginState (applyInsertToc m doc) = marginState doc := by
  cases doc with
  | txt s => rfl
  | elem t a cs =>
    rw [applyInsertToc_elem]
    have h1 : Xml.find (Xml.elem t a (mapFirstChild "w:body" (tocBodyU m) cs)) "w:body"
        = (findChild "w:body" cs).map (tocBodyU m) := by
      show findChild "w:body" (mapFirstChild "w:body" (tocBodyU m) cs) = _
      exact findChild_mapFirstChild_same "w:body" _ (tocBodyU_isTag m) cs
    have h2 : Xml.find (Xml.elem t a cs) "w:body" = findChild "w:body" cs := rfl
    simp only [marginState, findSectPr_eq, h1, h2]
    cases hb : findChild "w:body" cs with
    | none => rfl
    | some b =>
      obtain ⟨ba, bcs, rfl⟩ := isTag_elim (findChild_isTag "w:body" cs b hb)
      simp only [Option.map_some', Option.some_bind]
      have hU : tocBodyU m (Xml.elem "w:body" ba bcs) =
          Xml.elem "w:body" ba
            (bcs.insertAt (tocInsertIndex (childElems "w:p" bcs)) (tocParagraph m)) := rfl
      rw [hU]
      have hsi : Xml.find (Xml.elem "w:body" ba
            (bcs.insertAt (tocInsertIndex (childElems "w:p" bcs)) (tocParagraph m))) "w:sectPr"
          = findChild "w:sectPr" bcs := by
        show findChild "w:sectPr"
          (bcs.insertAt (tocInsertIndex (childElems "w:p" bcs)) (tocParagraph m)) = _
        exact findChild_insertAt "w:sectPr" bcs _ _ rfl
      have hs0 : Xml.find (Xml.elem "w:body" ba bcs) "w:sectPr" = findChild "w:sectPr" bcs := rfl
      cases hs : findChild "w:sectPr" bcs with
      | some sp =>
        rw [findSectPrB_some _ sp (hsi.trans hs), findSectPrB_some _ sp (hs0.trans hs)]
      | none =>
        by_cases hne : childElems "w:p" bcs = []
        · have hj : tocInsertIndex (childElems "w:p" bcs) = 0 := by
            rw [hne]
            rfl
          rw [hj, insertAt_zero]
          have ha1 : Xml.find (Xml.elem "w:body" ba
              (XmlList.cons (tocParagraph m) bcs)) "w:sectPr" = none := by
            show findChild "w:sectPr" (XmlList.cons (tocParagraph m) bcs) = none
            simp [tocParagraph, findChild, hs]
          have ha2 : (childElems "w:p"
              (Xml.elem "w:body" ba (XmlList.cons (tocParagraph m) bcs)).childrenOf).getLast?
              = some (tocParagraph m) := by
            show (childElems "w:p" (XmlList.cons (tocParagraph m) bcs)).getLast? = _
            rw [show childElems "w:p" (XmlList.cons (tocParagraph m) bcs)
              = tocParagraph m :: childElems "w:p" bcs from by simp [tocParagraph, childElems]]
            rw [hne]
            rfl
          rw [findSectPrB_none2 (Xml.elem "w:body" ba bcs) (hs0.trans hs)
            (by show (childElems "w:p" bcs).getLast? = none
                rw [hne]
                rfl)]
          rw [findSectPrB_lastp _ _ ha1 ha2, pRead_tocParagraph]
          rfl
        · have hlast := getLast_childElems_insertAt bcs (tocInsertIndex (childElems "w:p" bcs))
            (tocParagraph m) (hasPAt_findIdx _ bcs hne)
          have hsome : (childElems "w:p" bcs).getLast?.isSome :=
            List.getLast?_isSome.mpr hne
          obtain ⟨lastP, hl⟩ := Option.isSome_iff_exists.mp hsome
          rw [findSectPrB_lastp _ lastP (hsi.trans hs)
              (by show (childElems "w:p"
                    (bcs.insertAt (tocInsertIndex (childElems "w:p" bcs))
                      (tocParagraph m))).getLast? = some lastP
                  rw [hlast, hl]),
            findSectPrB_lastp _ lastP (hs0.trans hs) hl]


/-! ## Dirty-paragraph accounting -/

/-! The direct-formatting hits of a subtree, computed structurally. -/

/-- The hit list of `_check_run_direct_formatting` over a forest equals
the structural `hitsL`. -/
theorem descFlat_L (forbid : String → Bool) :
    ∀ cs : XmlList, (descElemsL "w:rPr" cs).flatMap
      (fun r => rPrChildrenHits forbid r.childrenOf) = hitsL forbid cs
  | .nil => rfl
  | .cons c rest => by
    cases c with
    | txt s =>
      show (descElemsL "w:rPr" (XmlList.cons (Xml.txt s) rest)).flatMap _ = _
      rw [show descElemsL "w:rPr" (XmlList.cons (Xml.txt s) rest)
        = [] ++ descElemsL "w:rPr" rest from by simp [descElemsL]]
      simp only [List.nil_append]
      show _ = hitsX forbid (Xml.txt s) ++ hitsL forbid rest
      rw [show hitsX forbid (Xml.txt s) = [] from rfl]
      simp only [List.nil_append]
      exact descFlat_L forbid rest
    | elem t a cs0 =>
      rw [show descElemsL "w:rPr" (XmlList.cons (Xml.elem t a cs0) rest)
        = ((if t = "w:rPr" then [Xml.elem t a cs0] else []) ++ descElemsL "w:rPr" cs0)
          ++ descElemsL "w:rPr" rest from by simp [descElemsL]]
      rw [show hitsL forbid (XmlList.cons (Xml.elem t a cs0) rest)
        = ((if t = "w:rPr" then rPrChildrenHits forbid cs0 else []) ++ hitsL forbid cs0)
          ++ hitsL forbid rest from rfl]
      rw [List.flatMap_append, List.flatMap_append]
      rw [descFlat_L forbid cs0, descFlat_L forbid rest]
      by_cases ht : t = "w:rPr"
      · simp [ht, Xml.childrenOf]
      · simp [ht]

/-- `_check_run_direct_formatting` on an element node. -/
theorem checkRun_elem (forbid : String → Bool) (t : String)
    (a : List (String × String)) (cs : XmlList) :
    checkRunDirectFormatting forbid (Xml.elem t a cs) = hitsL forbid cs :=
  descFlat_L forbid cs

/-- Sum of dirty bits over the descendant paragraphs equals `dirtyL`. -/
theorem dirtySum_L (forbid : String → Bool) :
    ∀ cs : XmlList, ((descElemsL "w:p" cs).map (dirtyBit forbid)).sum = dirtyL forbid cs
  | .nil => rfl
  | .cons c rest => by
    cases c with
    | txt s =>
      rw [show descElemsL "w:p" (XmlList.cons (Xml.txt s) rest)
        = [] ++ descElemsL "w:p" rest from by simp [descElemsL]]
      rw [show dirtyL forbid (XmlList.cons (Xml.txt s) rest)
        = 0 + dirtyL forbid rest from rfl]
      simp only [List.nil_append, Nat.zero_add]
      exact dirtySum_L forbid rest
    | elem t a cs0 =>
      rw [show descElemsL "w:p" (XmlList.cons (Xml.elem t a cs0) rest)
        = ((if t = "w:p" then [Xml.elem t a cs0] else []) ++ descElemsL "w:p" cs0)
          ++ descElemsL "w:p" rest from by simp [descElemsL]]
      rw [show dirtyL forbid (XmlList.cons (Xml.elem t a cs0) rest)
        = ((if t = "w:p" ∧ hitsL forbid cs0 ≠ [] then 1 else 0) + dirtyL forbid cs0)
          + dirtyL forbid rest from rfl]
      rw [List.map_append, List.map_append, List.sum_append, List.sum_append]
      rw [dirtySum_L forbid cs0, dirtySum_L forbid rest]
      by_cases ht : t = "w:p"
      · subst ht
        by_cases hh : hitsL forbid cs0 = []
        · simp [dirtyBit, checkRun_elem, hh]
        · simp [dirtyBit, checkRun_elem, hh]
      · simp [ht]
/-- The tag of c determines its contribution to `rPrChildrenHits`. -/
theorem rPrChildrenHits_cons_elem (forbid : String → Bool) (t : String)
    (a : List (String × String)) (cs0 : XmlList) (rest : XmlList) :
    rPrChildrenHits forbid (XmlList.cons (Xml.elem t a cs0) rest) =
      (match kindOfLocal (localName t) with
       | some kind => if forbid kind then [(kind, localName t)] else []
       | none => []) ++ rPrChildrenHits forbid rest := rfl

theorem rPrChildrenHits_cons_txt (forbid : String → Bool) (s : String) (rest : XmlList) :
    rPrChildrenHits forbid (XmlList.cons (Xml.txt s) rest) = rPrChildrenHits forbid rest := rfl

/-- A one-descendant rewrite by a tag-preserving function does not change
the direct-children hit contributions of an `w:rPr`. -/
theorem rPrChildrenHits_PRwL (tg : String) (g : Xml → Xml)
    (hg : ∀ u x, Xml.isTag u (g x) = Xml.isTag u x) (forbid : String → Bool) :
    ∀ (cs cs' : XmlList), PRwL tg g cs cs' →
      rPrChildrenHits forbid cs' = rPrChildrenHits forbid cs
  | .nil, cs', h => by cases h
  | .cons c rest, cs', h => by
    cases h with
    | head _ c' _ hcc =>
      cases c with
      | txt s => cases hcc
      | elem t0 a0 cs0 =>
        have htag : Xml.isTag t0 c' = true := by
          rw [PRw_isTag tg g hg _ _ hcc]
          simp [Xml.isTag]
        obtain ⟨a1, cs1, rfl⟩ := isTag_elim htag
        rw [rPrChildrenHits_cons_elem, rPrChildrenHits_cons_elem]
    | tail _ _ rest' hrr =>
      cases c with
      | txt s =>
        rw [rPrChildrenHits_cons_txt, rPrChildrenHits_cons_txt]
        exact rPrChildrenHits_PRwL tg g hg forbid rest rest' hrr
      | elem t0 a0 cs0 =>
        rw [rPrChildrenHits_cons_elem, rPrChildrenHits_cons_elem]
        rw [rPrChildrenHits_PRwL tg g hg forbid rest rest' hrr]
theorem hitsX_elem (forbid : String → Bool) (t : String) (a : List (String × String))
    (cs : XmlList) : hitsX forbid (Xml.elem t a cs) =
      (if t = "w:rPr" then rPrChildrenHits forbid cs else []) ++ hitsL forbid cs := rfl

theorem dirtyX_elem (forbid : String → Bool) (t : String) (a : List (String × String))
    (cs : XmlList) : dirtyX forbid (Xml.elem t a cs) =
      (if t = "w:p" ∧ hitsL forbid cs ≠ [] then 1 else 0) + dirtyL forbid cs := rfl

theorem append_ne_nil_cases {α : Type} {a b : List α} (h : a ++ b ≠ []) :
    a ≠ [] ∨ b ≠ [] := by
  by_cases ha : a = []
  · right
    intro hb
    exact h (by simp [ha, hb])
  · left
    exact ha

/-- Hit monotonicity: if the per-paragraph rewrite cannot create hits out
of nothing, neither can a one-descendant rewrite. -/
theorem hitsL_ne_PRwL (g : Xml → Xml)
    (hg : ∀ u x, Xml.isTag u (g x) = Xml.isTag u x) (forbid : String → Bool)
    (hMono : ∀ a cs, hitsX forbid (g (Xml.elem "w:p" a cs)) ≠ [] →
      hitsX forbid (Xml.elem "w:p" a cs) ≠ []) :
    ∀ (cs cs' : XmlList), PRwL "w:p" g cs cs' →
      hitsL forbid cs' ≠ [] → hitsL forbid cs ≠ []
  | .nil, cs', h => by cases h
  | .cons c rest, cs', h => by
    cases h with
    | head _ c' _ hcc =>
      intro hne
      rw [show hitsL forbid (XmlList.cons c' rest) =
        hitsX forbid c' ++ hitsL forbid rest from rfl] at hne
      rw [show hitsL forbid (XmlList.cons c rest) =
        hitsX forbid c ++ hitsL forbid rest from rfl]
      rcases append_ne_nil_cases hne with h1 | h2
      case inr => simp [h2]
      case inl =>
        have hcx : hitsX forbid c ≠ [] := by
          clear hne
          cases hcc with
          | here a cs0 => exact hMono a cs0 h1
          | deep t a cs0 cs0' hl =>
            rw [hitsX_elem] at h1
            rcases append_ne_nil_cases h1 with hb1 | hb2
            · rw [hitsX_elem]
              by_cases ht : t = "w:rPr"
              · rw [if_pos ht] at hb1 ⊢
                rw [rPrChildrenHits_PRwL "w:p" g hg forbid cs0 cs0' hl] at hb1
                simp [hb1]
              · rw [if_neg ht] at hb1
                exact absurd rfl hb1
            · rw [hitsX_elem]
              have := hitsL_ne_PRwL g hg forbid hMono cs0 cs0' hl hb2
              simp [this]
        simp [hcx]
    | tail _ _ rest' hrr =>
      intro hne
      rw [show hitsL forbid (XmlList.cons c rest') =
        hitsX forbid c ++ hitsL forbid rest' from rfl] at hne
      rw [show hitsL forbid (XmlList.cons c rest) =
        hitsX forbid c ++ hitsL forbid rest from rfl]
      rcases append_ne_nil_cases hne with h1 | h2
      · simp [h1]
      · have := hitsL_ne_PRwL g hg forbid hMono rest rest' hrr h2
        simp [this]
/-- Dirty-count monotonicity along a one-descendant rewrite. -/
theorem dirtyL_le_PRwL (g : Xml → Xml)
    (hg : ∀ u x, Xml.isTag u (g x) = Xml.isTag u x) (forbid : String → Bool)
    (hMono : ∀ a cs, hitsX forbid (g (Xml.elem "w:p" a cs)) ≠ [] →
      hitsX forbid (Xml.elem "w:p" a cs) ≠ [])
    (hD : ∀ a cs, dirtyX forbid (g (Xml.elem "w:p" a cs)) ≤
      dirtyX forbid (Xml.elem "w:p" a cs)) :
    ∀ (cs cs' : XmlList), PRwL "w:p" g cs cs' →
      dirtyL forbid cs' ≤ dirtyL forbid cs
  | .nil, cs', h => by cases h
  | .cons c rest, cs', h => by
    cases h with
    | head _ c' _ hcc =>
      rw [show dirtyL forbid (XmlList.cons c' rest) =
        dirtyX forbid c' + dirtyL forbid rest from rfl]
      rw [show dirtyL forbid (XmlList.cons c rest) =
        dirtyX forbid c + dirtyL forbid rest from rfl]
      have hcx : dirtyX forbid c' ≤ dirtyX forbid c := by
        cases hcc with
        | here a cs0 => exact hD a cs0
        | deep t a cs0 cs0' hl =>
          rw [dirtyX_elem, dirtyX_elem]
          have hbit : (if t = "w:p" ∧ hitsL forbid cs0' ≠ [] then 1 else 0) ≤
              (if t = "w:p" ∧ hitsL forbid cs0 ≠ [] then (1 : Nat) else 0) := by
            by_cases hb : t = "w:p" ∧ hitsL forbid cs0' ≠ []
            · rw [if_pos hb, if_pos ⟨hb.1, hitsL_ne_PRwL g hg forbid hMono cs0 cs0' hl hb.2⟩]
            · rw [if_neg hb]
              exact Nat.zero_le _
          exact Nat.add_le_add hbit (dirtyL_le_PRwL g hg forbid hMono hD cs0 cs0' hl)
      exact Nat.add_le_add_right hcx _
    | tail _ _ rest' hrr =>
      rw [show dirtyL forbid (XmlList.cons c rest') =
        dirtyX forbid c + dirtyL forbid rest' from rfl]
      rw [show dirtyL forbid (XmlList.cons c rest) =
        dirtyX forbid c + dirtyL forbid rest from rfl]
      exact Nat.add_le_add_left (dirtyL_le_PRwL g hg forbid hMono hD rest rest' hrr) _

/-- Dirty count of a document (excluding the root node itself, matching
`findall(".//w:p")`). -/

theorem dirtyD_rewriteNthP (n : Nat) (f : Xml → Xml)
    (hf : ∀ u x, Xml.isTag u (f x) = Xml.isTag u x) (forbid : String → Bool)
    (hMono : ∀ a cs, hitsX forbid (f (Xml.elem "w:p" a cs)) ≠ [] →
      hitsX forbid (Xml.elem "w:p" a cs) ≠ [])
    (hD : ∀ a cs, dirtyX forbid (f (Xml.elem "w:p" a cs)) ≤
      dirtyX forbid (Xml.elem "w:p" a cs))
    (doc : Xml) : dirtyD forbid (rewriteNthP n f doc) ≤ dirtyD forbid doc := by
  cases doc with
  | txt s => exact Nat.le_refl _
  | elem t a cs =>
    show dirtyL forbid (Xml.elem t a (mapNthDescL "w:p" f n cs).1).childrenOf ≤ _
    rcases mapNthDescL_prw "w:p" f n cs with hl | hl
    · rw [show (Xml.elem t a (mapNthDescL "w:p" f n cs).1).childrenOf
        = (mapNthDescL "w:p" f n cs).1 from rfl, hl]
      exact Nat.le_refl _
    · exact dirtyL_le_PRwL f hf forbid hMono hD cs _ hl
theorem rPrChildrenHits_mapFirstChild (forbid : String → Bool) (t : String) (f : Xml → Xml)
    (hf : ∀ u x, Xml.isTag u (f x) = Xml.isTag u x) :
    ∀ cs, rPrChildrenHits forbid (mapFirstChild t f cs) = rPrChildrenHits forbid cs
  | .nil => rfl
  | .cons c rest => by
    cases c with
    | txt s =>
      rw [show mapFirstChild t f (XmlList.cons (Xml.txt s) rest)
        = XmlList.cons (Xml.txt s) (mapFirstChild t f rest) from rfl]
      rw [rPrChildrenHits_cons_txt, rPrChildrenHits_cons_txt]
      exact rPrChildrenHits_mapFirstChild forbid t f hf rest
    | elem t0 a0 cs0 =>
      by_cases ht : t0 = t
      · rw [show mapFirstChild t f (XmlList.cons (Xml.elem t0 a0 cs0) rest)
          = XmlList.cons (f (Xml.elem t0 a0 cs0)) rest from by
            simp [mapFirstChild, ht]]
        have htag : Xml.isTag t0 (f (Xml.elem t0 a0 cs0)) = true := by
          rw [hf]
          simp [Xml.isTag]
        obtain ⟨a1, cs1, he⟩ := isTag_elim htag
        rw [he, rPrChildrenHits_cons_elem, rPrChildrenHits_cons_elem]
      · rw [show mapFirstChild t f (XmlList.cons (Xml.elem t0 a0 cs0) rest)
          = XmlList.cons (Xml.elem t0 a0 cs0) (mapFirstChild t f rest) from by
            simp [mapFirstChild, ht]]
        rw [rPrChildrenHits_cons_elem, rPrChildrenHits_cons_elem]
        rw [rPrChildrenHits_mapFirstChild forbid t f hf rest]

theorem hitsL_mapFirstChild (forbid : String → Bool) (t : String) (f : Xml → Xml)
    (hfH : ∀ a0 cs0, hitsX forbid (f (Xml.elem t a0 cs0)) = hitsX forbid (Xml.elem t a0 cs0)) :
    ∀ cs, hitsL forbid (mapFirstChild t f cs) = hitsL forbid cs
  | .nil => rfl
  | .cons c rest => by
    cases c with
    | txt s =>
      rw [show mapFirstChild t f (XmlList.cons (Xml.txt s) rest)
        = XmlList.cons (Xml.txt s) (mapFirstChild t f rest) from rfl]
      rw [show hitsL forbid (XmlList.cons (Xml.txt s) (mapFirstChild t f rest))
        = hitsX forbid (Xml.txt s) ++ hitsL forbid (mapFirstChild t f rest) from rfl]
      rw [show hitsL forbid (XmlList.cons (Xml.txt s) rest)
        = hitsX forbid (Xml.txt s) ++ hitsL forbid rest from rfl]
      rw [hitsL_mapFirstChild forbid t f hfH rest]
    | elem t0 a0 cs0 =>
      by_cases ht : t0 = t
      · subst ht
        rw [show mapFirstChild t0 f (XmlList.cons (Xml.elem t0 a0 cs0) rest)
          = XmlList.cons (f (Xml.elem t0 a0 cs0)) rest from by
            simp [mapFirstChild]]
        rw [show hitsL forbid (XmlList.cons (f (Xml.elem t0 a0 cs0)) rest)
          = hitsX forbid (f (Xml.elem t0 a0 cs0)) ++ hitsL forbid rest from rfl]
        rw [show hitsL forbid (XmlList.cons (Xml.elem t0 a0 cs0) rest)
          = hitsX forbid (Xml.elem t0 a0 cs0) ++ hitsL forbid rest from rfl]
        rw [hfH a0 cs0]
      · rw [show mapFirstChild t f (XmlList.cons (Xml.elem t0 a0 cs0) rest)
          = XmlList.cons (Xml.elem t0 a0 cs0) (mapFirstChild t f rest) from by
            simp [mapFirstChild, ht]]
        rw [show hitsL forbid (XmlList.cons (Xml.elem t0 a0 cs0) (mapFirstChild t f rest))
          = hitsX forbid (Xml.elem t0 a0 cs0) ++ hitsL forbid (mapFirstChild t f rest) from rfl]
        rw [show hitsL forbid (XmlList.cons (Xml.elem t0 a0 cs0) rest)
          = hitsX forbid (Xml.elem t0 a0 cs0) ++ hitsL forbid rest from rfl]
        rw [hitsL_mapFirstChild forbid t f hfH rest]

theorem dirtyL_mapFirstChild (forbid : String → Bool) (t : String) (f : Xml → Xml)
    (hfD : ∀ a0 cs0, dirtyX forbid (f (Xml.elem t a0 cs0)) = dirtyX forbid (Xml.elem t a0 cs0)) :
    ∀ cs, dirtyL forbid (mapFirstChild t f cs) = dirtyL forbid cs
  | .nil => rfl
  | .cons c rest => by
    cases c with
    | txt s =>
      rw [show mapFirstChild t f (XmlList.cons (Xml.txt s) rest)
        = XmlList.cons (Xml.txt s) (mapFirstChild t f rest) from rfl]
      rw [show dirtyL forbid (XmlList.cons (Xml.txt s) (mapFirstChild t f rest))
        = dirtyX forbid (Xml.txt s) + dirtyL forbid (mapFirstChild t f rest) from rfl]
      rw [show dirtyL forbid (XmlList.cons (Xml.txt s) rest)
        = dirtyX forbid (Xml.txt s) + dirtyL forbid rest from rfl]
      rw [dirtyL_mapFirstChild forbid t f hfD rest]
    | elem t0 a0 cs0 =>
      by_cases ht : t0 = t
      · subst ht
        rw [show mapFirstChild t0 f (XmlList.cons (Xml.elem t0 a0 cs0) rest)
          = XmlList.cons (f (Xml.elem t0 a0 cs0)) rest from by
            simp [mapFirstChild]]
        rw [show dirtyL forbid (XmlList.cons (f (Xml.elem t0 a0 cs0)) rest)
          = dirtyX forbid (f (Xml.elem t0 a0 cs0)) + dirtyL forbid rest from rfl]
        rw [show dirtyL forbid (XmlList.cons (Xml.elem t0 a0 cs0) rest)
          = dirtyX forbid (Xml.elem t0 a0 cs0) + dirtyL forbid rest from rfl]
        rw [hfD a0 cs0]
      · rw [show mapFirstChild t f (XmlList.cons (Xml.elem t0 a0 cs0) rest)
          = XmlList.cons (Xml.elem t0 a0 cs0) (mapFirstChild t f rest) from by
            simp [mapFirstChild, ht]]
        rw [show dirtyL forbid (XmlList.cons (Xml.elem t0 a0 cs0) (mapFirstChild t f rest))
          = dirtyX forbid (Xml.elem t0 a0 cs0) + dirtyL forbid (mapFirstChild t f rest) from rfl]
        rw [show dirtyL forbid (XmlList.cons (Xml.elem t0 a0 cs0) rest)
          = dirtyX forbid (Xml.elem t0 a0 cs0) + dirtyL forbid rest from rfl]
        rw [dirtyL_mapFirstChild forbid t f hfD rest]

theorem hitsL_mapLastChild (forbid : String → Bool) (t : String) (f : Xml → Xml)
    (hfH : ∀ a0 cs0, hitsX forbid (f (Xml.elem t a0 cs0)) = hitsX forbid (Xml.elem t a0 cs0)) :
    ∀ cs, hitsL forbid (mapLastChild t f cs) = hitsL forbid cs
  | .nil => rfl
  | .cons c rest => by
    cases c with
    | txt s =>
      rw [show mapLastChild t f (XmlList.cons (Xml.txt s) rest)
        = XmlList.cons (Xml.txt s) (mapLastChild t f rest) from rfl]
      rw [show hitsL forbid (XmlList.cons (Xml.txt s) (mapLastChild t f rest))
        = hitsX forbid (Xml.txt s) ++ hitsL forbid (mapLastChild t f rest) from rfl]
      rw [show hitsL forbid (XmlList.cons (Xml.txt s) rest)
        = hitsX forbid (Xml.txt s) ++ hitsL forbid rest from rfl]
      rw [hitsL_mapLastChild forbid t f hfH rest]
    | elem t0 a0 cs0 =>
      by_cases ht : t0 = t ∧ ¬ hasChild t rest
      · obtain ⟨ht1, ht2⟩ := ht
        subst ht1
        rw [show mapLastChild t0 f (XmlList.cons (Xml.elem t0 a0 cs0) rest)
          = XmlList.cons (f (Xml.elem t0 a0 cs0)) rest from by
            simp [mapLastChild, ht2]]
        rw [show hitsL forbid (XmlList.cons (f (Xml.elem t0 a0 cs0)) rest)
          = hitsX forbid (f (Xml.elem t0 a0 cs0)) ++ hitsL forbid rest from rfl]
        rw [show hitsL forbid (XmlList.cons (Xml.elem t0 a0 cs0) rest)
          = hitsX forbid (Xml.elem t0 a0 cs0) ++ hitsL forbid rest from rfl]
        rw [hfH a0 cs0]
      · rw [show mapLastChild t f (XmlList.cons (Xml.elem t0 a0 cs0) rest)
          = XmlList.cons (Xml.elem t0 a0 cs0) (mapLastChild t f rest) from by
            simp only [mapLastChild, if_neg ht]]
        rw [show hitsL forbid (XmlList.cons (Xml.elem t0 a0 cs0) (mapLastChild t f rest))
          = hitsX forbid (Xml.elem t0 a0 cs0) ++ hitsL forbid (mapLastChild t f rest) from rfl]
        rw [show hitsL forbid (XmlList.cons (Xml.elem t0 a0 cs0) rest)
          = hitsX forbid (Xml.elem t0 a0 cs0) ++ hitsL forbid rest from rfl]
        rw [hitsL_mapLastChild forbid t f hfH rest]

theorem dirtyL_mapLastChild (forbid : String → Bool) (t : String) (f : Xml → Xml)
    (hfD : ∀ a0 cs0, dirtyX forbid (f (Xml.elem t a0 cs0)) = dirtyX forbid (Xml.elem t a0 cs0)) :
    ∀ cs, dirtyL forbid (mapLastChild t f cs) = dirtyL forbid cs
  | .nil => rfl
  | .cons c rest => by
    cases c with
    | txt s =>
      rw [show mapLastChild t f (XmlList.cons (Xml.txt s) rest)
        = XmlList.cons (Xml.txt s) (mapLastChild t f rest) from rfl]
      rw [show dirtyL forbid (XmlList.cons (Xml.txt s) (mapLastChild t f rest))
        = dirtyX forbid (Xml.txt s) + dirtyL forbid (mapLastChild t f rest) from rfl]
      rw [show dirtyL forbid (XmlList.cons (Xml.txt s) rest)
        = dirtyX forbid (Xml.txt s) + dirtyL forbid rest from rfl]
      rw [dirtyL_mapLastChild forbid t f hfD rest]
    | elem t0 a0 cs0 =>
      by_cases ht : t0 = t ∧ ¬ hasChild t rest
      · obtain ⟨ht1, ht2⟩ := ht
        subst ht1
        rw [show mapLastChild t0 f (XmlList.cons (Xml.elem t0 a0 cs0) rest)
          = XmlList.cons (f (Xml.elem t0 a0 cs0)) rest from by
            simp [mapLastChild, ht2]]
        rw [show dirtyL forbid (XmlList.cons (f (Xml.elem t0 a0 cs0)) rest)
          = dirtyX forbid (f (Xml.elem t0 a0 cs0)) + dirtyL forbid rest from rfl]
        rw [show dirtyL forbid (XmlList.cons (Xml.elem t0 a0 cs0) rest)
          = dirtyX forbid (Xml.elem t0 a0 cs0) + dirtyL forbid rest from rfl]
        rw [hfD a0 cs0]
      · rw [show mapLastChild t f (XmlList.cons (Xml.elem t0 a0 cs0) rest)
          = XmlList.cons (Xml.elem t0 a0 cs0) (mapLastChild t f rest) from by
            simp only [mapLastChild, if_neg ht]]
        rw [show dirtyL forbid (XmlList.cons (Xml.elem t0 a0 cs0) (mapLastChild t f rest))
          = dirtyX forbid (Xml.elem t0 a0 cs0) + dirtyL forbid (mapLastChild t f rest) from rfl]
        rw [show dirtyL forbid (XmlList.cons (Xml.elem t0 a0 cs0) rest)
          = dirtyX forbid (Xml.elem t0 a0 cs0) + dirtyL forbid rest from rfl]
        rw [dirtyL_mapLastChild forbid t f hfD rest]

theorem rPrChildrenHits_append (forbid : String → Bool) :
    ∀ cs ds, rPrChildrenHits forbid (cs.append ds) =
      rPrChildrenHits forbid cs ++ rPrChildrenHits forbid ds
  | .nil, ds => rfl
  | .cons c rest, ds => by
    cases c with
    | txt s =>
      rw [show (XmlList.cons (Xml.txt s) rest).append ds
        = XmlList.cons (Xml.txt s) (rest.append ds) from rfl]
      rw [rPrChildrenHits_cons_txt, rPrChildrenHits_cons_txt]
      exact rPrChildrenHits_append forbid rest ds
    | elem t0 a0 cs0 =>
      rw [show (XmlList.cons (Xml.elem t0 a0 cs0) rest).append ds
        = XmlList.cons (Xml.elem t0 a0 cs0) (rest.append ds) from rfl]
      rw [rPrChildrenHits_cons_elem, rPrChildrenHits_cons_elem]
      rw [rPrChildrenHits_append forbid rest ds, List.append_assoc]

theorem hitsL_append (forbid : String → Bool) :
    ∀ cs ds, hitsL forbid (cs.append ds) = hitsL forbid cs ++ hitsL forbid ds
  | .nil, ds => rfl
  | .cons c rest, ds => by
    rw [show (XmlList.cons c rest).append ds = XmlList.cons c (rest.append ds) from rfl]
    rw [show hitsL forbid (XmlList.cons c (rest.append ds))
      = hitsX forbid c ++ hitsL forbid (rest.append ds) from rfl]
    rw [show hitsL forbid (XmlList.cons c rest)
      = hitsX forbid c ++ hitsL forbid rest from rfl]
    rw [hitsL_append forbid rest ds, List.append_assoc]

theorem dirtyL_append (forbid : String → Bool) :
    ∀ cs ds, dirtyL forbid (cs.append ds) = dirtyL forbid cs + dirtyL forbid ds
  | .nil, ds => by
    rw [show (XmlList.nil).append ds = ds from rfl]
    rw [show dirtyL forbid XmlList.nil = 0 from rfl]
    omega
  | .cons c rest, ds => by
    rw [show (XmlList.cons c rest).append ds = XmlList.cons c (rest.append ds) from rfl]
    rw [show dirtyL forbid (XmlList.cons c (rest.append ds))
      = dirtyX forbid c + dirtyL forbid (rest.append ds) from rfl]
    rw [show dirtyL forbid (XmlList.cons c rest)
      = dirtyX forbid c + dirtyL forbid rest from rfl]
    rw [dirtyL_append forbid rest ds]
    omega

theorem hitsL_insertAt_nil (forbid : String → Bool) (x : Xml)
    (hx : hitsX forbid x = []) :
    ∀ cs j, hitsL forbid (cs.insertAt j x) = hitsL forbid cs
  | .nil, j => by
    rw [show XmlList.nil.insertAt j x = XmlList.cons x XmlList.nil from by cases j <;> rfl]
    rw [show hitsL forbid (XmlList.cons x XmlList.nil)
      = hitsX forbid x ++ hitsL forbid XmlList.nil from rfl]
    rw [hx]
    rfl
  | .cons c rest, 0 => by
    rw [show (XmlList.cons c rest).insertAt 0 x
      = XmlList.cons x (XmlList.cons c rest) from rfl]
    rw [show hitsL forbid (XmlList.cons x (XmlList.cons c rest))
      = hitsX forbid x ++ hitsL forbid (XmlList.cons c rest) from rfl]
    rw [hx]
    rfl
  | .cons c rest, j + 1 => by
    rw [show (XmlList.cons c rest).insertAt (j + 1) x
      = XmlList.cons c (rest.insertAt j x) from rfl]
    rw [show hitsL forbid (XmlList.cons c (rest.insertAt j x))
      = hitsX forbid c ++ hitsL forbid (rest.insertAt j x) from rfl]
    rw [show hitsL forbid (XmlList.cons c rest)
      = hitsX forbid c ++ hitsL forbid rest from rfl]
    rw [hitsL_insertAt_nil forbid x hx rest j]

theorem dirtyL_insertAt (forbid : String → Bool) (x : Xml) :
    ∀ cs j, dirtyL forbid (cs.insertAt j x) = dirtyX forbid x + dirtyL forbid cs
  | .nil, j => by
    rw [show XmlList.nil.insertAt j x = XmlList.cons x XmlList.nil from by cases j <;> rfl]
    rfl
  | .cons c rest, 0 => rfl
  | .cons c rest, j + 1 => by
    rw [show (XmlList.cons c rest).insertAt (j + 1) x
      = XmlList.cons c (rest.insertAt j x) from rfl]
    rw [show dirtyL forbid (XmlList.cons c (rest.insertAt j x))
      = dirtyX forbid c + dirtyL forbid (rest.insertAt j x) from rfl]
    rw [show dirtyL forbid (XmlList.cons c rest)
      = dirtyX forbid c + dirtyL forbid rest from rfl]
    rw [dirtyL_insertAt forbid x rest j]
    omega
theorem hitsX_setAttrsOn (forbid : String → Bool) (ws : List (String × String)) (x : Xml) :
    hitsX forbid (setAttrsOn ws x) = hitsX forbid x := by
  cases x <;> rfl

theorem dirtyX_setAttrsOn (forbid : String → Bool) (ws : List (String × String)) (x : Xml) :
    dirtyX forbid (setAttrsOn ws x) = dirtyX forbid x := by
  cases x <;> rfl

theorem hitsX_ensurePStyle (forbid : String → Bool) (sid : String)
    (a : List (String × String)) (cs : XmlList) :
    hitsX forbid (ensurePStyle sid (Xml.elem "w:pPr" a cs)) =
      hitsX forbid (Xml.elem "w:pPr" a cs) := by
  have hne : ¬ ("w:pPr" = "w:rPr") := by decide
  by_cases hc : hasChild "w:pStyle" cs = true
  · simp only [ensurePStyle, if_pos hc]
    rw [hitsX_elem, hitsX_elem, if_neg hne, if_neg hne]
    simp only [List.nil_append]
    exact hitsL_mapFirstChild forbid "w:pStyle" _
      (fun a0 cs0 => hitsX_setAttrsOn forbid _ (Xml.elem "w:pStyle" a0 cs0)) cs
  · simp only [ensurePStyle, if_neg hc]
    rw [hitsX_elem, hitsX_elem, if_neg hne, if_neg hne]
    simp only [List.nil_append]
    rw [hitsL_append]
    rw [show hitsL forbid
      (XmlList.cons (Xml.elem "w:pStyle" [("w:val", sid)] XmlList.nil) XmlList.nil)
      = (if "w:pStyle" = "w:rPr" then rPrChildrenHits forbid XmlList.nil else []) ++ [] ++ []
      from rfl]
    rw [if_neg (by decide : ¬ ("w:pStyle" = "w:rPr"))]
    simp

theorem dirtyX_ensurePStyle (forbid : String → Bool) (sid : String)
    (a : List (String × String)) (cs : XmlList) :
    dirtyX forbid (ensurePStyle sid (Xml.elem "w:pPr" a cs)) =
      dirtyX forbid (Xml.elem "w:pPr" a cs) := by
  by_cases hc : hasChild "w:pStyle" cs = true
  · simp only [ensurePStyle, if_pos hc]
    rw [dirtyX_elem, dirtyX_elem]
    rw [hitsL_mapFirstChild forbid "w:pStyle" _
      (fun a0 cs0 => hitsX_setAttrsOn forbid _ (Xml.elem "w:pStyle" a0 cs0))]
    rw [dirtyL_mapFirstChild forbid "w:pStyle" _
      (fun a0 cs0 => dirtyX_setAttrsOn forbid _ (Xml.elem "w:pStyle" a0 cs0))]
  · simp only [ensurePStyle, if_neg hc]
    rw [dirtyX_elem, dirtyX_elem]
    rw [hitsL_append, dirtyL_append]
    rw [show hitsL forbid
      (XmlList.cons (Xml.elem "w:pStyle" [("w:val", sid)] XmlList.nil) XmlList.nil)
      = (if "w:pStyle" = "w:rPr" then rPrChildrenHits forbid XmlList.nil else []) ++ [] ++ []
      from rfl]
    rw [if_neg (by decide : ¬ ("w:pStyle" = "w:rPr"))]
    rw [show dirtyL forbid
      (XmlList.cons (Xml.elem "w:pStyle" [("w:val", sid)] XmlList.nil) XmlList.nil)
      = ((if "w:pStyle" = "w:p" ∧ hitsL forbid XmlList.nil ≠ [] then 1 else 0) + 0) + 0
      from rfl]
    rw [if_neg (by simp : ¬ ("w:pStyle" = "w:p" ∧ hitsL forbid XmlList.nil ≠ []))]
    simp

theorem hitsX_setStyleOnPara (forbid : String → Bool) (sid : String)
    (a : List (String × String)) (cs : XmlList) :
    hitsX forbid (setStyleOnPara sid (Xml.elem "w:p" a cs)) =
      hitsX forbid (Xml.elem "w:p" a cs) := by
  have hne : ¬ ("w:p" = "w:rPr") := by decide
  by_cases hc : hasChild "w:pPr" cs = true
  · simp only [setStyleOnPara, if_pos hc]
    rw [hitsX_elem, hitsX_elem, if_neg hne, if_neg hne]
    simp only [List.nil_append]
    exact hitsL_mapFirstChild forbid "w:pPr" _ (hitsX_ensurePStyle forbid sid) cs
  · simp only [setStyleOnPara, if_neg hc]
    rw [insertAt_zero]
    rw [hitsX_elem, hitsX_elem, if_neg hne, if_neg hne]
    simp only [List.nil_append]
    rw [show hitsL forbid (XmlList.cons
      (Xml.elem "w:pPr" [] (XmlList.cons (Xml.elem "w:pStyle" [("w:val", sid)] XmlList.nil)
        XmlList.nil)) cs) = hitsX forbid
      (Xml.elem "w:pPr" [] (XmlList.cons (Xml.elem "w:pStyle" [("w:val", sid)] XmlList.nil)
        XmlList.nil)) ++ hitsL forbid cs from rfl]
    rw [hitsX_elem, if_neg (by decide : ¬ ("w:pPr" = "w:rPr"))]
    rw [show hitsL forbid (XmlList.cons (Xml.elem "w:pStyle" [("w:val", sid)] XmlList.nil)
      XmlList.nil) = (if "w:pStyle" = "w:rPr" then rPrChildrenHits forbid XmlList.nil else [])
        ++ [] ++ [] from rfl]
    rw [if_neg (by decide : ¬ ("w:pStyle" = "w:rPr"))]
    simp

theorem dirtyX_setStyleOnPara (forbid : String → Bool) (sid : String)
    (a : List (String × String)) (cs : XmlList) :
    dirtyX forbid (setStyleOnPara sid (Xml.elem "w:p" a cs)) =
      dirtyX forbid (Xml.elem "w:p" a cs) := by
  by_cases hc : hasChild "w:pPr" cs = true
  · simp only [setStyleOnPara, if_pos hc]
    rw [dirtyX_elem, dirtyX_elem]
    rw [hitsL_mapFirstChild forbid "w:pPr" _ (hitsX_ensurePStyle forbid sid)]
    rw [dirtyL_mapFirstChild forbid "w:pPr" _ (dirtyX_ensurePStyle forbid sid)]
  · simp only [setStyleOnPara, if_neg hc]
    rw [insertAt_zero]
    rw [dirtyX_elem, dirtyX_elem]
    have hh : hitsL forbid (XmlList.cons
        (Xml.elem "w:pPr" [] (XmlList.cons (Xml.elem "w:pStyle" [("w:val", sid)] XmlList.nil)
          XmlList.nil)) cs) = hitsL forbid cs := by
      rw [show hitsL forbid (XmlList.cons
        (Xml.elem "w:pPr" [] (XmlList.cons (Xml.elem "w:pStyle" [("w:val", sid)] XmlList.nil)
          XmlList.nil)) cs) = hitsX forbid
        (Xml.elem "w:pPr" [] (XmlList.cons (Xml.elem "w:pStyle" [("w:val", sid)] XmlList.nil)
          XmlList.nil)) ++ hitsL forbid cs from rfl]
      rw [hitsX_elem, if_neg (by decide : ¬ ("w:pPr" = "w:rPr"))]
      rw [show hitsL forbid (XmlList.cons (Xml.elem "w:pStyle" [("w:val", sid)] XmlList.nil)
        XmlList.nil) = (if "w:pStyle" = "w:rPr" then rPrChildrenHits forbid XmlList.nil else [])
          ++ [] ++ [] from rfl]
      rw [if_neg (by decide : ¬ ("w:pStyle" = "w:rPr"))]
      simp
    rw [hh]
    have hd : dirtyL forbid (XmlList.cons
        (Xml.elem "w:pPr" [] (XmlList.cons (Xml.elem "w:pStyle" [("w:val", sid)] XmlList.nil)
          XmlList.nil)) cs) = dirtyL forbid cs := by
      rw [show dirtyL forbid (XmlList.cons
        (Xml.elem "w:pPr" [] (XmlList.cons (Xml.elem "w:pStyle" [("w:val", sid)] XmlList.nil)
          XmlList.nil)) cs) = dirtyX forbid
        (Xml.elem "w:pPr" [] (XmlList.cons (Xml.elem "w:pStyle" [("w:val", sid)] XmlList.nil)
          XmlList.nil)) + dirtyL forbid cs from rfl]
      rw [dirtyX_elem]
      rw [if_neg (by simp : ¬ ("w:pPr" = "w:p" ∧ hitsL forbid
        (XmlList.cons (Xml.elem "w:pStyle" [("w:val", sid)] XmlList.nil) XmlList.nil) ≠ []))]
      rw [show dirtyL forbid (XmlList.cons (Xml.elem "w:pStyle" [("w:val", sid)] XmlList.nil)
        XmlList.nil) = ((if "w:pStyle" = "w:p" ∧ hitsL forbid XmlList.nil ≠ [] then 1 else 0)
          + 0) + 0 from rfl]
      rw [if_neg (by simp : ¬ ("w:pStyle" = "w:p" ∧ hitsL forbid XmlList.nil ≠ []))]
      simp
    rw [hd]
theorem kindOfLocal_eq_none (loc : String) (h : loc ∉ forbiddenRPrTags) :
    kindOfLocal loc = none := by
  simp only [forbiddenRPrTags, List.mem_cons, List.not_mem_nil, or_false, not_or] at h
  obtain ⟨h1, h2, h3, h4, h5, h6, h7, h8, h9⟩ := h
  simp [kindOfLocal, h1, h2, h3, h4, h5, h6, h7, h8, h9]

mutual
theorem hitsX_clearFmtX (forbid : String → Bool) :
    ∀ x, hitsX forbid (clearFmtX x) = []
  | .txt s => rfl
  | .elem t a cs => by
    by_cases ht : t = "w:rPr"
    · rw [show clearFmtX (Xml.elem t a cs) = Xml.elem t a (clearFmtKeepL cs) from by
        simp [clearFmtX, ht]]
      rw [hitsX_elem, if_pos ht, rPrChildrenHits_clearFmtKeepL forbid cs,
        hitsL_clearFmtKeepL forbid cs]
      rfl
    · rw [show clearFmtX (Xml.elem t a cs) = Xml.elem t a (clearFmtL cs) from by
        simp [clearFmtX, ht]]
      rw [hitsX_elem, if_neg ht, hitsL_clearFmtL forbid cs]
      rfl

theorem hitsL_clearFmtL (forbid : String → Bool) :
    ∀ cs, hitsL forbid (clearFmtL cs) = []
  | .nil => rfl
  | .cons c rest => by
    rw [show clearFmtL (XmlList.cons c rest)
      = XmlList.cons (clearFmtX c) (clearFmtL rest) from rfl]
    rw [show hitsL forbid (XmlList.cons (clearFmtX c) (clearFmtL rest))
      = hitsX forbid (clearFmtX c) ++ hitsL forbid (clearFmtL rest) from rfl]
    rw [hitsX_clearFmtX forbid c, hitsL_clearFmtL forbid rest]
    rfl

theorem hitsL_clearFmtKeepL (forbid : String → Bool) :
    ∀ cs, hitsL forbid (clearFmtKeepL cs) = []
  | .nil => rfl
  | .cons c rest => by
    by_cases hf : isForbiddenChild c = true
    · rw [show clearFmtKeepL (XmlList.cons c rest) = clearFmtKeepL rest from by
        simp [clearFmtKeepL, hf]]
      exact hitsL_clearFmtKeepL forbid rest
    · rw [show clearFmtKeepL (XmlList.cons c rest)
        = XmlList.cons (clearFmtX c) (clearFmtKeepL rest) from by
        simp [clearFmtKeepL, hf]]
      rw [show hitsL forbid (XmlList.cons (clearFmtX c) (clearFmtKeepL rest))
        = hitsX forbid (clearFmtX c) ++ hitsL forbid (clearFmtKeepL rest) from rfl]
      rw [hitsX_clearFmtX forbid c, hitsL_clearFmtKeepL forbid rest]
      rfl

theorem rPrChildrenHits_clearFmtKeepL (forbid : String → Bool) :
    ∀ cs, rPrChildrenHits forbid (clearFmtKeepL cs) = []
  | .nil => rfl
  | .cons c rest => by
    by_cases hf : isForbiddenChild c = true
    · rw [show clearFmtKeepL (XmlList.cons c rest) = clearFmtKeepL rest from by
        simp [clearFmtKeepL, hf]]
      exact rPrChildrenHits_clearFmtKeepL forbid rest
    · rw [show clearFmtKeepL (XmlList.cons c rest)
        = XmlList.cons (clearFmtX c) (clearFmtKeepL rest) from by
        simp [clearFmtKeepL, hf]]
      cases c with
      | txt s =>
        rw [show clearFmtX (Xml.txt s) = Xml.txt s from rfl]
        rw [rPrChildrenHits_cons_txt]
        exact rPrChildrenHits_clearFmtKeepL forbid rest
      | elem t0 a0 cs0 =>
        have hnm : localName t0 ∉ forbiddenRPrTags := by
          simpa [isForbiddenChild] using hf
        have hk := kindOfLocal_eq_none (localName t0) hnm
        by_cases ht : t0 = "w:rPr"
        · rw [show clearFmtX (Xml.elem t0 a0 cs0) = Xml.elem t0 a0 (clearFmtKeepL cs0) from by
            simp [clearFmtX, ht]]
          rw [rPrChildrenHits_cons_elem, hk]
          rw [rPrChildrenHits_clearFmtKeepL forbid rest]
          rfl
        · rw [show clearFmtX (Xml.elem t0 a0 cs0) = Xml.elem t0 a0 (clearFmtL cs0) from by
            simp [clearFmtX, ht]]
          rw [rPrChildrenHits_cons_elem, hk]
          rw [rPrChildrenHits_clearFmtKeepL forbid rest]
          rfl
end

mutual
theorem dirtyX_clearFmtX (forbid : String → Bool) :
    ∀ x, dirtyX forbid (clearFmtX x) = 0
  | .txt s => rfl
  | .elem t a cs => by
    by_cases ht : t = "w:rPr"
    · rw [show clearFmtX (Xml.elem t a cs) = Xml.elem t a (clearFmtKeepL cs) from by
        simp [clearFmtX, ht]]
      rw [dirtyX_elem]
      rw [if_neg (by simp [hitsL_clearFmtKeepL forbid cs] :
        ¬ (t = "w:p" ∧ hitsL forbid (clearFmtKeepL cs) ≠ []))]
      rw [dirtyL_clearFmtKeepL forbid cs]
    · rw [show clearFmtX (Xml.elem t a cs) = Xml.elem t a (clearFmtL cs) from by
        simp [clearFmtX, ht]]
      rw [dirtyX_elem]
      rw [if_neg (by simp [hitsL_clearFmtL forbid cs] :
        ¬ (t = "w:p" ∧ hitsL forbid (clearFmtL cs) ≠ []))]
      rw [dirtyL_clearFmtL forbid cs]

theorem dirtyL_clearFmtL (forbid : String → Bool) :
    ∀ cs, dirtyL forbid (clearFmtL cs) = 0
  | .nil => rfl
  | .cons c rest => by
    rw [show clearFmtL (XmlList.cons c rest)
      = XmlList.cons (clearFmtX c) (clearFmtL rest) from rfl]
    rw [show dirtyL forbid (XmlList.cons (clearFmtX c) (clearFmtL rest))
      = dirtyX forbid (clearFmtX c) + dirtyL forbid (clearFmtL rest) from rfl]
    rw [dirtyX_clearFmtX forbid c, dirtyL_clearFmtL forbid rest]

theorem dirtyL_clearFmtKeepL (forbid : String → Bool) :
    ∀ cs, dirtyL forbid (clearFmtKeepL cs) = 0
  | .nil => rfl
  | .cons c rest => by
    by_cases hf : isForbiddenChild c = true
    · rw [show clearFmtKeepL (XmlList.cons c rest) = clearFmtKeepL rest from by
        simp [clearFmtKeepL, hf]]
      exact dirtyL_clearFmtKeepL forbid rest
    · rw [show clearFmtKeepL (XmlList.cons c rest)
        = XmlList.cons (clearFmtX c) (clearFmtKeepL rest) from by
        simp [clearFmtKeepL, hf]]
      rw [show dirtyL forbid (XmlList.cons (clearFmtX c) (clearFmtKeepL rest))
        = dirtyX forbid (clearFmtX c) + dirtyL forbid (clearFmtKeepL rest) from rfl]
      rw [dirtyX_clearFmtX forbid c, dirtyL_clearFmtKeepL forbid rest]
end

theorem hitsX_clearOnPara (forbid : String → Bool) (a : List (String × String)) (cs : XmlList) :
    hitsX forbid (clearOnPara (Xml.elem "w:p" a cs)) = [] := by
  rw [show clearOnPara (Xml.elem "w:p" a cs) = Xml.elem "w:p" a (clearFmtL cs) from rfl]
  rw [hitsX_elem, if_neg (by decide : ¬ ("w:p" = "w:rPr")), hitsL_clearFmtL forbid cs]
  rfl

theorem dirtyX_clearOnPara (forbid : String → Bool) (a : List (String × String)) (cs : XmlList) :
    dirtyX forbid (clearOnPara (Xml.elem "w:p" a cs)) = 0 := by
  rw [show clearOnPara (Xml.elem "w:p" a cs) = Xml.elem "w:p" a (clearFmtL cs) from rfl]
  rw [dirtyX_elem]
  rw [if_neg (by simp [hitsL_clearFmtL forbid cs] :
    ¬ ("w:p" = "w:p" ∧ hitsL forbid (clearFmtL cs) ≠ []))]
  rw [dirtyL_clearFmtL forbid cs]
theorem hitsX_pgMarWrite (forbid : String → Bool) (ws : List (String × String))
    (a : List (String × String)) (cs : XmlList) :
    hitsX forbid (pgMarWrite ws (Xml.elem "w:sectPr" a cs)) =
      hitsX forbid (Xml.elem "w:sectPr" a cs) := by
  have hne : ¬ ("w:sectPr" = "w:rPr") := by decide
  by_cases hc : hasChild "w:pgMar" cs = true
  · simp only [pgMarWrite, if_pos hc]
    rw [hitsX_elem, hitsX_elem, if_neg hne, if_neg hne]
    simp only [List.nil_append]
    exact hitsL_mapFirstChild forbid "w:pgMar" _
      (fun a0 cs0 => hitsX_setAttrsOn forbid ws (Xml.elem "w:pgMar" a0 cs0)) cs
  · simp only [pgMarWrite, if_neg hc]
    rw [hitsX_elem, hitsX_elem, if_neg hne, if_neg hne]
    simp only [List.nil_append]
    rw [hitsL_append]
    rw [show hitsL forbid
      (XmlList.cons (Xml.elem "w:pgMar" (setAttrs [] ws) XmlList.nil) XmlList.nil)
      = (if "w:pgMar" = "w:rPr" then rPrChildrenHits forbid XmlList.nil else []) ++ [] ++ []
      from rfl]
    rw [if_neg (by decide : ¬ ("w:pgMar" = "w:rPr"))]
    simp

theorem dirtyX_pgMarWrite (forbid : String → Bool) (ws : List (String × String))
    (a : List (String × String)) (cs : XmlList) :
    dirtyX forbid (pgMarWrite ws (Xml.elem "w:sectPr" a cs)) =
      dirtyX forbid (Xml.elem "w:sectPr" a cs) := by
  by_cases hc : hasChild "w:pgMar" cs = true
  · simp only [pgMarWrite, if_pos hc]
    rw [dirtyX_elem, dirtyX_elem]
    rw [hitsL_mapFirstChild forbid "w:pgMar" _
      (fun a0 cs0 => hitsX_setAttrsOn forbid ws (Xml.elem "w:pgMar" a0 cs0))]
    rw [dirtyL_mapFirstChild forbid "w:pgMar" _
      (fun a0 cs0 => dirtyX_setAttrsOn forbid ws (Xml.elem "w:pgMar" a0 cs0))]
  · simp only [pgMarWrite, if_neg hc]
    rw [dirtyX_elem, dirtyX_elem]
    rw [hitsL_append, dirtyL_append]
    rw [show hitsL forbid
      (XmlList.cons (Xml.elem "w:pgMar" (setAttrs [] ws) XmlList.nil) XmlList.nil)
      = (if "w:pgMar" = "w:rPr" then rPrChildrenHits forbid XmlList.nil else []) ++ [] ++ []
      from rfl]
    rw [if_neg (by decide : ¬ ("w:pgMar" = "w:rPr"))]
    rw [show dirtyL forbid
      (XmlList.cons (Xml.elem "w:pgMar" (setAttrs [] ws) XmlList.nil) XmlList.nil)
      = ((if "w:pgMar" = "w:p" ∧ hitsL forbid XmlList.nil ≠ [] then 1 else 0) + 0) + 0
      from rfl]
    rw [if_neg (by simp : ¬ ("w:pgMar" = "w:p" ∧ hitsL forbid XmlList.nil ≠ []))]
    simp

theorem hitsX_sectPrInPPr (forbid : String → Bool) (g : Xml → Xml)
    (hgH : ∀ a0 cs0, hitsX forbid (g (Xml.elem "w:sectPr" a0 cs0)) =
      hitsX forbid (Xml.elem "w:sectPr" a0 cs0))
    (a : List (String × String)) (cs : XmlList) :
    hitsX forbid (sectPrInPPr g (Xml.elem "w:pPr" a cs)) =
      hitsX forbid (Xml.elem "w:pPr" a cs) := by
  by_cases hc : hasChild "w:sectPr" cs = true
  · simp only [sectPrInPPr, if_pos hc]
    rw [hitsX_elem, hitsX_elem,
      if_neg (by decide : ¬ ("w:pPr" = "w:rPr")),
      if_neg (by decide : ¬ ("w:pPr" = "w:rPr"))]
    simp only [List.nil_append]
    exact hitsL_mapFirstChild forbid "w:sectPr" g hgH cs
  · simp only [sectPrInPPr, if_neg hc]

theorem dirtyX_sectPrInPPr (forbid : String → Bool) (g : Xml → Xml)
    (hgH : ∀ a0 cs0, hitsX forbid (g (Xml.elem "w:sectPr" a0 cs0)) =
      hitsX forbid (Xml.elem "w:sectPr" a0 cs0))
    (hgD : ∀ a0 cs0, dirtyX forbid (g (Xml.elem "w:sectPr" a0 cs0)) =
      dirtyX forbid (Xml.elem "w:sectPr" a0 cs0))
    (a : List (String × String)) (cs : XmlList) :
    dirtyX forbid (sectPrInPPr g (Xml.elem "w:pPr" a cs)) =
      dirtyX forbid (Xml.elem "w:pPr" a cs) := by
  by_cases hc : hasChild "w:sectPr" cs = true
  · simp only [sectPrInPPr, if_pos hc]
    rw [dirtyX_elem, dirtyX_elem]
    rw [hitsL_mapFirstChild forbid "w:sectPr" g hgH]
    rw [dirtyL_mapFirstChild forbid "w:sectPr" g hgD]
  · simp only [sectPrInPPr, if_neg hc]

theorem hitsX_sectPrInPara (forbid : String → Bool) (g : Xml → Xml)
    (hgH : ∀ a0 cs0, hitsX forbid (g (Xml.elem "w:sectPr" a0 cs0)) =
      hitsX forbid (Xml.elem "w:sectPr" a0 cs0))
    (a : List (String × String)) (cs : XmlList) :
    hitsX forbid (sectPrInPara g (Xml.elem "w:p" a cs)) =
      hitsX forbid (Xml.elem "w:p" a cs) := by
  simp only [sectPrInPara]
  rw [hitsX_elem, hitsX_elem,
    if_neg (by decide : ¬ ("w:p" = "w:rPr")),
    if_neg (by decide : ¬ ("w:p" = "w:rPr"))]
  simp only [List.nil_append]
  exact hitsL_mapFirstChild forbid "w:pPr" _ (hitsX_sectPrInPPr forbid g hgH) cs

theorem dirtyX_sectPrInPara (forbid : String → Bool) (g : Xml → Xml)
    (hgH : ∀ a0 cs0, hitsX forbid (g (Xml.elem "w:sectPr" a0 cs0)) =
      hitsX forbid (Xml.elem "w:sectPr" a0 cs0))
    (hgD : ∀ a0 cs0, dirtyX forbid (g (Xml.elem "w:sectPr" a0 cs0)) =
      dirtyX forbid (Xml.elem "w:sectPr" a0 cs0))
    (a : List (String × String)) (cs : XmlList) :
    dirtyX forbid (sectPrInPara g (Xml.elem "w:p" a cs)) =
      dirtyX forbid (Xml.elem "w:p" a cs) := by
  simp only [sectPrInPara]
  rw [dirtyX_elem, dirtyX_elem]
  rw [hitsL_mapFirstChild forbid "w:pPr" _ (hitsX_sectPrInPPr forbid g hgH)]
  rw [dirtyL_mapFirstChild forbid "w:pPr" _ (dirtyX_sectPrInPPr forbid g hgH hgD)]

theorem dirtyX_sectPrInBody (forbid : String → Bool) (g : Xml → Xml)
    (hgH : ∀ a0 cs0, hitsX forbid (g (Xml.elem "w:sectPr" a0 cs0)) =
      hitsX forbid (Xml.elem "w:sectPr" a0 cs0))
    (hgD : ∀ a0 cs0, dirtyX forbid (g (Xml.elem "w:sectPr" a0 cs0)) =
      dirtyX forbid (Xml.elem "w:sectPr" a0 cs0))
    (a : List (String × String)) (cs : XmlList) :
    dirtyX forbid (sectPrInBody g (Xml.elem "w:body" a cs)) =
      dirtyX forbid (Xml.elem "w:body" a cs) := by
  by_cases hc : hasChild "w:sectPr" cs = true
  · simp only [sectPrInBody, if_pos hc]
    rw [dirtyX_elem, dirtyX_elem]
    rw [hitsL_mapFirstChild forbid "w:sectPr" g hgH]
    rw [dirtyL_mapFirstChild forbid "w:sectPr" g hgD]
  · simp only [sectPrInBody, if_neg hc]
    rw [dirtyX_elem, dirtyX_elem]
    rw [hitsL_mapLastChild forbid "w:p" _ (hitsX_sectPrInPara forbid g hgH)]
    rw [dirtyL_mapLastChild forbid "w:p" _ (dirtyX_sectPrInPara forbid g hgH hgD)]

theorem dirtyD_updateSectPr (forbid : String → Bool) (g : Xml → Xml)
    (hgH : ∀ a0 cs0, hitsX forbid (g (Xml.elem "w:sectPr" a0 cs0)) =
      hitsX forbid (Xml.elem "w:sectPr" a0 cs0))
    (hgD : ∀ a0 cs0, dirtyX forbid (g (Xml.elem "w:sectPr" a0 cs0)) =
      dirtyX forbid (Xml.elem "w:sectPr" a0 cs0))
    (doc : Xml) : dirtyD forbid (updateSectPr g doc) = dirtyD forbid doc := by
  cases doc with
  | txt s => rfl
  | elem t a cs =>
    rw [updateSectPr_elem]
    show dirtyL forbid (mapFirstChild "w:body" (sectPrInBody g) cs) = dirtyL forbid cs
    exact dirtyL_mapFirstChild forbid "w:body" _ (dirtyX_sectPrInBody forbid g hgH hgD) cs

theorem dirtyD_applySetPageMargins (forbid : String → Bool) (spec : StyleSpec)
    (params : List (String × PVal)) (doc : Xml) :
    dirtyD forbid (applySetPageMargins spec params doc) = dirtyD forbid doc :=
  dirtyD_updateSectPr forbid _
    (fun a0 cs0 => hitsX_pgMarWrite forbid _ a0 cs0)
    (fun a0 cs0 => dirtyX_pgMarWrite forbid _ a0 cs0) doc

theorem hitsX_tocParagraph (forbid : String → Bool) (m : Int) :
    hitsX forbid (tocParagraph m) = [] := by
  simp [tocParagraph, hitsX, hitsL]

theorem dirtyX_tocParagraph (forbid : String → Bool) (m : Int) :
    dirtyX forbid (tocParagraph m) = 0 := by
  simp [tocParagraph, dirtyX, dirtyL, hitsL, hitsX]

theorem dirtyX_tocBodyU (forbid : String → Bool) (m : Int)
    (a : List (String × String)) (cs : XmlList) :
    dirtyX forbid (tocBodyU m (Xml.elem "w:body" a cs)) =
      dirtyX forbid (Xml.elem "w:body" a cs) := by
  rw [show tocBodyU m (Xml.elem "w:body" a cs) = Xml.elem "w:body" a
    (cs.insertAt (tocInsertIndex (childElems "w:p" cs)) (tocParagraph m)) from rfl]
  rw [dirtyX_elem, dirtyX_elem]
  rw [hitsL_insertAt_nil forbid _ (hitsX_tocParagraph forbid m)]
  rw [dirtyL_insertAt forbid _ cs, dirtyX_tocParagraph forbid m]
  omega

theorem dirtyD_applyInsertToc (forbid : String → Bool) (m : Int) (doc : Xml) :
    dirtyD forbid (applyInsertToc m doc) = dirtyD forbid doc := by
  cases doc with
  | txt s => rfl
  | elem t a cs =>
    rw [applyInsertToc_elem]
    show dirtyL forbid (mapFirstChild "w:body" (tocBodyU m) cs) = dirtyL forbid cs
    exact dirtyL_mapFirstChild forbid "w:body" _ (dirtyX_tocBodyU forbid m) cs

theorem dirtyD_applySetParagraphStyle (forbid : String → Bool)
    (params : List (String × PVal)) (doc : Xml) :
    dirtyD forbid (applySetParagraphStyle params doc) ≤ dirtyD forbid doc := by
  cases hpi : getParamInt params "paragraph_index" with
  | none =>
    simp only [applySetParagraphStyle, hpi]
    exact Nat.le_refl _
  | some idx =>
    simp only [applySetParagraphStyle, hpi]
    by_cases hb : idx < 0 ∨ ((allParas doc).length : Int) ≤ idx
    · rw [if_pos hb]
    · rw [if_neg hb]
      exact dirtyD_rewriteNthP idx.toNat _ (fun u x => setStyleOnPara_isTag _ u x) forbid
        (fun a cs h => by rw [← hitsX_setStyleOnPara forbid _ a cs]; exact h)
        (fun a cs => Nat.le_of_eq (dirtyX_setStyleOnPara forbid _ a cs)) doc

theorem dirtyD_applyClearDirectFormatting (forbid : String → Bool)
    (params : List (String × PVal)) (doc : Xml) :
    dirtyD forbid (applyClearDirectFormatting params doc) ≤ dirtyD forbid doc := by
  cases hpi : getParamInt params "paragraph_index" with
  | none =>
    simp only [applyClearDirectFormatting, hpi]
    exact Nat.le_refl _
  | some idx =>
    simp only [applyClearDirectFormatting, hpi]
    by_cases hb : idx < 0 ∨ ((allParas doc).length : Int) ≤ idx
    · rw [if_pos hb]
    · rw [if_neg hb]
      exact dirtyD_rewriteNthP idx.toNat _ (fun u x => clearOnPara_isTag u x) forbid
        (fun a cs h => absurd (hitsX_clearOnPara forbid a cs) h)
        (fun a cs => by rw [dirtyX_clearOnPara forbid a cs]; exact Nat.zero_le _) doc

theorem dirtyD_applyAction (spec : StyleSpec) (doc : Xml) (act : PatchAction) :
    dirtyD (forbidLookup spec.forbidden_direct_formatting) (applyAction spec doc act) ≤
      dirtyD (forbidLookup spec.forbidden_direct_formatting) doc := by
  unfold applyAction
  by_cases h1 : act.action = "set_page_margins"
  · rw [if_pos h1, dirtyD_applySetPageMargins]
  · rw [if_neg h1]
    by_cases h2 : act.action = "set_paragraph_style"
    · rw [if_pos h2]
      exact dirtyD_applySetParagraphStyle _ _ doc
    · rw [if_neg h2]
      by_cases h3 : act.action = "clear_direct_run_formatting"
      · rw [if_pos h3]
        exact dirtyD_applyClearDirectFormatting _ _ doc
      · rw [if_neg h3]
        by_cases h4 : act.action = "insert_toc_field"
        · rw [if_pos h4, dirtyD_applyInsertToc]
        · rw [if_neg h4]

theorem dirtyD_applyPatch (spec : StyleSpec) :
    ∀ (acts : List PatchAction) (doc : Xml),
      dirtyD (forbidLookup spec.forbidden_direct_formatting)
        (acts.foldl (applyAction spec) doc) ≤
      dirtyD (forbidLookup spec.forbidden_direct_formatting) doc
  | [], doc => Nat.le_refl _
  | act :: rest, doc => by
    rw [List.foldl_cons]
    exact Nat.le_trans (dirtyD_applyPatch spec rest (applyAction spec doc act))
      (dirtyD_applyAction spec doc act)


/-! ## Fixer convergence (claim C2) -/

/-! Error accounting for `validate_docx`. -/

theorem countSeverity_append (a b : List Violation) (sev : String) :
    countSeverity (a ++ b) sev = countSeverity a sev + countSeverity b sev := by
  simp [countSeverity, List.filter_append]

theorem countSeverity_eq_zero (vs : List Violation) (sev : String)
    (h : ∀ v ∈ vs, v.severity ≠ sev) : countSeverity vs sev = 0 := by
  unfold countSeverity
  rw [List.length_eq_zero, List.filter_eq_nil_iff]
  intro v hv
  simpa using h v hv

theorem countSeverity_all (vs : List Violation) (sev : String)
    (h : ∀ v ∈ vs, v.severity = sev) : countSeverity vs sev = vs.length := by
  unfold countSeverity
  rw [List.filter_eq_self.mpr]
  intro v hv
  simpa using h v hv

theorem structureViolations_warning (doc : Xml) (spec : StyleSpec) :
    ∀ v ∈ structureViolations doc spec, v.severity = "warning" ∧ v.suggestion = none := by
  intro v hv
  unfold structureViolations at hv
  rw [List.mem_filterMap] at hv
  obtain ⟨req, _, heq⟩ := hv
  by_cases hm : req ∈ h1Titles doc
  · rw [if_pos hm] at heq
    exact Option.noConfusion heq
  · rw [if_neg hm] at heq
    obtain rfl := (Option.some.injEq _ _).mp heq
    exact ⟨rfl, rfl⟩

theorem tocViolations_warning (doc : Xml) (spec : StyleSpec) :
    ∀ v ∈ tocViolations doc spec, v.severity = "warning" ∧
      v.suggestion = some { action := "insert_toc_field"
                            params := [("max_level", PVal.i spec.structure_.toc_max_level)] } := by
  intro v hv
  unfold tocViolations at hv
  by_cases hc : 0 < spec.structure_.toc_max_level ∧ ¬ hasTocField doc
  · rw [if_pos hc] at hv
    rw [List.mem_singleton] at hv
    subst hv
    exact ⟨rfl, rfl⟩
  · rw [if_neg hc] at hv
    exact absurd hv (List.not_mem_nil v)

theorem paraViolations_shape (spec : StyleSpec) (idx : Nat) (p : Xml) :
    ∀ v ∈ paraViolations spec idx p,
      (v.severity = "warning" ∧ v.suggestion = some
        { action := "set_paragraph_style"
          params := [("paragraph_index", PVal.i (idx : Int)), ("style_id", PVal.s "Body")] }) ∨
      (v.severity = "error" ∧ v.suggestion = some
        { action := "clear_direct_run_formatting"
          params := [("paragraph_index", PVal.i (idx : Int))] }) := by
  intro v hv
  unfold paraViolations at hv
  rw [List.mem_append] at hv
  rcases hv with hv | hv
  · left
    cases hs : getPStyle p with
    | none =>
      simp only [hs] at hv
      exact absurd hv (List.not_mem_nil v)
    | some s =>
      simp only [hs] at hv
      by_cases hcond : s ≠ "" ∧ s ∉ specStyleIds spec ∧ s ≠ "Normal" ∧ s ≠ "DefaultParagraphFont"
      · rw [if_pos hcond] at hv
        rw [List.mem_singleton] at hv
        subst hv
        exact ⟨rfl, rfl⟩
      · rw [if_neg hcond] at hv
        exact absurd hv (List.not_mem_nil v)
  · right
    by_cases hdf : checkRunDirectFormatting (forbidLookup spec.forbidden_direct_formatting) p ≠ []
    · rw [if_pos hdf] at hv
      rw [List.mem_singleton] at hv
      subst hv
      exact ⟨rfl, rfl⟩
    · rw [if_neg hdf] at hv
      exact absurd hv (List.not_mem_nil v)

theorem paraViolations_error_count (spec : StyleSpec) (idx : Nat) (p : Xml) :
    countSeverity (paraViolations spec idx p) "error" =
      dirtyBit (forbidLookup spec.forbidden_direct_formatting) p := by
  unfold paraViolations dirtyBit
  rw [countSeverity_append]
  by_cases hdf : checkRunDirectFormatting (forbidLookup spec.forbidden_direct_formatting) p = []
  · rw [if_pos hdf, if_neg (show ¬ (checkRunDirectFormatting
      (forbidLookup spec.forbidden_direct_formatting) p ≠ []) from fun h => h hdf)]
    split
    · split
      · rfl
      · rfl
    · rfl
  · rw [if_neg hdf, if_pos hdf]
    split
    · split
      · rfl
      · rfl
    · rfl
theorem paras_error_enumFrom (spec : StyleSpec) :
    ∀ (l : List Xml) (k : Nat),
      countSeverity ((List.enumFrom k l).flatMap
        (fun pi => paraViolations spec pi.1 pi.2)) "error" =
      (l.map (dirtyBit (forbidLookup spec.forbidden_direct_formatting))).sum
  | [], k => rfl
  | p :: rest, k => by
    rw [show List.enumFrom k (p :: rest) = (k, p) :: List.enumFrom (k + 1) rest from rfl]
    rw [List.flatMap_cons, countSeverity_append, List.map_cons, List.sum_cons]
    rw [paraViolations_error_count, paras_error_enumFrom spec rest (k + 1)]

theorem paras_error_eq_dirtyD (spec : StyleSpec) (doc : Xml) :
    countSeverity ((allParas doc).enum.flatMap
      (fun pi => paraViolations spec pi.1 pi.2)) "error" =
    dirtyD (forbidLookup spec.forbidden_direct_formatting) doc := by
  rw [show (allParas doc).enum = List.enumFrom 0 (allParas doc) from rfl]
  rw [paras_error_enumFrom]
  cases doc with
  | txt s => rfl
  | elem t a cs =>
    show ((descElemsL "w:p" cs).map _).sum = dirtyL _ cs
    exact dirtySum_L _ cs

theorem validateDocx_summary (t : Xml) (spec : StyleSpec) (r : ValidationReport)
    (h : validateDocx t spec = .ok r) :
    r.summary.errors = countSeverity r.violations "error" := by
  unfold validateDocx at h
  cases hd : docViolations t spec with
  | error e =>
    rw [hd] at h
    simp [Bind.bind, Except.bind] at h
  | ok vs =>
    rw [hd] at h
    simp only [Bind.bind, Except.bind, pure, Except.pure, Except.ok.injEq] at h
    subst h
    rfl

theorem validateDocx_of_layout (t : Xml) (spec : StyleSpec) (lvs : List Violation)
    (h : layoutViolations t spec = .ok lvs) :
    validateDocx t spec = .ok
      (let violations := lvs ++ structureViolations t spec ++
        ((allParas t).enum.flatMap (fun pi => paraViolations spec pi.1 pi.2)) ++
        tocViolations t spec
       { summary := { ok := countSeverity violations "error" = 0
                      errors := countSeverity violations "error"
                      warnings := countSeverity violations "warning"
                      infos := countSeverity violations "info" }
         violations := violations }) := by
  unfold validateDocx docViolations
  rw [h]
  rfl

theorem marginState_applyAction_nonmargin (spec : StyleSpec) (doc : Xml) (act : PatchAction)
    (h : act.action ≠ "set_page_margins") :
    marginState (applyAction spec doc act) = marginState doc := by
  unfold applyAction
  rw [if_neg h]
  by_cases h2 : act.action = "set_paragraph_style"
  · rw [if_pos h2]
    exact marginState_applySetParagraphStyle _ doc
  · rw [if_neg h2]
    by_cases h3 : act.action = "clear_direct_run_formatting"
    · rw [if_pos h3]
      exact marginState_applyClearDirectFormatting _ doc
    · rw [if_neg h3]
      by_cases h4 : act.action = "insert_toc_field"
      · rw [if_pos h4]
        exact marginState_applyInsertToc _ doc
      · rw [if_neg h4]

theorem marginState_applyPatch_nonmargin (spec : StyleSpec) :
    ∀ (acts : List PatchAction) (doc : Xml),
      (∀ act ∈ acts, act.action ≠ "set_page_margins") →
      marginState (acts.foldl (applyAction spec) doc) = marginState doc
  | [], doc, _ => rfl
  | act :: rest, doc, h => by
    rw [List.foldl_cons]
    rw [marginState_applyPatch_nonmargin spec rest (applyAction spec doc act)
      (fun a ha => h a (List.mem_cons_of_mem act ha))]
    exact marginState_applyAction_nonmargin spec doc act (h act (List.mem_cons_self act rest))

theorem marginState_applyAction_some (spec : StyleSpec) (doc : Xml) (act : PatchAction)
    (attrs : List (String × String)) (h : marginState doc = some (some attrs)) :
    marginState (applyAction spec doc act) =
      some (some (setAttrs attrs (actionMarginWrites spec act))) := by
  unfold applyAction actionMarginWrites
  by_cases h1 : act.action = "set_page_margins"
  · rw [if_pos h1, if_pos h1]
    exact marginState_applySetPageMargins spec act.params doc attrs h
  · rw [if_neg h1, if_neg h1]
    rw [show setAttrs attrs [] = attrs from rfl]
    rw [← h]
    by_cases h2 : act.action = "set_paragraph_style"
    · rw [if_pos h2]
      exact marginState_applySetParagraphStyle _ doc
    · rw [if_neg h2]
      by_cases h3 : act.action = "clear_direct_run_formatting"
      · rw [if_pos h3]
        exact marginState_applyClearDirectFormatting _ doc
      · rw [if_neg h3]
        by_cases h4 : act.action = "insert_toc_field"
        · rw [if_pos h4]
          exact marginState_applyInsertToc _ doc
        · rw [if_neg h4]

theorem marginState_applyPatch (spec : StyleSpec) :
    ∀ (acts : List PatchAction) (doc : Xml) (attrs : List (String × String)),
      marginState doc = some (some attrs) →
      marginState (acts.foldl (applyAction spec) doc) =
        some (some (setAttrs attrs (acts.flatMap (actionMarginWrites spec))))
  | [], doc, attrs, h => by
    rw [List.foldl_nil, List.flatMap_nil]
    exact h
  | act :: rest, doc, attrs, h => by
    rw [List.foldl_cons, List.flatMap_cons]
    rw [marginState_applyPatch spec rest (applyAction spec doc act)
      (setAttrs attrs (actionMarginWrites spec act))
      (marginState_applyAction_some spec doc act attrs h)]
    rw [setAttrs_append]

theorem marginChecks_keys (spec : StyleSpec) : (marginChecks spec).map (fun p => "w:" ++ p.1) =
    ["w:top", "w:bottom", "w:left", "w:right", "w:gutter", "w:header", "w:footer"] := rfl

theorem marginChecks_find (spec : StyleSpec) (p : String × Rat)
    (hp : p ∈ marginChecks spec) :
    (marginChecks spec).find? (fun c => c.1 = p.1) = some p := by
  simp only [marginChecks, List.mem_cons, List.not_mem_nil, or_false] at hp
  rcases hp with rfl | rfl | rfl | rfl | rfl | rfl | rfl <;>
    simp [marginChecks, List.find?]

theorem marginChecks_not_target (spec : StyleSpec) (p : String × Rat)
    (hp : p ∈ marginChecks spec) : ¬ (p.1 = "target") := by
  simp only [marginChecks, List.mem_cons, List.not_mem_nil, or_false] at hp
  rcases hp with rfl | rfl | rfl | rfl | rfl | rfl | rfl <;> simp

theorem marginWrites_single (spec : StyleSpec) (p : String × Rat)
    (hp : p ∈ marginChecks spec) (v : PVal) :
    marginWrites spec [("target", PVal.s "section0"), (p.1, v)] =
      [("w:" ++ p.1, intStr (mmToTwips p.2))] := by
  unfold marginWrites
  rw [List.foldl_cons, List.foldl_cons, List.foldl_nil]
  rw [if_pos rfl, if_neg (marginChecks_not_target spec p hp)]
  rw [marginChecks_find spec p hp]
  simp

theorem marginFixWrites_keys_sublist (spec : StyleSpec) (pg : Xml) :
    ∀ (checks : List (String × Rat)),
      ((checks.flatMap (fun p =>
        match marginHit pg p with
        | some _ => [("w:" ++ p.1, intStr (mmToTwips p.2))]
        | none => [])).map Prod.fst).Sublist (checks.map (fun p => "w:" ++ p.1))
  | [] => List.Sublist.refl _
  | p :: rest => by
    rw [List.flatMap_cons, List.map_append, List.map_cons]
    cases hh : marginHit pg p with
    | none =>
      rw [show (match (none : Option Violation) with
        | some _ => [("w:" ++ p.1, intStr (mmToTwips p.2))]
        | none => ([] : List (String × String))) = [] from rfl]
      rw [List.map_nil, List.nil_append]
      exact (marginFixWrites_keys_sublist spec pg rest).cons _
    | some mv =>
      rw [show (match (some mv : Option Violation) with
        | some _ => [("w:" ++ p.1, intStr (mmToTwips p.2))]
        | none => ([] : List (String × String))) =
        [("w:" ++ p.1, intStr (mmToTwips p.2))] from rfl]
      rw [show ([("w:" ++ p.1, intStr (mmToTwips p.2))]).map Prod.fst
        = ["w:" ++ p.1] from rfl]
      rw [List.singleton_append]
      exact (marginFixWrites_keys_sublist spec pg rest).cons₂ _

theorem marginFixWrites_nodup (spec : StyleSpec) (pg : Xml) :
    ((marginFixWrites spec pg).map Prod.fst).Nodup := by
  have h1 : ((marginChecks spec).map (fun p => "w:" ++ p.1)).Nodup := by
    rw [marginChecks_keys]
    decide
  exact (marginFixWrites_keys_sublist spec pg (marginChecks spec)).nodup h1

theorem marginFixWrites_mem (spec : StyleSpec) (pg : Xml) (p : String × Rat)
    (hp : p ∈ marginChecks spec) (mv : Violation) (hh : marginHit pg p = some mv) :
    ("w:" ++ p.1, intStr (mmToTwips p.2)) ∈ marginFixWrites spec pg := by
  unfold marginFixWrites
  rw [List.mem_flatMap]
  refine ⟨p, hp, ?_⟩
  rw [hh]
  exact List.mem_singleton.mpr rfl

theorem marginFixWrites_not_mem (spec : StyleSpec) (pg : Xml) (p : String × Rat)
    (hp : p ∈ marginChecks spec) (hh : marginHit pg p = none) :
    "w:" ++ p.1 ∉ (marginFixWrites spec pg).map Prod.fst := by
  intro hmem
  rw [List.mem_map] at hmem
  obtain ⟨w, hw, hkey⟩ := hmem
  unfold marginFixWrites at hw
  rw [List.mem_flatMap] at hw
  obtain ⟨q, hq, hwq⟩ := hw
  cases hhq : marginHit pg q with
  | none =>
    rw [hhq] at hwq
    exact absurd hwq (List.not_mem_nil w)
  | some mv =>
    rw [hhq] at hwq
    rw [List.mem_singleton] at hwq
    subst hwq
    have hk : q.1 = p.1 := wPrefix_inj hkey
    have hv : q.2 = p.2 := marginChecks_key_inj spec q p hq hp hk
    have : q = p := Prod.ext hk hv
    subst this
    rw [hh] at hhq
    exact Option.noConfusion hhq

/-- A key not written keeps its original value. -/
theorem getAttr_setAttrs_singles :
    ∀ (ws : List (String × String)) (a : List (String × String)) (k v : String),
      (ws.map Prod.fst).Nodup → (k, v) ∈ ws → getAttr (setAttrs a ws) k = some v
  | [], a, k, v, _, hmem => absurd hmem (List.not_mem_nil _)
  | (k0, v0) :: rest, a, k, v, hnd, hmem => by
    rw [List.map_cons, List.nodup_cons] at hnd
    rw [setAttrs_cons]
    rcases List.mem_cons.mp hmem with heq | hmem2
    · rw [Prod.mk.injEq] at heq
      obtain ⟨rfl, rfl⟩ := heq
      rw [getAttr_setAttrs_not_mem rest _ _ hnd.1]
      exact getAttr_setAttr_same a k v
    · exact getAttr_setAttrs_singles rest _ k v hnd.2 hmem2
theorem checkMargins_ok_no_bad (pg : Xml) :
    ∀ (checks : List (String × Rat)) (acc vs : List Violation),
      checks.foldlM (marginStep pg) acc = .ok vs →
      ∀ p ∈ checks, ∀ v, pg.getA ("w:" ++ p.1) = some v → pyInt v ≠ none
  | [], acc, vs, _, p, hp => absurd hp (List.not_mem_nil p)
  | q :: rest, acc, vs, h, p, hp => by
    intro v hA hP
    rw [List.foldlM_cons] at h
    cases hstep : marginStep pg acc q with
    | error e =>
      rw [hstep] at h
      simp [Bind.bind, Except.bind] at h
    | ok acc2 =>
      rw [hstep] at h
      simp only [Bind.bind, Except.bind] at h
      rcases List.mem_cons.mp hp with rfl | hp2
      · rw [marginStep_bad pg acc p v hA hP] at hstep
        have h2 : (Except.error "invalid literal for int()" : Except String (List Violation))
            = .ok acc2 := hstep
        exact Except.noConfusion h2
      · exact checkMargins_ok_no_bad pg rest acc2 vs h p hp2 v hA hP

theorem checkMargins_all_pure (pg : Xml) :
    ∀ (checks : List (String × Rat)) (acc : List Violation),
      (∀ p ∈ checks, ∀ a, marginStep pg a p = pure a) →
      checks.foldlM (marginStep pg) acc = .ok acc
  | [], acc, _ => rfl
  | q :: rest, acc, h => by
    rw [List.foldlM_cons, h q (List.mem_cons_self q rest) acc]
    simp only [pure, Except.pure, Bind.bind, Except.bind]
    exact checkMargins_all_pure pg rest acc (fun p hp => h p (List.mem_cons_of_mem q hp))

theorem marginStep_pure_close (pg : Xml) (a : List Violation) (p : String × Rat)
    (v : String) (act : Int) (hA : pg.getA ("w:" ++ p.1) = some v)
    (hP : pyInt v = some act) (hle : (act - mmToTwips p.2).natAbs ≤ 10) :
    marginStep pg a p = pure a := by
  unfold marginStep
  simp only [hA, hP]
  rw [if_neg (by omega)]

/-- After the fixer's margin writes, the margin loop re-runs clean. -/
theorem checkMargins_fixed_ok (spec : StyleSpec) (pg : Xml) (vs0 : List Violation)
    (hok : checkMargins pg spec = .ok vs0) :
    checkMargins (Xml.elem "w:pgMar"
      (setAttrs pg.attrsOf (marginFixWrites spec pg)) XmlList.nil) spec = .ok [] := by
  apply checkMargins_all_pure
  intro p hp a
  have hget : ∀ k, (Xml.elem "w:pgMar"
      (setAttrs pg.attrsOf (marginFixWrites spec pg)) XmlList.nil).getA k =
      getAttr (setAttrs pg.attrsOf (marginFixWrites spec pg)) k := fun k => rfl
  cases hh : marginHit pg p with
  | some mv =>
    obtain ⟨v, act, hA, hP, hgt, rfl⟩ := marginHit_some_elim pg p mv hh
    have hmem := marginFixWrites_mem spec pg p hp _ hh
    have hv : getAttr (setAttrs pg.attrsOf (marginFixWrites spec pg)) ("w:" ++ p.1)
        = some (intStr (mmToTwips p.2)) :=
      getAttr_setAttrs_singles _ _ _ _ (marginFixWrites_nodup spec pg) hmem
    refine marginStep_pure_close _ a p (intStr (mmToTwips p.2)) (mmToTwips p.2)
      ((hget _).trans hv) (pyInt_intStr _) ?_
    simp
  | none =>
    have hnm := marginFixWrites_not_mem spec pg p hp hh
    have hsame : getAttr (setAttrs pg.attrsOf (marginFixWrites spec pg)) ("w:" ++ p.1)
        = getAttr pg.attrsOf ("w:" ++ p.1) :=
      getAttr_setAttrs_not_mem _ _ _ hnm
    cases hA : pg.getA ("w:" ++ p.1) with
    | none =>
      apply marginStep_none
      rw [hget, hsame]
      exact hA
    | some v =>
      have hPne := checkMargins_ok_no_bad pg (marginChecks spec) [] vs0 hok p hp v hA
      cases hP : pyInt v with
      | none => exact absurd hP hPne
      | some act =>
        have hle : (act - mmToTwips p.2).natAbs ≤ 10 := by
          by_contra hgt
          unfold marginHit at hh
          simp only [hA, hP] at hh
          rw [if_pos (by omega)] at hh
          exact Option.noConfusion hh
        exact marginStep_pure_close _ a p v act ((hget _).trans (hsame.trans hA)) hP hle
theorem amw_eq_nil (spec : StyleSpec) (act : PatchAction)
    (h : act.action ≠ "set_page_margins") : actionMarginWrites spec act = [] := by
  unfold actionMarginWrites
  rw [if_neg h]

theorem structure_acts_nil (doc : Xml) (spec : StyleSpec) :
    (structureViolations doc spec).filterMap
      (fun v => v.suggestion.map (fun s => ({ action := s.action, params := s.params } :
        PatchAction))) = [] := by
  rw [List.filterMap_eq_nil_iff]
  intro v hv
  rw [(structureViolations_warning doc spec v hv).2]
  rfl

theorem paras_acts_action (spec : StyleSpec) (doc : Xml) :
    ∀ act ∈ (((allParas doc).enum.flatMap
        (fun pi => paraViolations spec pi.1 pi.2)).filterMap
      (fun v => v.suggestion.map (fun s => ({ action := s.action, params := s.params } :
        PatchAction)))),
      act.action = "set_paragraph_style" ∨ act.action = "clear_direct_run_formatting" := by
  intro act hact
  rw [List.mem_filterMap] at hact
  obtain ⟨v, hv, hmap⟩ := hact
  rw [List.mem_flatMap] at hv
  obtain ⟨pi, _, hvp⟩ := hv
  rcases paraViolations_shape spec pi.1 pi.2 v hvp with ⟨_, hsug⟩ | ⟨_, hsug⟩
  · left
    rw [hsug] at hmap
    simp only [Option.map_some', Option.some.injEq] at hmap
    rw [← hmap]
  · right
    rw [hsug] at hmap
    simp only [Option.map_some', Option.some.injEq] at hmap
    rw [← hmap]

theorem toc_acts_action (spec : StyleSpec) (doc : Xml) :
    ∀ act ∈ ((tocViolations doc spec).filterMap
      (fun v => v.suggestion.map (fun s => ({ action := s.action, params := s.params } :
        PatchAction)))),
      act.action = "insert_toc_field" := by
  intro act hact
  rw [List.mem_filterMap] at hact
  obtain ⟨v, hv, hmap⟩ := hact
  have hsug := (tocViolations_warning doc spec v hv).2
  rw [hsug] at hmap
  simp only [Option.map_some', Option.some.injEq] at hmap
  rw [← hmap]

theorem margin_acts_writes (spec : StyleSpec) (pg : Xml) :
    ∀ (checks : List (String × Rat)), (∀ p ∈ checks, p ∈ marginChecks spec) →
      ((checks.filterMap (marginHit pg)).filterMap
        (fun v => v.suggestion.map (fun s => ({ action := s.action, params := s.params } :
          PatchAction)))).flatMap (actionMarginWrites spec)
      = checks.flatMap (fun p =>
          match marginHit pg p with
          | some _ => [("w:" ++ p.1, intStr (mmToTwips p.2))]
          | none => [])
  | [], _ => rfl
  | p :: rest, hmem => by
    rw [List.filterMap_cons, List.flatMap_cons]
    cases hh : marginHit pg p with
    | none =>
      rw [margin_acts_writes spec pg rest (fun q hq => hmem q (List.mem_cons_of_mem p hq))]
      rfl
    | some mv =>
      obtain ⟨v, act, hA, hP, hgt, rfl⟩ := marginHit_some_elim pg p mv hh
      rw [List.filterMap_cons]
      rw [show (marginViolation p.1 p.2 act).suggestion.map
        (fun s => ({ action := s.action, params := s.params } : PatchAction))
        = some { action := "set_page_margins"
                 params := [("target", PVal.s "section0"), (p.1, PVal.i (mmToTwips p.2))] }
        from rfl]
      rw [List.flatMap_cons]
      rw [show actionMarginWrites spec
        { action := "set_page_margins"
          params := [("target", PVal.s "section0"), (p.1, PVal.i (mmToTwips p.2))] }
        = marginWrites spec [("target", PVal.s "section0"), (p.1, PVal.i (mmToTwips p.2))]
        from rfl]
      rw [marginWrites_single spec p (hmem p (List.mem_cons_self p rest)) _]
      rw [margin_acts_writes spec pg rest (fun q hq => hmem q (List.mem_cons_of_mem p hq))]
theorem missing_acts_nil_sectpr :
    ([sectprMissingViolation].filterMap
      (fun v => v.suggestion.map (fun s => ({ action := s.action, params := s.params } :
        PatchAction)))) = [] := rfl

theorem missing_acts_nil_pgmar :
    ([pgmarMissingViolation].filterMap
      (fun v => v.suggestion.map (fun s => ({ action := s.action, params := s.params } :
        PatchAction)))) = [] := rfl

theorem errors_decomp (d : Xml) (s : StyleSpec) (report : ValidationReport)
    (lvs : List Violation) (h : validateDocx d s = .ok report)
    (hv : report.violations = lvs ++ structureViolations d s ++
      ((allParas d).enum.flatMap (fun pi => paraViolations s pi.1 pi.2)) ++
      tocViolations d s) :
    report.summary.errors = countSeverity lvs "error" +
      dirtyD (forbidLookup s.forbidden_direct_formatting) d := by
  rw [validateDocx_summary d s report h, hv]
  rw [countSeverity_append, countSeverity_append, countSeverity_append]
  rw [countSeverity_eq_zero (structureViolations d s) _
    (fun v hv2 => by rw [(structureViolations_warning d s v hv2).1]; decide)]
  rw [countSeverity_eq_zero (tocViolations d s) _
    (fun v hv2 => by rw [(tocViolations_warning d s v hv2).1]; decide)]
  rw [paras_error_eq_dirtyD]
  omega

/-- C2: repairing with the report's own patch and re-validating never
increases the error count. -/
theorem c2_fixer_convergence (d : Xml) (s : StyleSpec) (report : ValidationReport)
    (h : validateDocx d s = .ok report) :
    ∃ r2, validateDocx (fixDocx d report s) s = .ok r2 ∧
      r2.summary.errors ≤ report.summary.errors := by
  obtain ⟨lvs, hl, hv⟩ := validateDocx_ok_elim d s report h
  have hfix0 : fixDocx d report s = if (buildPatchFromReport report).actions = [] then d
      else applyPatch d (buildPatchFromReport report) s := rfl
  by_cases hemp : (buildPatchFromReport report).actions = []
  · refine ⟨report, ?_, Nat.le_refl _⟩
    rw [hfix0, if_pos hemp]
    exact h
  · have hfix : fixDocx d report s =
        (buildPatchFromReport report).actions.foldl (applyAction s) d := by
      rw [hfix0, if_neg hemp]
      rfl
    have hacts : (buildPatchFromReport report).actions =
        lvs.filterMap (fun v => v.suggestion.map
          (fun s => ({ action := s.action, params := s.params } : PatchAction))) ++
        (structureViolations d s).filterMap (fun v => v.suggestion.map
          (fun s => ({ action := s.action, params := s.params } : PatchAction))) ++
        (((allParas d).enum.flatMap (fun pi => paraViolations s pi.1 pi.2))).filterMap
          (fun v => v.suggestion.map
            (fun s => ({ action := s.action, params := s.params } : PatchAction))) ++
        (tocViolations d s).filterMap (fun v => v.suggestion.map
          (fun s => ({ action := s.action, params := s.params } : PatchAction))) := by
      show (buildPatchFromReport report).actions = _
      unfold buildPatchFromReport
      rw [hv, List.filterMap_append, List.filterMap_append, List.filterMap_append]
    have herr := errors_decomp d s report lvs h hv
    have hdirty : dirtyD (forbidLookup s.forbidden_direct_formatting)
        ((buildPatchFromReport report).actions.foldl (applyAction s) d) ≤
        dirtyD (forbidLookup s.forbidden_direct_formatting) d :=
      dirtyD_applyPatch s _ d
    rw [layoutViolations_eq_S] at hl
    have hmain : ∃ lvs2, layoutViolations
        ((buildPatchFromReport report).actions.foldl (applyAction s) d) s = .ok lvs2 ∧
        countSeverity lvs2 "error" ≤ countSeverity lvs "error" := by
      cases hms : marginState d with
      | none =>
        rw [hms] at hl
        have hlvs : lvs = [sectprMissingViolation] := by
          have : Except.ok (ε := String) [sectprMissingViolation] = .ok lvs := hl
          exact ((Except.ok.injEq _ _).mp this).symm
        have hnomargin : ∀ act ∈ (buildPatchFromReport report).actions,
            act.action ≠ "set_page_margins" := by
          intro act hact
          rw [hacts, hlvs, missing_acts_nil_sectpr, structure_acts_nil] at hact
          simp only [List.nil_append, List.mem_append] at hact
          rcases hact with hact | hact
          · rcases paras_acts_action s d act hact with hn | hn <;> rw [hn] <;> decide
          · rw [toc_acts_action s d act hact]
            decide
        refine ⟨[sectprMissingViolation], ?_, by rw [hlvs]⟩
        rw [layoutViolations_eq_S,
          marginState_applyPatch_nonmargin s _ d hnomargin, hms]
        rfl
      | some o =>
        cases o with
        | none =>
          rw [hms] at hl
          have hlvs : lvs = [pgmarMissingViolation] := by
            have : Except.ok (ε := String) [pgmarMissingViolation] = .ok lvs := hl
            exact ((Except.ok.injEq _ _).mp this).symm
          have hnomargin : ∀ act ∈ (buildPatchFromReport report).actions,
              act.action ≠ "set_page_margins" := by
            intro act hact
            rw [hacts, hlvs, missing_acts_nil_pgmar, structure_acts_nil] at hact
            simp only [List.nil_append, List.mem_append] at hact
            rcases hact with hact | hact
            · rcases paras_acts_action s d act hact with hn | hn <;> rw [hn] <;> decide
            · rw [toc_acts_action s d act hact]
              decide
          refine ⟨[pgmarMissingViolation], ?_, by rw [hlvs]⟩
          rw [layoutViolations_eq_S,
            marginState_applyPatch_nonmargin s _ d hnomargin, hms]
          rfl
        | some attrs0 =>
          rw [hms] at hl
          have hok : checkMargins (Xml.elem "w:pgMar" attrs0 XmlList.nil) s = .ok lvs := hl
          have hlvs : lvs = (marginChecks s).filterMap
              (marginHit (Xml.elem "w:pgMar" attrs0 XmlList.nil)) := by
            have := marginFold_ok (Xml.elem "w:pgMar" attrs0 XmlList.nil)
              (marginChecks s) [] lvs hok
            simpa using this
          have hws : (buildPatchFromReport report).actions.flatMap (actionMarginWrites s) =
              marginFixWrites s (Xml.elem "w:pgMar" attrs0 XmlList.nil) := by
            rw [hacts, hlvs]
            rw [List.flatMap_append, List.flatMap_append, List.flatMap_append]
            rw [margin_acts_writes s (Xml.elem "w:pgMar" attrs0 XmlList.nil)
              (marginChecks s) (fun q hq => hq)]
            rw [structure_acts_nil, List.flatMap_nil]
            rw [List.flatMap_eq_nil_iff.mpr (fun act hact => amw_eq_nil s act (by
              rcases paras_acts_action s d act hact with hn | hn <;> rw [hn] <;> decide))]
            rw [List.flatMap_eq_nil_iff.mpr (fun act hact => amw_eq_nil s act (by
              rw [toc_acts_action s d act hact]; decide))]
            simp [marginFixWrites]
          have hms2 : marginState
              ((buildPatchFromReport report).actions.foldl (applyAction s) d) =
              some (some (setAttrs attrs0
                (marginFixWrites s (Xml.elem "w:pgMar" attrs0 XmlList.nil)))) := by
            rw [marginState_applyPatch s _ d attrs0 hms, hws]
          refine ⟨[], ?_, Nat.zero_le _⟩
          rw [layoutViolations_eq_S, hms2]
          exact checkMargins_fixed_ok s (Xml.elem "w:pgMar" attrs0 XmlList.nil) lvs hok
    obtain ⟨lvs2, hl2, hle2⟩ := hmain
    refine ⟨_, by rw [hfix]; exact validateDocx_of_layout _ s lvs2 hl2, ?_⟩
    have herr2 := errors_decomp ((buildPatchFromReport report).actions.foldl (applyAction s) d)
      s _ lvs2 (validateDocx_of_layout _ s lvs2 hl2) rfl
    rw [herr2, herr]
    omega
theorem c2_fixer_convergence_witness :
    ∃ r, validateDocx exampleDoc exampleSpec = .ok r ∧
      ∃ r2, validateDocx (fixDocx exampleDoc r exampleSpec) exampleSpec = .ok r2 ∧
        r2.summary.errors ≤ r.summary.errors := by
  refine ⟨(validateDocx exampleDoc exampleSpec).toOption.getD
    (ValidationReport.mk (ValidationSummary.mk false 0 0 0) []), ?_, ?_⟩
  · rfl
  · exact c2_fixer_convergence exampleDoc exampleSpec _ rfl

end WordFormatter
